import Mathlib

/-!
# cfunge: Funge-space, the iterate instruction and three fingerprints

A shallow embedding of `src/funge-space/funge-space.c`,
`src/instructions/iterate.c` (both builds, without and with
`CONCURRENT_FUNGE`) and of parts of `src/fingerprints/FILE/FILE.c`,
`src/fingerprints/ROMA/ROMA.c` and `src/fingerprints/TOYS/TOYS.c`, with
theorems about them.

Conventions of the embedding.

* `FUNGEDATATYPE` and `FUNGEVECTORTYPE` are signed C integers whose width is
  fixed in `global.h`.  Signed overflow is undefined behaviour in C, so the
  embedding uses mathematical integers (it writes `Int` for both types) and
  describes the executions in which no coordinate computation overflows.
* The global `fspace` is passed explicitly.  Each chunk obtained from
  `cf_malloc_noptr` is identified by a number (the n-th chunk allocated); a
  pointer to a cell is a chunk number and an index.  `mem` holds the contents
  of all chunks.  Allocation is assumed to succeed (the C code aborts
  otherwise).
* A file is the list of its bytes, as the values of C `char`.
-/

namespace Cfunge

/-! ## Vectors and rectangles (`vector.h`, `rect.h`) -/

abbrev FUNGEDATATYPE := Int
abbrev FUNGEVECTORTYPE := Int

/-- The struct `fungeVector`: a pair of signed coordinates. -/
structure fungeVector where
  x : Int
  y : Int
deriving DecidableEq, Repr

abbrev fungePosition := fungeVector
abbrev ipDelta := fungeVector

/-- The struct `fungeRect`. -/
structure fungeRect where
  x : Int
  y : Int
  w : Int
  h : Int
deriving DecidableEq, Repr

/-- Modelled from the spec: `VectorIsCardinal` of `vector.c`, which is not among
the sources. Spec, section 3: a vector is cardinal iff exactly one component is
+1 or -1 and the other is 0. -/
def VectorIsCardinal (v : fungeVector) : Bool :=
  ((v.x = 1 ∨ v.x = -1) ∧ v.y = 0) ∨ (v.x = 0 ∧ (v.y = 1 ∨ v.y = -1))

/-! ## The hash table and the cell storage -/

/-- The number of cells allocated at a time. -/
def FUNGESPACEALLOCCHUNK : Nat := 1024

/-- A pointer `Int*` into one of the chunks: which chunk, and the
index in it. -/
structure CellPtr where
  chunk : Nat
  index : Nat
deriving DecidableEq, Repr

/-- Modelled from the spec: the hash table of `lib/libghthash`, which is not
among the sources. Spec, section 3: Funge-space is a mapping from Vector to
Cell; here the table maps a position to the pointer stored for it, `none` being
the `NULL` that `ght_get` returns for an absent key. -/
abbrev ght_hash_table_t := fungePosition → Option CellPtr

/-- Modelled from the spec: `ght_create`, the empty table. -/
def ght_create : ght_hash_table_t := fun _ => none

/-- Modelled from the spec: `ght_get`, the pointer stored for the key or `NULL`. -/
def ght_get (t : ght_hash_table_t) (key : fungePosition) : Option CellPtr := t key

/-- Modelled from the spec: `ght_insert`, which stores the pointer for a key
that is absent and returns 0, and leaves the table alone and returns -1 when the
key is present. -/
def ght_insert (t : ght_hash_table_t) (data : CellPtr) (key : fungePosition) :
    ght_hash_table_t × Int :=
  match t key with
  | some _ => (t, -1)
  | none => (fun k => if k = key then some data else t k, 0)

/-- Modelled from the spec: `ght_replace`, which stores the pointer for a key
that is present. -/
def ght_replace (t : ght_hash_table_t) (data : CellPtr) (key : fungePosition) :
    ght_hash_table_t :=
  match t key with
  | some _ => fun k => if k = key then some data else t k
  | none => t

/-- Modelled from the spec: `ght_remove`, which deletes the key. -/
def ght_remove (t : ght_hash_table_t) (key : fungePosition) : ght_hash_table_t :=
  fun k => if k = key then none else t k

/-- The struct `fungeSpace`, with the memory of the chunks made explicit. -/
structure fungeSpace where
  topLeftCorner : fungePosition
  bottomRightCorner : fungePosition
  entries : ght_hash_table_t
  allocarray : Nat
  allocarrayCurrent : Nat
  mem : CellPtr → Int

/-- Writing through a pointer: `*ptr = value`. -/
def store (mem : CellPtr → Int) (ptr : CellPtr) (value : Int) :
    CellPtr → Int :=
  fun q => if q = ptr then value else mem q

/-! ## funge-space.c -/

/-- The function `FungeSpaceInRange`. -/
def FungeSpaceInRange (fspace : fungeSpace) (position : fungePosition) : Bool :=
  if position.x > fspace.bottomRightCorner.x ∨ position.x < fspace.topLeftCorner.x then
    false
  else if position.y > fspace.bottomRightCorner.y ∨ position.y < fspace.topLeftCorner.y then
    false
  else
    true

/-- The function `FungeSpaceCreate`: an empty table, the first chunk (number 0)
with `allocarrayCurrent = 0`, and both corners at the origin. The initial
contents of the chunk are irrelevant; they are taken to be 0. -/
def FungeSpaceCreate : fungeSpace :=
  { topLeftCorner := ⟨0, 0⟩
    bottomRightCorner := ⟨0, 0⟩
    entries := ght_create
    allocarray := 0
    allocarrayCurrent := 0
    mem := fun _ => 0 }

/-- The function `FungeSpaceGetBoundRect`, with the exact differences: the rect
it returns whenever the two subtractions do not overflow `FUNGEVECTORTYPE`
(`FungeSpaceGetBoundRectBits` below carries them out in the width of the type). -/
def FungeSpaceGetBoundRect (fspace : fungeSpace) : fungeRect :=
  { x := fspace.topLeftCorner.x
    y := fspace.topLeftCorner.y
    w := fspace.bottomRightCorner.x - fspace.topLeftCorner.x
    h := fspace.bottomRightCorner.y - fspace.topLeftCorner.y }

/-- The function `FungeSpaceGet`: the space character 32 for an absent key. -/
def FungeSpaceGet (fspace : fungeSpace) (position : fungePosition) : Int :=
  match ght_get fspace.entries position with
  | none => 32
  | some tmp => fspace.mem tmp

/-- The function `FungeSpaceGetOff`. -/
def FungeSpaceGetOff (fspace : fungeSpace) (position offset : fungePosition) : Int :=
  match ght_get fspace.entries ⟨position.x + offset.x, position.y + offset.y⟩ with
  | none => 32
  | some result => fspace.mem result

/-- The function `FungeSpaceInternalAlloc`: returns the pointer to the cell and
the new state. A new chunk gets the next chunk number. -/
def FungeSpaceInternalAlloc (value : Int) (fspace : fungeSpace) :
    CellPtr × fungeSpace :=
  let s1 : fungeSpace :=
    if fspace.allocarrayCurrent > FUNGESPACEALLOCCHUNK - 2 then
      { fspace with allocarray := fspace.allocarray + 1, allocarrayCurrent := 0 }
    else
      { fspace with allocarrayCurrent := fspace.allocarrayCurrent + 1 }
  let ptr : CellPtr := ⟨s1.allocarray, s1.allocarrayCurrent⟩
  (ptr, { s1 with mem := store s1.mem ptr value })

/-- The function `FungeSpaceSetNoBoundUpdate`. -/
def FungeSpaceSetNoBoundUpdate (value : Int) (position : fungePosition)
    (fspace : fungeSpace) : fungeSpace :=
  if value = 32 then
    { fspace with entries := ght_remove fspace.entries position }
  else
    match ght_get fspace.entries position with
    | some tmp => { fspace with mem := store fspace.mem tmp value }
    | none =>
      let r := FungeSpaceInternalAlloc value fspace
      let ins := ght_insert r.2.entries r.1 position
      if ins.2 = -1 then
        { r.2 with entries := ght_replace r.2.entries r.1 position }
      else
        { r.2 with entries := ins.1 }

/-- The function `FungeSpaceSet`. -/
def FungeSpaceSet (value : Int) (position : fungePosition)
    (fspace : fungeSpace) : fungeSpace :=
  let s0 := FungeSpaceSetNoBoundUpdate value position fspace
  let s1 := if s0.bottomRightCorner.y < position.y then
      { s0 with bottomRightCorner := { s0.bottomRightCorner with y := position.y } } else s0
  let s2 := if s1.bottomRightCorner.x < position.x then
      { s1 with bottomRightCorner := { s1.bottomRightCorner with x := position.x } } else s1
  let s3 := if s2.topLeftCorner.y > position.y then
      { s2 with topLeftCorner := { s2.topLeftCorner with y := position.y } } else s2
  if s3.topLeftCorner.x > position.x then
    { s3 with topLeftCorner := { s3.topLeftCorner with x := position.x } } else s3

/-- The function `FungeSpaceSetOff`. -/
def FungeSpaceSetOff (value : Int) (position offset : fungePosition)
    (fspace : fungeSpace) : fungeSpace :=
  FungeSpaceSet value ⟨position.x + offset.x, position.y + offset.y⟩ fspace

/-- The `do ... while` loop of the non-cardinal branch of `FungeSpaceWrap`:
`backUp fspace delta n position` subtracts `delta` and goes on while the position
is in range. It takes fuel: at most `n` passes through the body, `none` when
that is not enough. -/
def backUp (fspace : fungeSpace) (delta : fungeVector) :
    Nat → fungePosition → Option fungePosition
  | 0, _ => none
  | n + 1, position =>
    let p : fungePosition := ⟨position.x - delta.x, position.y - delta.y⟩
    if FungeSpaceInRange fspace p then backUp fspace delta n p else some p

/-- A number of passes that is always enough for `backUp` on a position out of
range (see `backUp_wrapFuel`): width plus height of the rectangle, plus two. -/
def wrapFuel (fspace : fungeSpace) : Nat :=
  (fspace.bottomRightCorner.x - fspace.topLeftCorner.x).toNat
    + (fspace.bottomRightCorner.y - fspace.topLeftCorner.y).toNat + 2

/-- The cardinal branch of `FungeSpaceWrap`. -/
def wrapCardinal (fspace : fungeSpace) (position : fungePosition) : fungePosition :=
  let x :=
    if position.x < fspace.topLeftCorner.x then fspace.bottomRightCorner.x
    else if position.x ≥ fspace.bottomRightCorner.x then fspace.topLeftCorner.x
    else position.x
  let y :=
    if position.y < fspace.topLeftCorner.y then fspace.bottomRightCorner.y
    else if position.y ≥ fspace.bottomRightCorner.y then fspace.topLeftCorner.y
    else position.y
  ⟨x, y⟩

/-- The function `FungeSpaceWrap`. The back-up loop runs with `wrapFuel`, which
`backUp_wrapFuel` shows to be enough, so the `none` branch is never taken. -/
def FungeSpaceWrap (fspace : fungeSpace) (position : fungePosition)
    (delta : fungeVector) : fungePosition :=
  if VectorIsCardinal delta then
    wrapCardinal fspace position
  else if !FungeSpaceInRange fspace position then
    match backUp fspace delta (wrapFuel fspace) position with
    | some p => ⟨p.x + delta.x, p.y + delta.y⟩
    | none => position
  else
    position

/-! ## Loading (`FungeSpaceLoad`, `FungeSpaceLoadAtOffset`) -/

/-- Modelled from the spec: `cf_getline` of `support.c`, which is not among the
sources; it is the POSIX `getline`. The list holds the lines that the successive
calls return until the end of the file: each line ends with its newline (10),
except a last line that the file does not terminate. -/
def cf_getlines : List Int → List (List Int)
  | [] => []
  | c :: rest =>
    if c = 10 then [10] :: cf_getlines rest
    else
      match cf_getlines rest with
      | [] => [[c]]
      | l :: ls => (c :: l) :: ls

/-- The local variables of `FungeSpaceLoad` together with the space. -/
structure LoadState where
  fspace : fungeSpace
  x : Int
  y : Int
  noendingnewline : Bool

/-- The statement `if (fspace->bottomRightCorner.x < x) fspace->bottomRightCorner.x = x;`. -/
def widenRight (fspace : fungeSpace) (x : Int) : fungeSpace :=
  if fspace.bottomRightCorner.x < x then
    { fspace with bottomRightCorner := { fspace.bottomRightCorner with x := x } }
  else fspace

/-- The `for` loop of `FungeSpaceLoad` over one line. The list is the line
without its terminating NUL: the end of the list is the NUL, and so is a byte 0
in the line. -/
def loadLine : List Int → LoadState → LoadState
  | [], st => { st with fspace := widenRight st.fspace st.x }
  | c :: rest, st =>
    if c = 0 then
      { st with fspace := widenRight st.fspace st.x }
    else if c = 13 ∧ rest.head? = some 10 then
      match rest with
      | [] => st
      | _ :: rest2 =>
        loadLine rest2
          { fspace := widenRight st.fspace st.x, x := 0, y := st.y + 1, noendingnewline := false }
    else if c = 10 ∨ c = 13 then
      loadLine rest
        { fspace := widenRight st.fspace st.x, x := 0, y := st.y + 1, noendingnewline := false }
    else
      loadLine rest
        { fspace := FungeSpaceSetNoBoundUpdate c ⟨st.x, st.y⟩ st.fspace,
          x := st.x + 1, y := st.y, noendingnewline := true }

/-- The function `FungeSpaceLoad`, applied to the bytes of the file (the case
in which `fopen` succeeds). -/
def FungeSpaceLoad (file : List Int) (fspace : fungeSpace) : fungeSpace :=
  let st := (cf_getlines file).foldl (fun st line => loadLine line st)
    { fspace := fspace, x := 0, y := 0, noendingnewline := true }
  let y := if st.noendingnewline then st.y + 1 else st.y
  if st.fspace.bottomRightCorner.y < y then
    { st.fspace with bottomRightCorner := { st.fspace.bottomRightCorner with y := y } }
  else st.fspace

/-- The local variables of `FungeSpaceLoadAtOffset` together with the space and
the `size` under construction. -/
structure LoadAtState where
  fspace : fungeSpace
  x : Int
  y : Int
  size : fungeVector

/-- The statement `if (x > size->x) size->x = x;`. -/
def growSizeX (size : fungeVector) (x : Int) : fungeVector :=
  if x > size.x then { size with x := x } else size

/-- The `for` loop of `FungeSpaceLoadAtOffset` over one line (the line without
its terminating NUL, as in `loadLine`). -/
def loadAtOffsetLine (offset : fungePosition) (binary : Bool) :
    List Int → LoadAtState → LoadAtState
  | [], st => st
  | c :: rest, st =>
    if c = 0 then
      st
    else if !binary ∧ c = 13 ∧ rest.head? = some 10 then
      match rest with
      | [] => st
      | _ :: rest2 =>
        loadAtOffsetLine offset binary rest2
          { st with size := growSizeX st.size st.x, x := 0, y := st.y + 1 }
    else if !binary ∧ (c = 10 ∨ c = 13) then
      loadAtOffsetLine offset binary rest
        { st with size := growSizeX st.size st.x, x := 0, y := st.y + 1 }
    else
      loadAtOffsetLine offset binary rest
        { st with
          fspace := if c ≠ 32 then FungeSpaceSetOff c ⟨st.x, st.y⟩ offset st.fspace
                    else st.fspace,
          x := st.x + 1 }

/-- The function `FungeSpaceLoadAtOffset`, applied to the bytes of the file (the
case in which `fopen` succeeds): the new space and the `size` written. -/
def FungeSpaceLoadAtOffset (file : List Int) (offset : fungePosition) (binary : Bool)
    (fspace : fungeSpace) : fungeSpace × fungeVector :=
  let st := (cf_getlines file).foldl (fun st line => loadAtOffsetLine offset binary line st)
    { fspace := fspace, x := 0, y := 0, size := ⟨0, 0⟩ }
  let size1 := growSizeX st.size st.x
  let size2 := if st.y > size1.y then { size1 with y := st.y } else size1
  (st.fspace, size2)

/-! ## The instruction pointer (`ip.h`, `stack.h`) -/

/-- Modelled from the spec: the struct `instructionPointer` of `ip.h`, which is
not among the sources, with the fields of section 3 that the code under study
reads or writes: the current stack `ip->stack` (top of the stack first), the
position, the delta and the storage offset. -/
structure instructionPointer where
  stack : List Int
  position : fungePosition
  delta : ipDelta
  storageOffset : fungePosition
deriving DecidableEq, Repr

/-- Modelled from the spec: `StackPop` of `stack.c`, which is not among the
sources. Spec, section 3: pop from an empty stack yields 0. The result is the
value popped and the stack that remains. -/
def StackPop : List Int → Int × List Int
  | [] => (0, [])
  | v :: rest => (v, rest)

/-- Modelled from the spec: `StackPush` of `stack.c`, which is not among the sources. -/
def StackPush (stack : List Int) (value : Int) : List Int :=
  value :: stack

/-- Modelled from the spec: `ipReverse` of `ip.c`, which is not among the
sources. Spec, section 4.D: `reverse` negates delta. -/
def ipReverse (ip : instructionPointer) : instructionPointer :=
  { ip with delta := ⟨-ip.delta.x, -ip.delta.y⟩ }

/-- Modelled from the spec: `ipForward` of `ip.c`, which is not among the
sources. Spec, section 4.D: `forward(n)` advances position by n·delta, applying
wrap on exit from bounding rect. -/
def ipForward (fspace : fungeSpace) (ip : instructionPointer) (steps : Int) :
    instructionPointer :=
  let p : fungePosition :=
    ⟨ip.position.x + ip.delta.x * steps, ip.position.y + ip.delta.y * steps⟩
  { ip with position := if FungeSpaceInRange fspace p then p else FungeSpaceWrap fspace p ip.delta }

/-! ## iterate.c -/

/-- The values of `SettingCurrentStandard` (`settings.h`). -/
inductive standardVersion where
  | stdver93
  | stdver98
  | stdver108
deriving DecidableEq, Repr

/-- The state that `RunIterate` and the dispatcher work on: the instruction
pointer that `ip` points to, the global Funge-space, and `world`, everything
else that the dispatcher may read or write (the output, whether the process has
exited, ...). -/
structure Interp (ω : Type) where
  ip : instructionPointer
  fspace : fungeSpace
  world : ω

/-- The `while (true)` loop of `RunIterate` that skips spaces and `;` ... `;`
pairs; 59 is `;` and 32 the space. It returns the instruction found and the
instruction pointer, which stands on it. The loop need not terminate, so it
takes fuel: at most `n` passes, `none` when that is not enough. -/
def skipLoop (fspace : fungeSpace) :
    Nat → Bool → instructionPointer → Option (Int × instructionPointer)
  | 0, _, _ => none
  | n + 1, injump, ip =>
    let ip1 := ipForward fspace ip 1
    let kInstr := FungeSpaceGet fspace ip1.position
    if kInstr = 59 then skipLoop fspace n (!injump) ip1
    else if kInstr = 32 then skipLoop fspace n injump ip1
    else if injump then skipLoop fspace n injump ip1
    else some (kInstr, ip1)

/-- The part of `RunIterate` from `ipForward(ip, 1)` up to the end of the skip
loop: the instruction `kInstr` and the instruction pointer standing on it. -/
def fetchInstr (fspace : fungeSpace) (fuel : Nat) (ip : instructionPointer) :
    Option (Int × instructionPointer) :=
  let ip1 := ipForward fspace ip 1
  let kInstr := FungeSpaceGet fspace ip1.position
  if kInstr = 32 ∨ kInstr = 59 then
    skipLoop fspace fuel (if kInstr = 59 then true else false) ip1
  else
    some (kInstr, ip1)

/-- The loop `while (iters--) ExecuteInstruction(kInstr, ip);` for a positive
`iters`, given as the number of passes. -/
def iterLoop {ω : Type} (exec : Int → Interp ω → Interp ω) (kInstr : Int) :
    Nat → Interp ω → Interp ω
  | 0, m => m
  | n + 1, m => iterLoop exec kInstr n (exec kInstr m)

/-- The last statement of the `default` case of `RunIterate`: in Funge-108 the
position becomes `posinstr` when neither delta nor position changed. -/
def movePast {ω : Type} (SettingCurrentStandard : standardVersion)
    (olddelta : ipDelta) (oldpos posinstr : fungePosition) (m : Interp ω) : Interp ω :=
  if SettingCurrentStandard = standardVersion.stdver108 then
    if olddelta.x = m.ip.delta.x ∧ olddelta.y = m.ip.delta.y
        ∧ oldpos.x = m.ip.position.x ∧ oldpos.y = m.ip.position.y then
      { m with ip := { m.ip with position := posinstr } }
    else m
  else m

/-- The function `RunIterate` of the build without `CONCURRENT_FUNGE`. The
dispatcher `ExecuteInstruction` of `interpreter.c` is not among the sources and
is the parameter `exec`; 122, 107 and 64 are `z`, `k` and `@`. The warning and
the trace written to `stderr` are left out. The result is `none` when the fuel
of the skip loop runs out. -/
def RunIterate {ω : Type} (exec : Int → Interp ω → Interp ω)
    (SettingCurrentStandard : standardVersion) (fuel : Nat) (m : Interp ω) :
    Option (Interp ω) :=
  let popped := StackPop m.ip.stack
  let iters := popped.1
  let ip : instructionPointer := { m.ip with stack := popped.2 }
  if iters = 0 then
    some { m with ip := ipForward m.fspace ip 1 }
  else if iters < 0 then
    some { m with ip := ipReverse ip }
  else
    let oldpos := ip.position
    match fetchInstr m.fspace fuel ip with
    | none => none
    | some (kInstr, ip2) =>
      let posinstr := ip2.position
      let ip3 : instructionPointer := { ip2 with position := oldpos }
      if kInstr = 122 then
        some { m with ip := ip3 }
      else if kInstr = 107 then
        some { m with ip := ipReverse ip3 }
      else if kInstr = 64 then
        some (exec kInstr { m with ip := ip3 })
      else
        let olddelta := ip3.delta
        some (movePast SettingCurrentStandard olddelta oldpos posinstr
          (iterLoop exec kInstr iters.toNat { m with ip := ip3 }))

/-! ## A dispatcher and main loop for the end-to-end scenario -/

/-- The part of the world that the scenario observes: what was written to
`stdout`, and the exit code once the process has exited. -/
structure Console where
  stdout : String
  exited : Option Int
deriving DecidableEq, Repr

/-- Modelled from the spec: the dispatcher `ExecuteInstruction` of
`interpreter.c`, which is not among the sources, for the instructions of the
scenario, all but `k`. Spec, sections 3, 4.G and 8: a digit `0`-`9` or `a`-`f`
pushes its value; `.` (46) pops a cell and prints the integer followed by a
space; `@` (64) kills the only instruction pointer, which ends the run with exit
code 0; `z` (122) does nothing; an instruction that is not implemented
reflects. Every other instruction is treated as not implemented here. Nothing
happens once the process has exited. -/
def ExecuteInstructionNoK (opcode : Int) (m : Interp Console) : Interp Console :=
  if m.world.exited.isSome then m
  else if 48 ≤ opcode ∧ opcode ≤ 57 then
    { m with ip := { m.ip with stack := StackPush m.ip.stack (opcode - 48) } }
  else if 97 ≤ opcode ∧ opcode ≤ 102 then
    { m with ip := { m.ip with stack := StackPush m.ip.stack (opcode - 87) } }
  else if opcode = 46 then
    let popped := StackPop m.ip.stack
    { m with
      ip := { m.ip with stack := popped.2 },
      world := { m.world with stdout := m.world.stdout ++ toString popped.1 ++ " " } }
  else if opcode = 64 then
    { m with world := { m.world with exited := some 0 } }
  else if opcode = 122 then
    m
  else
    { m with ip := ipReverse m.ip }

/-- Modelled from the spec: the dispatcher with `k` (107), which is
`RunIterate`. `RunIterate` never passes `k` on to the dispatcher (it reflects
instead), so its dispatcher is `ExecuteInstructionNoK`. -/
def ExecuteInstruction (SettingCurrentStandard : standardVersion) (fuel : Nat)
    (opcode : Int) (m : Interp Console) : Option (Interp Console) :=
  if m.world.exited.isSome then some m
  else if opcode = 107 then RunIterate ExecuteInstructionNoK SettingCurrentStandard fuel m
  else some (ExecuteInstructionNoK opcode m)

/-- Modelled from the spec: the main loop of `interpreter.c`, which is not among
the sources, for one instruction pointer. Spec, section 4.I: dispatch the
instruction under the instruction pointer, then advance one step; stop when the
instruction pointer is dead. `ticks` bounds the number of instructions, and the
result is `none` when the run has not ended by then. -/
def mainLoop (SettingCurrentStandard : standardVersion) (fuel : Nat) :
    Nat → Interp Console → Option (Interp Console)
  | 0, m => if m.world.exited.isSome then some m else none
  | ticks + 1, m =>
    if m.world.exited.isSome then some m
    else
      match ExecuteInstruction SettingCurrentStandard fuel
          (FungeSpaceGet m.fspace m.ip.position) m with
      | none => none
      | some m1 =>
        if m1.world.exited.isSome then some m1
        else mainLoop SettingCurrentStandard fuel ticks
          { m1 with ip := ipForward m1.fspace m1.ip 1 }

/-- Modelled from the spec: the start of the interpreter. Spec, section 4.I: one
instruction pointer at (0,0) with delta (1,0), and the program loaded into a
fresh Funge-space. -/
def interpreterRun (SettingCurrentStandard : standardVersion) (file : List Int)
    (fuel ticks : Nat) : Option (Interp Console) :=
  mainLoop SettingCurrentStandard fuel ticks
    { ip := { stack := [], position := ⟨0, 0⟩, delta := ⟨1, 0⟩, storageOffset := ⟨0, 0⟩ },
      fspace := FungeSpaceLoad file FungeSpaceCreate,
      world := { stdout := "", exited := none } }

/-- The bytes of a program text. -/
def bytesOf (s : String) : List Int := s.toList.map (fun c => (c.toNat : Int))

/-- The state of the interpreter for a program text, with the instruction
pointer moving east at the given position with the given stack: the state in
which the main loop calls the dispatcher. -/
def stateAt (file : List Int) (stack : List Int) (position : fungePosition) : Interp Console :=
  { ip := { stack := stack, position := position, delta := ⟨1, 0⟩, storageOffset := ⟨0, 0⟩ },
    fspace := FungeSpaceLoad file FungeSpaceCreate,
    world := { stdout := "", exited := none } }

/-! ## The rows of a text, as the spec describes them -/

/-- The spec's reading of a text file (section 4.B): the text is split into
rows at every `\r\n` (counted once), `\n` or lone `\r`; 13 is `\r` and 10 is
`\n`. The last row is what follows the last row terminator. This definition
follows the words of the spec, not the code. -/
def textRows : List Int → List (List Int)
  | [] => [[]]
  | c :: rest =>
    if c = 13 ∧ rest.head? = some 10 then
      match rest with
      | [] => [[]]
      | _ :: rest2 => [] :: textRows rest2
    else if c = 10 ∨ c = 13 then
      [] :: textRows rest
    else
      match textRows rest with
      | [] => [[c]]
      | row :: rows => (c :: row) :: rows

/-- The character at column `x` of row `y`, if there is one. -/
def rowsCell (rows : List (List Int)) (x y : Int) : Option Int :=
  if x < 0 ∨ y < 0 then none
  else
    match rows[y.toNat]? with
    | none => none
    | some row => row[x.toNat]?

/-- The character of the rows at the coordinate `q`, when the first row starts
at column `x0` of row `y0` and every later row at column 0 of the next row. -/
def rowsCellFrom (rows : List (List Int)) (x0 y0 : Int) (q : fungePosition) : Option Int :=
  if q.y = y0 then
    if q.x < x0 then none else rowsCell rows (q.x - x0) 0
  else rowsCell rows q.x (q.y - y0)

/-- What one reads at `p` after a text with the given rows was loaded at
`offset`, the first row starting at column `x0` of row `y0`: the character of the
rows there when there is one and it is not the space, and otherwise the value
`old` that was there before. -/
def readAfterLoad (rows : List (List Int)) (x0 y0 : Int) (offset p : fungePosition)
    (old : Int) : Int :=
  match rowsCellFrom rows x0 y0 ⟨p.x - offset.x, p.y - offset.y⟩ with
  | some c => if c = 32 then old else c
  | none => old

/-! ## Well-formed states -/

/-- A pointer that `FungeSpaceInternalAlloc` may have handed out so far: a cell
of an earlier chunk, or a cell of the current chunk up to `allocarrayCurrent`. -/
def allocated (fspace : fungeSpace) (ptr : CellPtr) : Prop :=
  ptr.chunk < fspace.allocarray
    ∨ (ptr.chunk = fspace.allocarray ∧ ptr.index ≤ fspace.allocarrayCurrent)

/-- The invariant of the storage: the pointers in the table have been handed
out by the allocator, and no two keys share a pointer. -/
structure WF (fspace : fungeSpace) : Prop where
  alloc : ∀ k ptr, fspace.entries k = some ptr → allocated fspace ptr
  inj : ∀ k1 k2 ptr, fspace.entries k1 = some ptr → fspace.entries k2 = some ptr → k1 = k2

/-- A sequence of `FungeSpaceSet` calls, each given by its value and position,
applied in order. -/
def runSets (calls : List (Int × fungePosition)) (fspace : fungeSpace) : fungeSpace :=
  calls.foldl (fun s c => FungeSpaceSet c.1 c.2 s) fspace

/-- A call of `FungeSpaceSet` or of `FungeSpaceSetOff`. -/
inductive SpaceCall where
  | set (value : Int) (position : fungePosition)
  | setOff (value : Int) (position offset : fungePosition)

/-- The value that the call writes. -/
def SpaceCall.value : SpaceCall → Int
  | .set v _ => v
  | .setOff v _ _ => v

/-- The coordinate that the call writes to. -/
def SpaceCall.target : SpaceCall → fungePosition
  | .set _ p => p
  | .setOff _ p off => ⟨p.x + off.x, p.y + off.y⟩

/-- The effect of the call on the space. -/
def SpaceCall.run : SpaceCall → fungeSpace → fungeSpace
  | .set v p, s => FungeSpaceSet v p s
  | .setOff v p off, s => FungeSpaceSetOff v p off s

/-- A sequence of `FungeSpaceSet` and `FungeSpaceSetOff` calls, applied in order. -/
def runCalls (calls : List SpaceCall) (fspace : fungeSpace) : fungeSpace :=
  calls.foldl (fun s c => c.run s) fspace

/-- The rectangle contains the coordinate, both corners included. -/
def fungeRect.contains (r : fungeRect) (p : fungePosition) : Prop :=
  r.x ≤ p.x ∧ p.x ≤ r.x + r.w ∧ r.y ≤ p.y ∧ p.y ≤ r.y + r.h

/-! ## Saving (`FungeSpaceSaveToFile`) -/

/-- The inner `for` loop of `FungeSpaceSaveToFile` over the columns of one row:
`n` passes from column `x` on. `fputc` writes its argument converted to
`unsigned char`, that is, modulo 256. -/
def saveRow (fspace : fungeSpace) (y : Int) : Nat → Int → List Int
  | 0, _ => []
  | n + 1, x => (FungeSpaceGet fspace ⟨x, y⟩ % 256) :: saveRow fspace y n (x + 1)

/-- The outer `for` loop of `FungeSpaceSaveToFile` over the rows: `n` passes
from row `y` on, each writing the row from column `x0` with `w` columns and then
the newline 10. -/
def saveRows (fspace : fungeSpace) (x0 : Int) (w : Nat) : Nat → Int → List Int
  | 0, _ => []
  | n + 1, y => saveRow fspace y w x0 ++ 10 :: saveRows fspace x0 w n (y + 1)

/-- The function `FungeSpaceSaveToFile` (the case in which `fopen` succeeds):
the bytes written to the file. A loop `for (v = lo; v < hi; v++)` makes
`hi - lo` passes, none when that is negative. The code does not look at
`textfile` (its comment: TODO textfile mode). -/
def FungeSpaceSaveToFile (fspace : fungeSpace) (offset : fungePosition) (size : fungeVector)
    (_textfile : Bool) : List Int :=
  let maxy := offset.y + size.y
  let maxx := offset.x + size.x
  saveRows fspace offset.x (maxx - offset.x).toNat (maxy - offset.y).toNat offset.y

/-- What one reads at `p` after the bytes were loaded in binary mode at
`offset`, the first byte at column `x0` of row `y0`: the byte there when there
is one and it is not the space, and otherwise the value `old` that was there
before. -/
def readAfterBinaryLoad (bytes : List Int) (x0 y0 : Int) (offset p : fungePosition)
    (old : Int) : Int :=
  if p.y - offset.y = y0 ∧ x0 ≤ p.x - offset.x then
    match bytes[(p.x - offset.x - x0).toNat]? with
    | some c => if c = 32 then old else c
    | none => old
  else old

/-! ## The FILE fingerprint (`FILE.c`) -/

/-- Modelled from the spec: `stack_pop` of `stack.c`, the name under which
`FILE.c` calls `StackPop`. -/
def stack_pop (stack : List Int) : Int × List Int := StackPop stack

/-- Modelled from the spec: `stack_push` of `stack.c`, the name under which
`FILE.c` calls `StackPush`. -/
def stack_push (stack : List Int) (value : Int) : List Int := StackPush stack value

/-- Modelled from the spec: `stack_peek` of `stack.c`, which is not among the
sources: the top of the stack, 0 for an empty stack (section 3). -/
def stack_peek : List Int → Int
  | [] => 0
  | v :: _ => v

/-- Modelled from the spec: `stack_pop_vector` of `stack.c`, which is not among
the sources. Spec, section 4.C: vector operations pop y then x. -/
def stack_pop_vector (stack : List Int) : fungeVector × List Int :=
  let y := stack_pop stack
  let x := stack_pop y.2
  (⟨x.1, y.1⟩, x.2)

/-- Modelled from the spec: `stack_pop_string` of `stack.c`, which is not among
the sources. Spec, section 4.C: `pop_string` reads until and including a 0
cell; an empty stack yields 0. The allocation of the string is taken to succeed,
so the result is never `NULL`. -/
def stack_pop_string : List Int → List Int × List Int
  | [] => ([], [])
  | c :: rest =>
    if c = 0 then ([], rest)
    else (c :: (stack_pop_string rest).1, (stack_pop_string rest).2)

/-- Modelled from the spec: `stack_push_string` of `stack.c`, which is not among
the sources. Spec, section 4.C: `push_string(s)` pushes 0 then the characters in
reverse order of s, so that the first character ends on top. -/
def stack_push_string (stack : List Int) (str : List Int) : List Int :=
  str ++ 0 :: stack

/-- Modelled from the spec: `ip_reverse` of `ip.c`, the name under which
`FILE.c` calls `ipReverse`. -/
def ip_reverse (ip : instructionPointer) : instructionPointer := ipReverse ip

/-- The struct `FungeFileHandle`: the stream, a `FILE*` given as the number of
the open stream or `none` for `NULL`, and the i/o buffer vector. -/
structure FungeFileHandle where
  file : Option Nat
  buffvect : fungeVector
deriving DecidableEq, Repr

/-- The constant `ALLOCCHUNK` of `FILE.c`. -/
def ALLOCCHUNK : Nat := 2

/-- The `for` loop of `find_next_free_handle` from the index `i` on, over the
slots that remain: the first index whose slot is `NULL`. -/
def firstFreeFrom : List (Option FungeFileHandle) → Nat → Option Nat
  | [], _ => none
  | none :: _, i => some i
  | some _ :: rest, i => firstFreeFrom rest (i + 1)

/-- The function `find_next_free_handle`. The array `handles` is the list of
its `maxHandle` slots, `none` for `NULL`; `realloc` is taken to succeed. The
result is the handle and the new array. -/
def find_next_free_handle (handles : List (Option FungeFileHandle)) :
    Int × List (Option FungeFileHandle) :=
  match firstFreeFrom handles 0 with
  | some i => ((i : Int), handles)
  | none => ((handles.length : Int), handles ++ List.replicate ALLOCCHUNK none)

/-- The function `allocate_handle`; `malloc` is taken to succeed. The contents
of the new struct are `file = NULL` and a buffer vector that the code leaves
unset, taken to be (0,0). -/
def allocate_handle (handles : List (Option FungeFileHandle)) :
    Int × List (Option FungeFileHandle) :=
  let r := find_next_free_handle handles
  if r.1 < 0 then (-1, r.2)
  else (r.1, r.2.set r.1.toNat (some ⟨none, ⟨0, 0⟩⟩))

/-- The function `free_handle`, for a handle within the array. -/
def free_handle (h : Int) (handles : List (Option FungeFileHandle)) :
    List (Option FungeFileHandle) :=
  match handles[h.toNat]? with
  | some (some _) => handles.set h.toNat none
  | _ => handles

/-- The function `valid_handle`; `maxHandle` is the length of the array. -/
def valid_handle (handles : List (Option FungeFileHandle)) (h : Int) : Bool :=
  if h < 0 ∨ h.toNat ≥ handles.length ∨ (handles.getD h.toNat none).isNone then false
  else true

/-- The expression `handles[h]->file`, for a valid handle. -/
def handleFile (handles : List (Option FungeFileHandle)) (h : Int) : Option Nat :=
  match handles.getD h.toNat none with
  | some e => e.file
  | none => none

/-- The expression `handles[h]->buffvect`, for a valid handle. -/
def handleBuffvect (handles : List (Option FungeFileHandle)) (h : Int) : fungeVector :=
  match handles.getD h.toNat none with
  | some e => e.buffvect
  | none => ⟨0, 0⟩

/-- The assignment `handles[h]->file = fp`. -/
def setHandleFile (handles : List (Option FungeFileHandle)) (h : Int) (fp : Option Nat) :
    List (Option FungeFileHandle) :=
  match handles.getD h.toNat none with
  | some e => handles.set h.toNat (some { e with file := fp })
  | none => handles

/-- The assignment `handles[h]->buffvect = vect`. -/
def setHandleBuffvect (handles : List (Option FungeFileHandle)) (h : Int) (vect : fungeVector) :
    List (Option FungeFileHandle) :=
  match handles.getD h.toNat none with
  | some e => handles.set h.toNat (some { e with buffvect := vect })
  | none => handles

/-- The calls of the C library that `FILE.c` makes, as functions on the state
`Ω` of the operating system; they are parameters of the embedding. A stream
argument is the `FILE*`; `fopen` gets the file name and the index into
`mode_table`; `fread` returns the bytes read, `fwrite` the number of bytes
written. -/
structure Libc (Ω : Type) where
  fclose : Option Nat → Ω → Int × Ω
  fgetc : Option Nat → Ω → Int × Ω
  ungetc : Int → Option Nat → Ω → Ω
  ferror : Option Nat → Ω → Bool
  clearerr : Option Nat → Ω → Ω
  ftell : Option Nat → Ω → Int × Ω
  fopen : List Int → Int → Ω → Option Nat × Ω
  fcntl : Option Nat → Ω → Int × Ω
  rewind : Option Nat → Ω → Ω
  fputs : List Int → Option Nat → Ω → Int × Ω
  fread : Int → Option Nat → Ω → List Int × Ω
  fseek : Option Nat → Int → Int → Ω → Int × Ω
  fwrite : List Int → Option Nat → Ω → Int × Ω

/-- The state that the instructions of FILE work on besides the instruction
pointer: the handle table, the global Funge-space and the operating system. -/
structure FileWorld (Ω : Type) where
  handles : List (Option FungeFileHandle)
  fspace : fungeSpace
  os : Ω

/-- The function `finger_FILE_fclose` (C). -/
def finger_FILE_fclose {Ω : Type} (libc : Libc Ω) (ip : instructionPointer) (w : FileWorld Ω) :
    instructionPointer × FileWorld Ω :=
  let popped := stack_pop ip.stack
  let h := popped.1
  let ip1 : instructionPointer := { ip with stack := popped.2 }
  if !valid_handle w.handles h then (ip_reverse ip1, w)
  else
    let r := libc.fclose (handleFile w.handles h) w.os
    let ip2 := if r.1 ≠ 0 then ip_reverse ip1 else ip1
    (ip2, { w with handles := free_handle h w.handles, os := r.2 })

/-- The `while (true)` loop of `finger_FILE_fgets`, with the string buffer and
the state of the operating system; 13, 10 and -1 are the carriage return, the
newline and `EOF`. The result is `none` when the fuel runs out, and otherwise
the string at `endofloop`, or `none` for the return after a read error, with
the new state. -/
def fgetsLoop {Ω : Type} (libc : Libc Ω) (fp : Option Nat) :
    Nat → List Int → Ω → Option (Option (List Int) × Ω)
  | 0, _, _ => none
  | n + 1, sb, os =>
    let r := libc.fgetc fp os
    if r.1 = 13 then
      let r2 := libc.fgetc fp r.2
      if r2.1 ≠ 10 then some (some (sb ++ [13]), libc.ungetc r2.1 fp r2.2)
      else some (some (sb ++ [13, 10]), r2.2)
    else if r.1 = 10 then some (some (sb ++ [10]), r.2)
    else if r.1 = -1 then
      if libc.ferror fp r.2 then some (none, libc.clearerr fp r.2)
      else some (some sb, r.2)
    else fgetsLoop libc fp n (sb ++ [r.1]) r.2

/-- The function `finger_FILE_fgets` (G); `none` when the fuel of the read
loop runs out. -/
def finger_FILE_fgets {Ω : Type} (libc : Libc Ω) (fuel : Nat) (ip : instructionPointer)
    (w : FileWorld Ω) : Option (instructionPointer × FileWorld Ω) :=
  let h := stack_peek ip.stack
  if !valid_handle w.handles h then some (ip_reverse ip, w)
  else
    match fgetsLoop libc (handleFile w.handles h) fuel [] w.os with
    | none => none
    | some (none, os) => some (ip_reverse ip, { w with os := os })
    | some (some str, os) =>
      some ({ ip with
              stack := stack_push (stack_push_string ip.stack str) (str.length : Int) },
            { w with os := os })

/-- The function `finger_FILE_ftell` (L). -/
def finger_FILE_ftell {Ω : Type} (libc : Libc Ω) (ip : instructionPointer) (w : FileWorld Ω) :
    instructionPointer × FileWorld Ω :=
  let h := stack_peek ip.stack
  if !valid_handle w.handles h then (ip_reverse ip, w)
  else
    let r := libc.ftell (handleFile w.handles h) w.os
    if r.1 = -1 then
      (ip_reverse ip, { w with os := libc.clearerr (handleFile w.handles h) r.2 })
    else ({ ip with stack := stack_push ip.stack r.1 }, { w with os := r.2 })

/-- The function `finger_FILE_fopen` (O). -/
def finger_FILE_fopen {Ω : Type} (libc : Libc Ω) (ip : instructionPointer) (w : FileWorld Ω) :
    instructionPointer × FileWorld Ω :=
  let s := stack_pop_string ip.stack
  let filename := s.1
  let m := stack_pop s.2
  let mode := m.1
  let v := stack_pop_vector m.2
  let vect := v.1
  let ip1 : instructionPointer := { ip with stack := v.2 }
  if mode < 0 ∨ mode > 5 then (ip_reverse ip1, w)
  else
    let a := allocate_handle w.handles
    let h := a.1
    if h = -1 then (ip_reverse ip1, { w with handles := a.2 })
    else
      let f := libc.fopen filename mode w.os
      let handles1 := setHandleFile a.2 h f.1
      if f.1.isNone then
        (ip_reverse ip1, { w with handles := free_handle h handles1, os := f.2 })
      else
        let c := libc.fcntl f.1 f.2
        if c.1 ≠ 0 then
          let cl := libc.fclose f.1 c.2
          (ip_reverse ip1, { w with handles := free_handle h handles1, os := cl.2 })
        else
          let os2 := if mode = 2 ∨ mode = 5 then libc.rewind f.1 c.2 else c.2
          ({ ip1 with stack := stack_push ip1.stack h },
           { w with handles := setHandleBuffvect handles1 h vect, os := os2 })

/-- The function `finger_FILE_fputs` (P). -/
def finger_FILE_fputs {Ω : Type} (libc : Libc Ω) (ip : instructionPointer) (w : FileWorld Ω) :
    instructionPointer × FileWorld Ω :=
  let s := stack_pop_string ip.stack
  let str := s.1
  let ip1 : instructionPointer := { ip with stack := s.2 }
  let h := stack_peek ip1.stack
  if !valid_handle w.handles h then (ip_reverse ip1, w)
  else
    let r := libc.fputs str (handleFile w.handles h) w.os
    if r.1 = -1 then
      (ip_reverse ip1, { w with os := libc.clearerr (handleFile w.handles h) r.2 })
    else (ip1, { w with os := r.2 })

/-- The loop of `finger_FILE_fread` that writes the bytes read to Funge-space
from the position `v` on, along the row. -/
def writeBuffer : List Int → fungeVector → fungeSpace → fungeSpace
  | [], _, fspace => fspace
  | b :: rest, v, fspace => writeBuffer rest ⟨v.x + 1, v.y⟩ (FungeSpaceSet b v fspace)

/-- The function `finger_FILE_fread` (R); `malloc` is taken to succeed. -/
def finger_FILE_fread {Ω : Type} (libc : Libc Ω) (ip : instructionPointer) (w : FileWorld Ω) :
    instructionPointer × FileWorld Ω :=
  let popped := stack_pop ip.stack
  let n := popped.1
  let ip1 : instructionPointer := { ip with stack := popped.2 }
  let h := stack_peek ip1.stack
  if !valid_handle w.handles h then (ip_reverse ip1, w)
  else if n ≤ 0 then (ip_reverse ip1, w)
  else
    let fp := handleFile w.handles h
    let r := libc.fread n fp w.os
    let short : Bool := (r.1.length : Int) ≠ n
    let ip2 := if short then ip_reverse ip1 else ip1
    if short ∧ libc.ferror fp r.2 then
      (ip2, { w with os := libc.clearerr fp r.2 })
    else
      (ip2, { w with fspace := writeBuffer r.1 (handleBuffvect w.handles h) w.fspace,
                     os := r.2 })

/-- The function `finger_FILE_fseek` (S). -/
def finger_FILE_fseek {Ω : Type} (libc : Libc Ω) (ip : instructionPointer) (w : FileWorld Ω) :
    instructionPointer × FileWorld Ω :=
  let p1 := stack_pop ip.stack
  let n := p1.1
  let p2 := stack_pop p1.2
  let m := p2.1
  let ip1 : instructionPointer := { ip with stack := p2.2 }
  let h := stack_peek ip1.stack
  if !valid_handle w.handles h then (ip_reverse ip1, w)
  else
    let fp := handleFile w.handles h
    if m = 0 ∨ m = 1 ∨ m = 2 then
      let r := libc.fseek fp n m w.os
      if r.1 ≠ 0 then (ip_reverse ip1, { w with os := libc.clearerr fp r.2 })
      else (ip1, { w with os := r.2 })
    else (ip_reverse ip1, { w with os := libc.clearerr fp w.os })

/-- The loop of `finger_FILE_fwrite` that fills the buffer from Funge-space:
`n` cells from the position `v` on, along the row, each converted to
`unsigned char`. -/
def readBuffer (fspace : fungeSpace) : Nat → fungeVector → List Int
  | 0, _ => []
  | n + 1, v => (FungeSpaceGet fspace v % 256) :: readBuffer fspace n ⟨v.x + 1, v.y⟩

/-- The function `finger_FILE_fwrite` (W); `malloc` is taken to succeed. -/
def finger_FILE_fwrite {Ω : Type} (libc : Libc Ω) (ip : instructionPointer) (w : FileWorld Ω) :
    instructionPointer × FileWorld Ω :=
  let popped := stack_pop ip.stack
  let n := popped.1
  let ip1 : instructionPointer := { ip with stack := popped.2 }
  let h := stack_peek ip1.stack
  if !valid_handle w.handles h then (ip_reverse ip1, w)
  else if n ≤ 0 then (ip_reverse ip1, w)
  else
    let fp := handleFile w.handles h
    let buf := readBuffer w.fspace n.toNat (handleBuffvect w.handles h)
    let r := libc.fwrite buf fp w.os
    if r.1 ≠ n ∧ libc.ferror fp r.2 then
      (ip_reverse ip1, { w with os := libc.clearerr fp r.2 })
    else (ip1, { w with os := r.2 })

/-- A C library in which every call fails, on an operating system without
state; it serves in examples. -/
def failingLibc : Libc Unit :=
  { fclose := fun _ _ => (-1, ())
    fgetc := fun _ _ => (-1, ())
    ungetc := fun _ _ _ => ()
    ferror := fun _ _ => true
    clearerr := fun _ _ => ()
    ftell := fun _ _ => (-1, ())
    fopen := fun _ _ _ => (none, ())
    fcntl := fun _ _ => (-1, ())
    rewind := fun _ _ => ()
    fputs := fun _ _ _ => (-1, ())
    fread := fun _ _ _ => ([], ())
    fseek := fun _ _ _ _ => (-1, ())
    fwrite := fun _ _ _ => (0, ()) }

/-! ## The ROMA fingerprint (`ROMA.c`) -/

/-- Modelled from the spec: the opcode stacks of an instruction pointer (a field
of the struct in `ip.h`, which is not among the sources). Spec, section 3: for
each of A-Z a stack of handler references; here a map from the character code
of the letter to the list of its handlers, the top handler first. -/
abbrev OpcodeStacks := Int → List (instructionPointer → instructionPointer)

/-- Modelled from the spec: the macro `ManagerAddOpcode` of `manager.h`, which
is not among the sources. Spec, section 4.F: for each letter the fingerprint
claims, push its handler onto that letter's stack. -/
def ManagerAddOpcode (opcodes : OpcodeStacks) (letter : Int)
    (handler : instructionPointer → instructionPointer) : OpcodeStacks :=
  fun c => if c = letter then handler :: opcodes c else opcodes c

/-- The body that the macro `ROMAPUSH(x, y)` gives to `FingerROMApush x`. -/
def ROMAPUSH (y : Int) (ip : instructionPointer) : instructionPointer :=
  { ip with stack := StackPush ip.stack y }

/-- The handler `ROMAPUSH(I, 1)`. -/
def FingerROMApushI : instructionPointer → instructionPointer := ROMAPUSH 1

/-- The handler `ROMAPUSH(V, 5)`. -/
def FingerROMApushV : instructionPointer → instructionPointer := ROMAPUSH 5

/-- The handler `ROMAPUSH(X, 10)`. -/
def FingerROMApushX : instructionPointer → instructionPointer := ROMAPUSH 10

/-- The handler `ROMAPUSH(L, 50)`. -/
def FingerROMApushL : instructionPointer → instructionPointer := ROMAPUSH 50

/-- The handler `ROMAPUSH(C, 100)`. -/
def FingerROMApushC : instructionPointer → instructionPointer := ROMAPUSH 100

/-- The handler `ROMAPUSH(D, 500)`. -/
def FingerROMApushD : instructionPointer → instructionPointer := ROMAPUSH 500

/-- The handler `ROMAPUSH(M, 1000)`. -/
def FingerROMApushM : instructionPointer → instructionPointer := ROMAPUSH 1000

/-- The function `FingerROMAload`, on the opcode stacks of the instruction
pointer: the new stacks and the value returned. The letters C, D, I, L, M, V, X
are 67, 68, 73, 76, 77, 86, 88. -/
def FingerROMAload (opcodes : OpcodeStacks) : OpcodeStacks × Bool :=
  let s1 := ManagerAddOpcode opcodes 67 FingerROMApushC
  let s2 := ManagerAddOpcode s1 68 FingerROMApushD
  let s3 := ManagerAddOpcode s2 73 FingerROMApushI
  let s4 := ManagerAddOpcode s3 76 FingerROMApushL
  let s5 := ManagerAddOpcode s4 77 FingerROMApushM
  let s6 := ManagerAddOpcode s5 86 FingerROMApushV
  let s7 := ManagerAddOpcode s6 88 FingerROMApushX
  (s7, true)

/-! ## The cells ahead of `k`, as the spec describes them -/

/-- The instruction pointer after `j` forward steps (with wrap). -/
def ipAfter (fspace : fungeSpace) (ip : instructionPointer) : Nat → instructionPointer
  | 0 => ip
  | j + 1 => ipForward fspace (ipAfter fspace ip j) 1

/-- The cell c_j reached after `j` forward steps. -/
def cellAfter (fspace : fungeSpace) (ip : instructionPointer) (j : Nat) : Int :=
  FungeSpaceGet fspace (ipAfter fspace ip j).position

/-- The number of `;` (59) among the cells c_1, ..., c_j. -/
def semicolonsUpTo (fspace : fungeSpace) (ip : instructionPointer) : Nat → Nat
  | 0 => 0
  | j + 1 => semicolonsUpTo fspace ip j + (if cellAfter fspace ip (j + 1) = 59 then 1 else 0)

/-- The cell c_j is neither the space nor `;` and is preceded by an even number
of `;` among c_1, ..., c_(j-1): it lies outside every `;...;` comment. This
definition follows the words of the claim, not the code. -/
def isIterateTarget (fspace : fungeSpace) (ip : instructionPointer) (j : Nat) : Prop :=
  cellAfter fspace ip j ≠ 32 ∧ cellAfter fspace ip j ≠ 59
    ∧ semicolonsUpTo fspace ip (j - 1) % 2 = 0

/-! ## Sequences of allocations, and the invariant of `FungeSpaceLoad` -/

/-- A sequence of calls of `FungeSpaceInternalAlloc` with the given values: the
pointers returned, in order, and the final state. -/
def allocSeq : List Int → fungeSpace → List CellPtr × fungeSpace
  | [], s => ([], s)
  | v :: vs, s =>
    ((FungeSpaceInternalAlloc v s).1 :: (allocSeq vs (FungeSpaceInternalAlloc v s).2).1,
     (allocSeq vs (FungeSpaceInternalAlloc v s).2).2)

/-- The invariant of the loops of `FungeSpaceLoad` on a space that was fresh at
the start: the top left corner is the origin, the bottom right corner has y = 0
and bounds the rows that are complete, every key lies in a complete row or in
the current row before the column `x`, and no key holds the space. -/
structure LoadInv (st : LoadState) : Prop where
  wf : WF st.fspace
  tl : st.fspace.topLeftCorner = ⟨0, 0⟩
  bry : st.fspace.bottomRightCorner.y = 0
  brx : 0 ≤ st.fspace.bottomRightCorner.x
  x0 : 0 ≤ st.x
  y0 : 0 ≤ st.y
  nl : st.noendingnewline = false → st.x = 0
  keys : ∀ k, st.fspace.entries k ≠ none →
    0 ≤ k.x ∧ 0 ≤ k.y
      ∧ ((k.y < st.y ∧ k.x ≤ st.fspace.bottomRightCorner.x) ∨ (k.y = st.y ∧ k.x < st.x))
  vals : ∀ k, st.fspace.entries k ≠ none → FungeSpaceGet st.fspace k ≠ 32

/-! ## TOYS.c -/

/-- Modelled from the spec: `StackPopVector` of `stack.c`, which is not among
the sources. Spec, section 4.C: vector operations pop y then x. -/
def StackPopVector (stack : List Int) : fungeVector × List Int :=
  let y := StackPop stack
  let x := StackPop y.2
  (⟨x.1, y.1⟩, x.2)

/-- Modelled from the spec: `StackPushVector` of `stack.c`, which is not among
the sources. Spec, section 4.C: vector operations push x then y. -/
def StackPushVector (stack : List Int) (value : fungeVector) : List Int :=
  StackPush (StackPush stack value.x) value.y

/-- Modelled from the spec: `ipTurnLeft` of `ip.c`, which is not among the
sources. Spec, section 4.D: `turn_left` rotates delta by -90 degrees, so that
east (1,0) becomes north (0,-1). -/
def ipTurnLeft (ip : instructionPointer) : instructionPointer :=
  { ip with delta := ⟨ip.delta.y, -ip.delta.x⟩ }

/-- Modelled from the spec: `ipTurnRight` of `ip.c`, which is not among the
sources. Spec, section 4.D: `turn_right` rotates delta by +90 degrees, so that
east (1,0) becomes south (0,1). -/
def ipTurnRight (ip : instructionPointer) : instructionPointer :=
  { ip with delta := ⟨-ip.delta.y, ip.delta.x⟩ }

/-- The function `FingerTOYStelevisionAntenna` (W). It does not write to the
Funge-space, so the result is the instruction pointer. -/
def FingerTOYStelevisionAntenna (fspace : fungeSpace) (ip : instructionPointer) :
    instructionPointer :=
  let r1 := StackPopVector ip.stack
  let vect := r1.1
  let r2 := StackPop r1.2
  let v := r2.1
  let c := FungeSpaceGet fspace vect
  let ip1 : instructionPointer := { ip with stack := r2.2 }
  if c < v then
    let s1 := StackPush ip1.stack v
    let s2 := StackPushVector s1
      ⟨vect.x - ip1.storageOffset.x, vect.y - ip1.storageOffset.y⟩
    ipForward fspace { ip1 with stack := s2 } (-1)
  else if c > v then
    ipReverse ip1
  else
    ip1

/-- The function `FingerTOYScorner` (L). It does not write to the Funge-space,
so the result is the instruction pointer. -/
def FingerTOYScorner (fspace : fungeSpace) (ip : instructionPointer) :
    instructionPointer :=
  let ip1 := ipTurnLeft ip
  let ip2 := ipForward fspace ip1 1
  let ip3 : instructionPointer :=
    { ip2 with stack := StackPush ip2.stack (FungeSpaceGet fspace ip2.position) }
  let ip4 := ipForward fspace ip3 (-1)
  ipTurnRight ip4

/-- The loop of the branch `n < 0` of `FingerTOYSboulder`:
`for (x = bounds.x; x <= bounds.x + bounds.w; ++x)`, given as the number of
passes left and the current `x`; `y` is `ip->position.y`. -/
def boulderUp (y n : Int) : Nat → Int → fungeSpace → fungeSpace
  | 0, _, fspace => fspace
  | k + 1, x, fspace =>
    boulderUp y n k (x + 1) (FungeSpaceSet (FungeSpaceGet fspace ⟨x, y⟩) ⟨x + n, y⟩ fspace)

/-- The loop of the branch `n > 0` of `FingerTOYSboulder`:
`for (x = bounds.x + bounds.w; x >= bounds.x; --x)`, given as the number of
passes left and the current `x`. -/
def boulderDown (y n : Int) : Nat → Int → fungeSpace → fungeSpace
  | 0, _, fspace => fspace
  | k + 1, x, fspace =>
    boulderDown y n k (x - 1) (FungeSpaceSet (FungeSpaceGet fspace ⟨x, y⟩) ⟨x + n, y⟩ fspace)

/-- The function `FingerTOYSboulder` (O). The bounding rect is read once, before
the loops, which make `bounds.w + 1` passes (none when that is not positive). -/
def FingerTOYSboulder (fspace : fungeSpace) (ip : instructionPointer) :
    instructionPointer × fungeSpace :=
  let r := StackPop ip.stack
  let n := r.1
  let ip1 : instructionPointer := { ip with stack := r.2 }
  let bounds := FungeSpaceGetBoundRect fspace
  if n = 0 then
    (ip1, fspace)
  else if n < 0 then
    (ip1, boulderUp ip1.position.y n (bounds.w + 1).toNat bounds.x fspace)
  else
    (ip1, boulderDown ip1.position.y n (bounds.w + 1).toNat (bounds.x + bounds.w) fspace)

/-- The inner loop of `FingerTOYScalipers`:
`for (x = t.x; x < t.x + i; ++x) FungeSpaceSet(StackPop(ip->stack), (x, y))`,
given as the number of passes left and the current `x`. The state is the stack
and the space. -/
def calipersRow (y : Int) : Nat → Int → List Int × fungeSpace → List Int × fungeSpace
  | 0, _, r => r
  | k + 1, x, r =>
    let p := StackPop r.1
    calipersRow y k (x + 1) (p.2, FungeSpaceSet p.1 ⟨x, y⟩ r.2)

/-- The outer loop of `FingerTOYScalipers`: `for (y = t.y; y < t.y + j; ++y)`,
given as the number of passes left and the current `y`; `i` is the number of
passes of the inner loop. -/
def calipersRows (tx : Int) (i : Nat) :
    Nat → Int → List Int × fungeSpace → List Int × fungeSpace
  | 0, _, r => r
  | k + 1, y, r => calipersRows tx i k (y + 1) (calipersRow y i tx r)

/-- The function `FingerTOYScalipers` (F). The loops make `i` and `j` passes,
none when the number is not positive. -/
def FingerTOYScalipers (fspace : fungeSpace) (ip : instructionPointer) :
    instructionPointer × fungeSpace :=
  let r1 := StackPopVector ip.stack
  let t := r1.1
  let r2 := StackPop r1.2
  let j := r2.1
  let r3 := StackPop r2.2
  let i := r3.1
  let r := calipersRows t.x i.toNat j.toNat t.y (r3.2, fspace)
  ({ ip with stack := r.1 }, r.2)

/-- The inner loop of `FingerTOYScounterclockwise`:
`for (x = o.x + i; x-- > o.x;) StackPush(ip->stack, FungeSpaceGet((x, y)))`,
given as the number of passes left: with `k + 1` passes left the body runs with
`x = o.x + k`. -/
def counterclockwiseRow (fspace : fungeSpace) (ox y : Int) : Nat → List Int → List Int
  | 0, stack => stack
  | k + 1, stack =>
    counterclockwiseRow fspace ox y k (StackPush stack (FungeSpaceGet fspace ⟨ox + k, y⟩))

/-- The outer loop of `FingerTOYScounterclockwise`:
`for (y = o.y + j; y-- > o.y;)`: with `k + 1` passes left the body runs with
`y = o.y + k`. -/
def counterclockwiseRows (fspace : fungeSpace) (ox oy : Int) (i : Nat) :
    Nat → List Int → List Int
  | 0, stack => stack
  | k + 1, stack =>
    counterclockwiseRows fspace ox oy i k (counterclockwiseRow fspace ox (oy + k) i stack)

/-- The function `FingerTOYScounterclockwise` (G). It does not write to the
Funge-space, so the result is the instruction pointer. -/
def FingerTOYScounterclockwise (fspace : fungeSpace) (ip : instructionPointer) :
    instructionPointer :=
  let r1 := StackPopVector ip.stack
  let o := r1.1
  let r2 := StackPop r1.2
  let j := r2.1
  let r3 := StackPop r2.2
  let i := r3.1
  { ip with stack := counterclockwiseRows fspace o.x o.y i.toNat j.toNat r3.2 }

/-- The body of the loops of `FingerTOYSbracelet` and `FingerTOYSscissors`:
`FungeSpaceSetOff(FungeSpaceGetOff((x, y), &o), (x, y), &t)`. -/
def copyCell (o t : fungeVector) (x y : Int) (fspace : fungeSpace) : fungeSpace :=
  FungeSpaceSetOff (FungeSpaceGetOff fspace ⟨x, y⟩ o) ⟨x, y⟩ t fspace

/-- The inner loop of `FingerTOYSbracelet`: `for (y = 0; y < d.y; ++y)`, given
as the number of passes left and the current `y`. -/
def braceletCol (o t : fungeVector) (x : Int) : Nat → Int → fungeSpace → fungeSpace
  | 0, _, fspace => fspace
  | k + 1, y, fspace => braceletCol o t x k (y + 1) (copyCell o t x y fspace)

/-- The outer loop of `FingerTOYSbracelet`: `for (x = 0; x < d.x; ++x)`, given
as the number of passes left and the current `x`; `dy` is the number of passes
of the inner loop. -/
def braceletCols (o t : fungeVector) (dy : Nat) : Nat → Int → fungeSpace → fungeSpace
  | 0, _, fspace => fspace
  | k + 1, x, fspace => braceletCols o t dy k (x + 1) (braceletCol o t x dy 0 fspace)

/-- The function `FingerTOYSbracelet` (C). -/
def FingerTOYSbracelet (fspace : fungeSpace) (ip : instructionPointer) :
    instructionPointer × fungeSpace :=
  let r1 := StackPopVector ip.stack
  let t := r1.1
  let r2 := StackPopVector r1.2
  let d := r2.1
  let r3 := StackPopVector r2.2
  let o := r3.1
  let ip1 : instructionPointer := { ip with stack := r3.2 }
  if d.x = 0 ∨ d.y = 0 then
    (ip1, fspace)
  else if d.x < 0 ∨ d.y < 0 then
    (ipReverse ip1, fspace)
  else
    (ip1, braceletCols o t d.y.toNat d.x.toNat 0 fspace)

/-- The inner loop of `FingerTOYSscissors`: `for (y = d.y; y-- > 0;)`, given as
the number of passes left: with `k + 1` passes left the body runs with `y = k`. -/
def scissorsCol (o t : fungeVector) (x : Int) : Nat → fungeSpace → fungeSpace
  | 0, fspace => fspace
  | k + 1, fspace => scissorsCol o t x k (copyCell o t x k fspace)

/-- The outer loop of `FingerTOYSscissors`: `for (x = d.x; x-- > 0;)`: with
`k + 1` passes left the body runs with `x = k`. -/
def scissorsCols (o t : fungeVector) (dy : Nat) : Nat → fungeSpace → fungeSpace
  | 0, fspace => fspace
  | k + 1, fspace => scissorsCols o t dy k (scissorsCol o t k dy fspace)

/-- The function `FingerTOYSscissors` (K). -/
def FingerTOYSscissors (fspace : fungeSpace) (ip : instructionPointer) :
    instructionPointer × fungeSpace :=
  let r1 := StackPopVector ip.stack
  let t := r1.1
  let r2 := StackPopVector r1.2
  let d := r2.1
  let r3 := StackPopVector r2.2
  let o := r3.1
  let ip1 : instructionPointer := { ip with stack := r3.2 }
  if d.x = 0 ∨ d.y = 0 then
    (ip1, fspace)
  else if d.x < 0 ∨ d.y < 0 then
    (ipReverse ip1, fspace)
  else
    (ip1, scissorsCols o t d.y.toNat d.x.toNat fspace)

/-- The loop body `copyCell` run over a list of pairs (x, y), first to last:
the common form of the loops of C and K, used to compare them. -/
def copyList (o t : fungeVector) (l : List (Int × Int)) (fspace : fungeSpace) : fungeSpace :=
  l.foldl (fun s a => copyCell o t a.1 a.2 s) fspace

/-- The pairs (x, y) that `braceletCol` visits, in its order. -/
def colUp (x : Int) : Nat → Int → List (Int × Int)
  | 0, _ => []
  | k + 1, y => (x, y) :: colUp x k (y + 1)

/-- The pairs (x, y) that `braceletCols` visits, in its order. -/
def colsUp (dy : Nat) : Nat → Int → List (Int × Int)
  | 0, _ => []
  | k + 1, x => colUp x dy 0 ++ colsUp dy k (x + 1)

/-- The pairs (x, y) that `scissorsCol` visits, in its order. -/
def colDown (x : Int) : Nat → List (Int × Int)
  | 0 => []
  | k + 1 => (x, (k : Int)) :: colDown x k

/-- The pairs (x, y) that `scissorsCols` visits, in its order. -/
def colsDown (dy : Nat) : Nat → List (Int × Int)
  | 0 => []
  | k + 1 => colDown k dy ++ colsDown dy k

/-! ## iterate.c, the build with `CONCURRENT_FUNGE` -/

/-- The state of the build with `CONCURRENT_FUNGE` that `RunIterate` reads and
writes: the instruction pointers `(*IPList)->ips[0 .. top]`, the index
`*threadindex`, the global Funge-space and `world`, everything else that the
dispatcher may read or write. A pointer `ip` into the list is the index of the
entry it points to. -/
structure ConcInterp (ω : Type) where
  IPList : List instructionPointer
  threadindex : Nat
  fspace : fungeSpace
  world : ω

/-- The loop `while (iters--)` of the build with `CONCURRENT_FUNGE`, given as
the number of passes: for `t` (116) `*threadindex = ipListDuplicateIP(IPList,
*threadindex)`, otherwise `ExecuteInstruction(kInstr, ip, threadindex)`. The
function `ipListDuplicateIP` of `ip.c` is not among the sources and is a
parameter: from the list and an index it gives the new list and the index it
returns (the allocation is taken to succeed). -/
def iterLoopConcurrent {ω : Type} (exec : Int → Nat → ConcInterp ω → ConcInterp ω)
    (ipListDuplicateIP : List instructionPointer → Nat → List instructionPointer × Nat)
    (kInstr : Int) (ip : Nat) : Nat → ConcInterp ω → ConcInterp ω
  | 0, m => m
  | n + 1, m =>
    iterLoopConcurrent exec ipListDuplicateIP kInstr ip n
      (if kInstr = 116 then
        let r := ipListDuplicateIP m.IPList m.threadindex
        { m with IPList := r.1, threadindex := r.2 }
      else exec kInstr ip m)

/-- The last statement of the `default` case of `RunIterate` on the entry `ip`
of the list: in Funge-108 the position becomes `posinstr` when neither delta
nor position changed. The result is `none` when `ip` points to no entry. -/
def movePastAt {ω : Type} (SettingCurrentStandard : standardVersion)
    (olddelta : ipDelta) (oldpos posinstr : fungePosition) (ip : Nat) (m : ConcInterp ω) :
    Option (ConcInterp ω) :=
  if SettingCurrentStandard = standardVersion.stdver108 then
    match m.IPList[ip]? with
    | none => none
    | some cur =>
      if olddelta.x = cur.delta.x ∧ olddelta.y = cur.delta.y
          ∧ oldpos.x = cur.position.x ∧ oldpos.y = cur.position.y then
        some { m with IPList := m.IPList.set ip { cur with position := posinstr } }
      else some m
  else some m

/-- The function `RunIterate` of the build with `CONCURRENT_FUNGE`. The
argument `ip` is the index of the entry of the list that the pointer `ip`
points to. The result is the index that `ip` points to at the end and the
state, `none` when the fuel of the skip loop runs out or `ip` points to no
entry. The dispatcher is the parameter `exec`; the warning and the trace
written to `stderr` are left out; `ipListDuplicateIP` is a parameter as in
`iterLoopConcurrent`. -/
def RunIterateConcurrent {ω : Type} (exec : Int → Nat → ConcInterp ω → ConcInterp ω)
    (ipListDuplicateIP : List instructionPointer → Nat → List instructionPointer × Nat)
    (SettingCurrentStandard : standardVersion) (fuel : Nat) (ip : Nat) (m : ConcInterp ω) :
    Option (Nat × ConcInterp ω) :=
  match m.IPList[ip]? with
  | none => none
  | some ip0 =>
    let popped := StackPop ip0.stack
    let iters := popped.1
    let ip1 : instructionPointer := { ip0 with stack := popped.2 }
    if iters = 0 then
      some (ip, { m with IPList := m.IPList.set ip (ipForward m.fspace ip1 1) })
    else if iters < 0 then
      some (ip, { m with IPList := m.IPList.set ip (ipReverse ip1) })
    else
      let oldpos := ip1.position
      match fetchInstr m.fspace fuel ip1 with
      | none => none
      | some (kInstr, ip2) =>
        let posinstr := ip2.position
        let ip3 : instructionPointer := { ip2 with position := oldpos }
        let m3 : ConcInterp ω := { m with IPList := m.IPList.set ip ip3 }
        if kInstr = 122 then
          some (ip, m3)
        else if kInstr = 107 then
          some (ip, { m with IPList := m.IPList.set ip (ipReverse ip3) })
        else if kInstr = 64 then
          some (ip, exec kInstr ip m3)
        else
          let olddelta := ip3.delta
          let oldindex := m3.threadindex
          let m4 := iterLoopConcurrent exec ipListDuplicateIP kInstr ip iters.toNat m3
          let ip4 := if kInstr = 116 then oldindex else ip
          (movePastAt SettingCurrentStandard olddelta oldpos posinstr ip4 m4).map
            (fun m5 => (ip4, m5))

/-! ## The bounding rect in the width of `FUNGEVECTORTYPE` -/

/-- The value that a signed integer type of `bits` bits holds after an
operation whose exact result is `z`: the representative of `z` modulo 2^bits
in the range -2^(bits-1) .. 2^(bits-1) - 1 (two's complement wrap-around, which
is what the compiled subtraction of `FungeSpaceGetBoundRect` gives). -/
def wrapSigned (bits : Nat) (z : Int) : Int :=
  (z + 2 ^ (bits - 1)) % 2 ^ bits - 2 ^ (bits - 1)

/-- The function `FungeSpaceGetBoundRect` with its two subtractions carried
out in `FUNGEVECTORTYPE`, a signed integer type of `bits` bits (`global.h`,
which fixes the width, is not among the sources; the spec, section 3, has 32 or
64). `FungeSpaceGetBoundRect` above is this rect whenever both differences fit
in the type (`GetBoundRectBits_fits`). -/
def FungeSpaceGetBoundRectBits (bits : Nat) (fspace : fungeSpace) : fungeRect :=
  { x := fspace.topLeftCorner.x
    y := fspace.topLeftCorner.y
    w := wrapSigned bits (fspace.bottomRightCorner.x - fspace.topLeftCorner.x)
    h := wrapSigned bits (fspace.bottomRightCorner.y - fspace.topLeftCorner.y) }

/-- An instance of the parameter `ipListDuplicateIP`, used in examples: the
copy of the current instruction pointer, with the delta reversed (spec, section
4.D), is put in the slot after the current one, the entries behind it move up by
one, and the index returned is that of the current one, which keeps its slot. -/
def duplicateInNextSlot (ips : List instructionPointer) (index : Nat) :
    List instructionPointer × Nat :=
  match ips[index]? with
  | some current =>
    (ips.take (index + 1) ++ ipReverse current :: ips.drop (index + 1), index)
  | none => (ips, index)

/-- An instance of the dispatcher of the build with `CONCURRENT_FUNGE`, used in
examples: `ExecuteInstructionNoK` applied to the entry `ip` of the list. -/
def ExecuteInstructionAt (opcode : Int) (ip : Nat) (m : ConcInterp Console) :
    ConcInterp Console :=
  match m.IPList[ip]? with
  | none => m
  | some cur =>
    let r := ExecuteInstructionNoK opcode { ip := cur, fspace := m.fspace, world := m.world }
    { m with IPList := m.IPList.set ip r.ip, fspace := r.fspace, world := r.world }

/-! ## Theorems: get and set -/

theorem WF_Create : WF FungeSpaceCreate :=
  ⟨by intro k ptr h; simp [FungeSpaceCreate, ght_create] at h,
   by intro k1 k2 ptr h; simp [FungeSpaceCreate, ght_create] at h⟩

theorem Get_Create (p : fungePosition) : FungeSpaceGet FungeSpaceCreate p = 32 := by
  simp [FungeSpaceGet, FungeSpaceCreate, ght_create, ght_get]

theorem alloc_fresh (value : Int) (s : fungeSpace) :
    ¬ allocated s (FungeSpaceInternalAlloc value s).1 := by
  unfold FungeSpaceInternalAlloc allocated
  by_cases h : s.allocarrayCurrent > FUNGESPACEALLOCCHUNK - 2 <;> simp [h]

theorem alloc_mono (value : Int) (s : fungeSpace) (ptr : CellPtr)
    (h : allocated s ptr) : allocated (FungeSpaceInternalAlloc value s).2 ptr := by
  unfold FungeSpaceInternalAlloc
  unfold allocated at h ⊢
  by_cases hc : s.allocarrayCurrent > FUNGESPACEALLOCCHUNK - 2 <;> simp [hc] <;> omega

theorem alloc_self (value : Int) (s : fungeSpace) :
    allocated (FungeSpaceInternalAlloc value s).2 (FungeSpaceInternalAlloc value s).1 := by
  unfold FungeSpaceInternalAlloc allocated
  by_cases hc : s.allocarrayCurrent > FUNGESPACEALLOCCHUNK - 2 <;> simp [hc]

theorem alloc_entries (value : Int) (s : fungeSpace) :
    (FungeSpaceInternalAlloc value s).2.entries = s.entries := by
  unfold FungeSpaceInternalAlloc
  by_cases hc : s.allocarrayCurrent > FUNGESPACEALLOCCHUNK - 2 <;> simp [hc]

theorem alloc_mem (value : Int) (s : fungeSpace) :
    (FungeSpaceInternalAlloc value s).2.mem
      = store s.mem (FungeSpaceInternalAlloc value s).1 value := by
  unfold FungeSpaceInternalAlloc
  by_cases hc : s.allocarrayCurrent > FUNGESPACEALLOCCHUNK - 2 <;> simp [hc]

theorem alloc_corners (value : Int) (s : fungeSpace) :
    (FungeSpaceInternalAlloc value s).2.topLeftCorner = s.topLeftCorner
      ∧ (FungeSpaceInternalAlloc value s).2.bottomRightCorner = s.bottomRightCorner := by
  unfold FungeSpaceInternalAlloc
  by_cases hc : s.allocarrayCurrent > FUNGESPACEALLOCCHUNK - 2 <;> simp [hc]

/-- What `FungeSpaceSetNoBoundUpdate` does when the key is absent and the value
is not the space: the table gets the new pointer for the key. -/
theorem SetNoBoundUpdate_absent (v : Int) (p : fungePosition) (s : fungeSpace)
    (hv : v ≠ 32) (hp : s.entries p = none) :
    FungeSpaceSetNoBoundUpdate v p s =
      { (FungeSpaceInternalAlloc v s).2 with
        entries := fun k => if k = p then some (FungeSpaceInternalAlloc v s).1 else s.entries k } := by
  unfold FungeSpaceSetNoBoundUpdate
  simp [hv, ght_get, hp, ght_insert, alloc_entries]

theorem SetNoBoundUpdate_present (v : Int) (p : fungePosition) (s : fungeSpace)
    (hv : v ≠ 32) (tmp : CellPtr) (hp : s.entries p = some tmp) :
    FungeSpaceSetNoBoundUpdate v p s = { s with mem := store s.mem tmp v } := by
  unfold FungeSpaceSetNoBoundUpdate
  simp [hv, ght_get, hp]

theorem SetNoBoundUpdate_space (p : fungePosition) (s : fungeSpace) :
    FungeSpaceSetNoBoundUpdate 32 p s = { s with entries := ght_remove s.entries p } := by
  unfold FungeSpaceSetNoBoundUpdate
  simp

theorem WF_SetNoBoundUpdate (v : Int) (p : fungePosition) (s : fungeSpace)
    (h : WF s) : WF (FungeSpaceSetNoBoundUpdate v p s) := by
  by_cases hv : v = 32
  · subst hv
    rw [SetNoBoundUpdate_space]
    constructor
    · intro k ptr hk
      simp only [ght_remove] at hk
      split at hk
      · cases hk
      · exact h.alloc k ptr hk
    · intro k1 k2 ptr h1 h2
      simp only [ght_remove] at h1 h2
      split at h1
      · cases h1
      · split at h2
        · cases h2
        · exact h.inj k1 k2 ptr h1 h2
  · cases hp : s.entries p with
    | some tmp =>
      rw [SetNoBoundUpdate_present v p s hv tmp hp]
      exact ⟨h.alloc, h.inj⟩
    | none =>
      rw [SetNoBoundUpdate_absent v p s hv hp]
      constructor
      · intro k ptr hk
        simp only at hk
        split at hk
        · cases hk
          exact alloc_self v s
        · exact alloc_mono v s ptr (h.alloc k ptr hk)
      · intro k1 k2 ptr h1 h2
        simp only at h1 h2
        split at h1
        · cases h1
          split at h2
          · rename_i e1 e2
            rw [e1, e2]
          · exact absurd (h.alloc k2 _ h2) (alloc_fresh v s)
        · split at h2
          · cases h2
            exact absurd (h.alloc k1 _ h1) (alloc_fresh v s)
          · exact h.inj k1 k2 ptr h1 h2

/-- Reading after `FungeSpaceSetNoBoundUpdate` in a well-formed state: the value
written at the position written, the old value elsewhere. -/
theorem Get_SetNoBoundUpdate (v : Int) (p q : fungePosition) (s : fungeSpace)
    (h : WF s) :
    FungeSpaceGet (FungeSpaceSetNoBoundUpdate v p s) q
      = if q = p then v else FungeSpaceGet s q := by
  by_cases hv : v = 32
  · subst hv
    rw [SetNoBoundUpdate_space]
    simp only [FungeSpaceGet, ght_get, ght_remove]
    split_ifs <;> simp_all
  · cases hp : s.entries p with
    | some tmp =>
      rw [SetNoBoundUpdate_present v p s hv tmp hp]
      simp only [FungeSpaceGet, ght_get]
      by_cases hq : q = p
      · subst hq
        simp [hp, store]
      · simp only [hq, if_false]
        cases hq2 : s.entries q with
        | none => rfl
        | some t =>
          have : t ≠ tmp := fun e => hq (h.inj q p tmp (e ▸ hq2) hp)
          simp [store, this]
    | none =>
      rw [SetNoBoundUpdate_absent v p s hv hp]
      simp only [FungeSpaceGet, ght_get, alloc_mem]
      by_cases hq : q = p
      · subst hq
        simp [store]
      · simp only [hq, if_false]
        cases hq2 : s.entries q with
        | none => rfl
        | some t =>
          have : t ≠ (FungeSpaceInternalAlloc v s).1 :=
            fun e => alloc_fresh v s (e ▸ h.alloc q t hq2)
          simp [store, this]

theorem Set_entries (v : Int) (p : fungePosition) (s : fungeSpace) :
    (FungeSpaceSet v p s).entries = (FungeSpaceSetNoBoundUpdate v p s).entries
      ∧ (FungeSpaceSet v p s).mem = (FungeSpaceSetNoBoundUpdate v p s).mem
      ∧ (FungeSpaceSet v p s).allocarray = (FungeSpaceSetNoBoundUpdate v p s).allocarray
      ∧ (FungeSpaceSet v p s).allocarrayCurrent
          = (FungeSpaceSetNoBoundUpdate v p s).allocarrayCurrent := by
  unfold FungeSpaceSet
  simp only
  split_ifs <;> simp

theorem WF_Set (v : Int) (p : fungePosition) (s : fungeSpace) (h : WF s) :
    WF (FungeSpaceSet v p s) := by
  have h0 := WF_SetNoBoundUpdate v p s h
  obtain ⟨e1, e2, e3, e4⟩ := Set_entries v p s
  constructor
  · intro k ptr hk
    rw [e1] at hk
    have := h0.alloc k ptr hk
    unfold allocated at this ⊢
    rw [e3, e4]
    exact this
  · intro k1 k2 ptr h1 h2
    rw [e1] at h1 h2
    exact h0.inj k1 k2 ptr h1 h2

theorem Get_Set (v : Int) (p q : fungePosition) (s : fungeSpace) (h : WF s) :
    FungeSpaceGet (FungeSpaceSet v p s) q = if q = p then v else FungeSpaceGet s q := by
  rw [← Get_SetNoBoundUpdate v p q s h]
  obtain ⟨e1, e2, _, _⟩ := Set_entries v p s
  simp only [FungeSpaceGet, e1, e2]

theorem runSets_append (a b : List (Int × fungePosition)) (s : fungeSpace) :
    runSets (a ++ b) s = runSets b (runSets a s) := by
  simp [runSets, List.foldl_append]

theorem WF_runSets (calls : List (Int × fungePosition)) (s : fungeSpace) (h : WF s) :
    WF (runSets calls s) := by
  induction calls generalizing s with
  | nil => exact h
  | cons c cs ih => exact ih _ (WF_Set c.1 c.2 s h)

theorem Get_runSets_untouched (calls : List (Int × fungePosition)) (s : fungeSpace)
    (h : WF s) (p : fungePosition) (hp : ∀ c ∈ calls, c.2 ≠ p) :
    FungeSpaceGet (runSets calls s) p = FungeSpaceGet s p := by
  induction calls generalizing s with
  | nil => rfl
  | cons c cs ih =>
    have h1 : FungeSpaceGet (FungeSpaceSet c.1 c.2 s) p = FungeSpaceGet s p := by
      rw [Get_Set _ _ _ _ h, if_neg (fun e => hp c (List.mem_cons_self _ _) e.symm)]
    show FungeSpaceGet (runSets cs (FungeSpaceSet c.1 c.2 s)) p = _
    rw [ih _ (WF_Set c.1 c.2 s h) (fun c hc => hp c (List.mem_cons_of_mem _ hc)), h1]

/-- C1: for every sequence of `FungeSpaceSet` calls starting from a freshly
created space and every coordinate p, `FungeSpaceGet` returns the space (32) if
p was never set, and returns v if the last call at p set the value v (which is
the space 32 when p was last set to the space, and v itself when v is not the
space); and a set at q other than p does not change what get(p) returns. -/
theorem C1_get_after_sets (calls : List (Int × fungePosition)) (p : fungePosition) :
    ((∀ c ∈ calls, c.2 ≠ p) → FungeSpaceGet (runSets calls FungeSpaceCreate) p = 32)
    ∧ (∀ (before after : List (Int × fungePosition)) (v : Int),
        calls = before ++ (v, p) :: after → (∀ c ∈ after, c.2 ≠ p) →
          FungeSpaceGet (runSets calls FungeSpaceCreate) p = v)
    ∧ (∀ (q : fungePosition) (v : Int), q ≠ p →
        FungeSpaceGet (FungeSpaceSet v q (runSets calls FungeSpaceCreate)) p
          = FungeSpaceGet (runSets calls FungeSpaceCreate) p) := by
  refine ⟨?_, ?_, ?_⟩
  · intro hp
    rw [Get_runSets_untouched calls _ WF_Create p hp, Get_Create]
  · intro before after v hc hafter
    subst hc
    rw [runSets_append]
    show FungeSpaceGet (runSets after (FungeSpaceSet v p (runSets before FungeSpaceCreate))) p = v
    have hw := WF_runSets before _ WF_Create
    rw [Get_runSets_untouched after _ (WF_Set v p _ hw) p hafter, Get_Set _ _ _ _ hw]
    simp
  · intro q v hq
    rw [Get_Set _ _ _ _ (WF_runSets calls _ WF_Create), if_neg (fun e => hq e.symm)]

/-- C1, witness: after four sets, the last of which at (1,2) wrote 66, get((1,2)) is 66. -/
theorem C1_get_after_sets_witness :
    FungeSpaceGet (runSets [(65, ⟨1, 2⟩), (32, ⟨0, 0⟩), (66, ⟨1, 2⟩), (67, ⟨7, 7⟩)]
      FungeSpaceCreate) ⟨1, 2⟩ = 66 :=
  (C1_get_after_sets [(65, ⟨1, 2⟩), (32, ⟨0, 0⟩), (66, ⟨1, 2⟩), (67, ⟨7, 7⟩)] ⟨1, 2⟩).2.1
    [(65, ⟨1, 2⟩), (32, ⟨0, 0⟩)] [(67, ⟨7, 7⟩)] 66 rfl (by decide)

/-! ## Theorems: the bounding rectangle -/

theorem SetNoBoundUpdate_corners (v : Int) (p : fungePosition) (s : fungeSpace) :
    (FungeSpaceSetNoBoundUpdate v p s).topLeftCorner = s.topLeftCorner
      ∧ (FungeSpaceSetNoBoundUpdate v p s).bottomRightCorner = s.bottomRightCorner := by
  by_cases hv : v = 32
  · subst hv
    rw [SetNoBoundUpdate_space]
    exact ⟨rfl, rfl⟩
  · cases hp : s.entries p with
    | some tmp =>
      rw [SetNoBoundUpdate_present v p s hv tmp hp]
      exact ⟨rfl, rfl⟩
    | none =>
      rw [SetNoBoundUpdate_absent v p s hv hp]
      exact alloc_corners v s

/-- The corners after `FungeSpaceSet`, whatever the value written. -/
theorem Set_corners (v : Int) (p : fungePosition) (s : fungeSpace) :
    (FungeSpaceSet v p s).topLeftCorner = ⟨min s.topLeftCorner.x p.x, min s.topLeftCorner.y p.y⟩
      ∧ (FungeSpaceSet v p s).bottomRightCorner
          = ⟨max s.bottomRightCorner.x p.x, max s.bottomRightCorner.y p.y⟩ := by
  obtain ⟨e1, e2⟩ := SetNoBoundUpdate_corners v p s
  unfold FungeSpaceSet
  simp only
  rw [← e1, ← e2]
  generalize FungeSpaceSetNoBoundUpdate v p s = t
  constructor
  · split_ifs <;> simp_all <;> omega
  · split_ifs <;> simp_all <;> omega

theorem run_corners (c : SpaceCall) (s : fungeSpace) :
    (c.run s).topLeftCorner
        = ⟨min s.topLeftCorner.x c.target.x, min s.topLeftCorner.y c.target.y⟩
      ∧ (c.run s).bottomRightCorner
        = ⟨max s.bottomRightCorner.x c.target.x, max s.bottomRightCorner.y c.target.y⟩ := by
  cases c with
  | set v p => exact Set_corners v p s
  | setOff v p off => exact Set_corners v _ s

theorem runCalls_cons (c : SpaceCall) (cs : List SpaceCall) (s : fungeSpace) :
    runCalls (c :: cs) s = runCalls cs (c.run s) := rfl

theorem runCalls_corners_mono (calls : List SpaceCall) (s : fungeSpace) :
    (runCalls calls s).topLeftCorner.x ≤ s.topLeftCorner.x
      ∧ (runCalls calls s).topLeftCorner.y ≤ s.topLeftCorner.y
      ∧ s.bottomRightCorner.x ≤ (runCalls calls s).bottomRightCorner.x
      ∧ s.bottomRightCorner.y ≤ (runCalls calls s).bottomRightCorner.y := by
  induction calls generalizing s with
  | nil => simp [runCalls]
  | cons c cs ih =>
    have h := ih (c.run s)
    obtain ⟨e1, e2⟩ := run_corners c s
    rw [e1, e2] at h
    simp only at h
    rw [runCalls_cons]
    omega

/-- A difference that fits in `bits` bits is left as it is. -/
theorem wrapSigned_fits (bits : Nat) (hbits : 1 ≤ bits) (z : Int)
    (h0 : 0 ≤ z) (h1 : z < 2 ^ (bits - 1)) : wrapSigned bits z = z := by
  unfold wrapSigned
  have hp : (2 : Int) ^ bits = 2 * 2 ^ (bits - 1) := by
    obtain ⟨k, rfl⟩ : ∃ k, bits = k + 1 := ⟨bits - 1, by omega⟩
    simp only [Nat.add_sub_cancel]
    ring
  have hpos : (0 : Int) < 2 ^ (bits - 1) := by positivity
  rw [hp, Int.emod_eq_of_lt (by omega) (by omega)]
  omega

/-- When both differences fit, the rect computed in `bits` bits is the rect
`FungeSpaceGetBoundRect` of the exact differences. -/
theorem GetBoundRectBits_fits (bits : Nat) (hbits : 1 ≤ bits) (s : fungeSpace)
    (hx0 : 0 ≤ s.bottomRightCorner.x - s.topLeftCorner.x)
    (hx1 : s.bottomRightCorner.x - s.topLeftCorner.x < 2 ^ (bits - 1))
    (hy0 : 0 ≤ s.bottomRightCorner.y - s.topLeftCorner.y)
    (hy1 : s.bottomRightCorner.y - s.topLeftCorner.y < 2 ^ (bits - 1)) :
    FungeSpaceGetBoundRectBits bits s = FungeSpaceGetBoundRect s := by
  unfold FungeSpaceGetBoundRectBits FungeSpaceGetBoundRect
  rw [wrapSigned_fits bits hbits _ hx0 hx1, wrapSigned_fits bits hbits _ hy0 hy1]

/-- The corners after a sequence of calls enclose the target of each call. -/
theorem runCalls_target_in_corners (calls : List SpaceCall) (c : SpaceCall) (hc : c ∈ calls) :
    ∀ (s : fungeSpace),
      (runCalls calls s).topLeftCorner.x ≤ c.target.x
      ∧ (runCalls calls s).topLeftCorner.y ≤ c.target.y
      ∧ c.target.x ≤ (runCalls calls s).bottomRightCorner.x
      ∧ c.target.y ≤ (runCalls calls s).bottomRightCorner.y := by
  induction calls with
  | nil => cases hc
  | cons d ds ih =>
    intro s
    rw [runCalls_cons]
    rcases List.mem_cons.mp hc with e | h'
    · subst e
      have m := runCalls_corners_mono ds (c.run s)
      obtain ⟨e1, e2⟩ := run_corners c s
      rw [e1, e2] at m
      simp only at m
      omega
    · exact ih h' (d.run s)

/-- C2, counterexample: with `FUNGEVECTORTYPE` 64 bits wide, after `x` was set
at (9223372036854775807, 0) and at (-2, 0) in a freshly created space, the
corners are (-2,0) and (9223372036854775807,0), the width that
`FungeSpaceGetBoundRect` computes is -9223372036854775807, and the rect does
not contain (9223372036854775807, 0), which was set to a value other than the
space. -/
theorem C2_counterexample :
    (FungeSpaceGetBoundRectBits 64
        (runCalls [SpaceCall.set 120 ⟨9223372036854775807, 0⟩, SpaceCall.set 120 ⟨-2, 0⟩]
          FungeSpaceCreate))
      = ⟨-2, 0, -9223372036854775807, 0⟩
    ∧ ¬ (FungeSpaceGetBoundRectBits 64
        (runCalls [SpaceCall.set 120 ⟨9223372036854775807, 0⟩, SpaceCall.set 120 ⟨-2, 0⟩]
          FungeSpaceCreate)).contains
          (SpaceCall.set 120 ⟨9223372036854775807, 0⟩).target := by
  have e : (FungeSpaceGetBoundRectBits 64
        (runCalls [SpaceCall.set 120 ⟨9223372036854775807, 0⟩, SpaceCall.set 120 ⟨-2, 0⟩]
          FungeSpaceCreate))
      = ⟨-2, 0, -9223372036854775807, 0⟩ := by
    decide
  refine ⟨e, ?_⟩
  rw [e]
  unfold fungeRect.contains
  decide

/-- C2, amended: for every width `bits` of `FUNGEVECTORTYPE`, after any sequence
of `FungeSpaceSet` and `FungeSpaceSetOff` calls on a freshly created space that
leaves the corners no further apart than the type can hold (bottom right minus
top left below 2^(bits-1) in x and in y), the rect returned by
`FungeSpaceGetBoundRect` contains the coordinate of every call that set a value
other than the space (also when a later call overwrote it with the space):
x ≤ p.x ≤ x + w and y ≤ p.y ≤ y + h. -/
theorem C2_bound_rect_contains (bits : Nat) (hbits : 1 ≤ bits)
    (calls : List SpaceCall) (c : SpaceCall)
    (hc : c ∈ calls) (_hv : c.value ≠ 32)
    (hx : (runCalls calls FungeSpaceCreate).bottomRightCorner.x
        - (runCalls calls FungeSpaceCreate).topLeftCorner.x < 2 ^ (bits - 1))
    (hy : (runCalls calls FungeSpaceCreate).bottomRightCorner.y
        - (runCalls calls FungeSpaceCreate).topLeftCorner.y < 2 ^ (bits - 1)) :
    (FungeSpaceGetBoundRectBits bits (runCalls calls FungeSpaceCreate)).contains c.target := by
  have g := runCalls_target_in_corners calls c hc FungeSpaceCreate
  rw [GetBoundRectBits_fits bits hbits _ (by omega) hx (by omega) hy]
  unfold fungeRect.contains FungeSpaceGetBoundRect
  simp only
  omega

/-- C2, witness: with 64 bits, the rect contains (3,-4), set to 65 and later
overwritten with the space. -/
theorem C2_bound_rect_contains_witness :
    (FungeSpaceGetBoundRectBits 64 (runCalls
      [SpaceCall.set 65 ⟨3, -4⟩, SpaceCall.setOff 66 ⟨1, 1⟩ ⟨10, 20⟩, SpaceCall.set 32 ⟨3, -4⟩]
      FungeSpaceCreate)).contains (SpaceCall.set 65 ⟨3, -4⟩).target :=
  C2_bound_rect_contains 64 (by decide)
    [SpaceCall.set 65 ⟨3, -4⟩, SpaceCall.setOff 66 ⟨1, 1⟩ ⟨10, 20⟩, SpaceCall.set 32 ⟨3, -4⟩]
    (SpaceCall.set 65 ⟨3, -4⟩) (by simp) (by decide) (by decide) (by decide)

theorem InRange_iff (s : fungeSpace) (p : fungePosition) :
    FungeSpaceInRange s p = true ↔
      s.topLeftCorner.x ≤ p.x ∧ p.x ≤ s.bottomRightCorner.x
        ∧ s.topLeftCorner.y ≤ p.y ∧ p.y ≤ s.bottomRightCorner.y := by
  unfold FungeSpaceInRange
  split_ifs <;> simp <;> omega

theorem backUp_succ (s : fungeSpace) (d : fungeVector) (n : Nat) (p q : fungePosition)
    (h : backUp s d n p = some q) : backUp s d (n + 1) p = some q := by
  induction n generalizing p with
  | zero => simp [backUp] at h
  | succ n ih =>
    rw [backUp] at h ⊢
    split_ifs at h ⊢ with hr
    · exact ih _ h
    · exact h

theorem backUp_le (s : fungeSpace) (d : fungeVector) (n m : Nat) (p q : fungePosition)
    (h : backUp s d n p = some q) (hnm : n ≤ m) : backUp s d m p = some q := by
  induction hnm with
  | refl => exact h
  | step _ ih => exact backUp_succ s d _ p q ih

/-- The back-up loop ends within `n` passes when some measure of the position
is below `n` and decreases with every pass that stays in range. -/
theorem backUp_measure (s : fungeSpace) (d : fungeVector) (μ : fungePosition → Nat)
    (hμ : ∀ p : fungePosition, FungeSpaceInRange s ⟨p.x - d.x, p.y - d.y⟩ = true →
      μ ⟨p.x - d.x, p.y - d.y⟩ < μ p) :
    ∀ (n : Nat) (p : fungePosition), μ p < n → ∃ q, backUp s d n p = some q := by
  intro n
  induction n with
  | zero => intro p h; omega
  | succ n ih =>
    intro p h
    rw [backUp]
    split_ifs with hr
    · exact ih _ (by have := hμ p hr; omega)
    · exact ⟨_, rfl⟩

/-- The back-up loop of `FungeSpaceWrap` terminates: from a position out of
range it ends within `wrapFuel` passes, for every delta, and more fuel gives the
same result. -/
theorem backUp_wrapFuel (s : fungeSpace) (d : fungeVector) (p : fungePosition)
    (hp : FungeSpaceInRange s p = false) :
    ∃ q, ∀ n, wrapFuel s ≤ n → backUp s d n p = some q := by
  by_cases h1 : FungeSpaceInRange s ⟨p.x - d.x, p.y - d.y⟩ = true
  · have hin := (InRange_iff s _).mp h1
    simp only at hin
    have key : ∃ q, backUp s d (wrapFuel s - 1) ⟨p.x - d.x, p.y - d.y⟩ = some q := by
      rcases lt_trichotomy d.x 0 with hx | hx | hx
      · refine backUp_measure s d (fun r => (s.bottomRightCorner.x - r.x).toNat) ?_ _ _ ?_
        · intro r hr
          have := (InRange_iff s _).mp hr
          simp only at this ⊢
          omega
        · simp only [wrapFuel]
          omega
      · rcases lt_trichotomy d.y 0 with hy | hy | hy
        · refine backUp_measure s d (fun r => (s.bottomRightCorner.y - r.y).toNat) ?_ _ _ ?_
          · intro r hr
            have := (InRange_iff s _).mp hr
            simp only at this ⊢
            omega
          · simp only [wrapFuel]
            omega
        · exfalso
          have hpe : (⟨p.x - d.x, p.y - d.y⟩ : fungePosition) = p := by
            cases p; simp [hx, hy]
          rw [hpe] at h1
          rw [h1] at hp
          cases hp
        · refine backUp_measure s d (fun r => (r.y - s.topLeftCorner.y).toNat) ?_ _ _ ?_
          · intro r hr
            have := (InRange_iff s _).mp hr
            simp only at this ⊢
            omega
          · simp only [wrapFuel]
            omega
      · refine backUp_measure s d (fun r => (r.x - s.topLeftCorner.x).toNat) ?_ _ _ ?_
        · intro r hr
          have := (InRange_iff s _).mp hr
          simp only at this ⊢
          omega
        · simp only [wrapFuel]
          omega
    obtain ⟨q, hq⟩ := key
    refine ⟨q, fun n hn => ?_⟩
    have h2 : backUp s d (wrapFuel s - 1 + 1) p = some q := by
      rw [backUp]
      simp only [h1, if_true]
      exact hq
    exact backUp_le s d _ n p q h2 (by simp only [wrapFuel] at hn ⊢; omega)
  · refine ⟨⟨p.x - d.x, p.y - d.y⟩, fun n hn => ?_⟩
    have h2 : backUp s d 1 p = some ⟨p.x - d.x, p.y - d.y⟩ := by
      rw [backUp]
      simp only [h1]
      rfl
    exact backUp_le s d 1 n p _ h2 (by simp only [wrapFuel] at hn; omega)

/-- C4, the failing input: with the bounding rect from (0,0) to (5,5), the
position (3,5) is in range; walking east, (4,5) and (5,5) are in range and
(6,5) is the first position out of range; `FungeSpaceWrap` sends (6,5) to
(0,0) and not to (0,5), the position on the opposite boundary in the row of
(3,5). -/
theorem C4_wrap_leaves_row :
    FungeSpaceGetBoundRect (FungeSpaceSet 120 ⟨5, 5⟩ FungeSpaceCreate) = ⟨0, 0, 5, 5⟩
    ∧ VectorIsCardinal ⟨1, 0⟩ = true
    ∧ FungeSpaceInRange (FungeSpaceSet 120 ⟨5, 5⟩ FungeSpaceCreate) ⟨3, 5⟩ = true
    ∧ FungeSpaceInRange (FungeSpaceSet 120 ⟨5, 5⟩ FungeSpaceCreate) ⟨4, 5⟩ = true
    ∧ FungeSpaceInRange (FungeSpaceSet 120 ⟨5, 5⟩ FungeSpaceCreate) ⟨5, 5⟩ = true
    ∧ FungeSpaceInRange (FungeSpaceSet 120 ⟨5, 5⟩ FungeSpaceCreate) ⟨6, 5⟩ = false
    ∧ FungeSpaceWrap (FungeSpaceSet 120 ⟨5, 5⟩ FungeSpaceCreate) ⟨6, 5⟩ ⟨1, 0⟩ = ⟨0, 0⟩
    ∧ FungeSpaceWrap (FungeSpaceSet 120 ⟨5, 5⟩ FungeSpaceCreate) ⟨6, 5⟩ ⟨1, 0⟩ ≠ ⟨0, 5⟩ := by
  decide

/-! ## Theorems: iterate -/

theorem ipForward_fields (s : fungeSpace) (ip : instructionPointer) (n : Int) :
    ipForward s ip n = { ip with position := (ipForward s ip n).position } := rfl

theorem skipLoop_fields (s : fungeSpace) (n : Nat) (injump : Bool) (ip : instructionPointer)
    (I : Int) (ipI : instructionPointer)
    (h : skipLoop s n injump ip = some (I, ipI)) :
    ipI = { ip with position := ipI.position } := by
  induction n generalizing injump ip with
  | zero => simp [skipLoop] at h
  | succ n ih =>
    rw [skipLoop] at h
    split_ifs at h
    · exact ih _ (ipForward s ip 1) h
    · exact ih _ (ipForward s ip 1) h
    · exact ih _ (ipForward s ip 1) h
    · cases h
      rfl

/-- The fetch of `RunIterate` changes nothing of the instruction pointer but
its position. -/
theorem fetchInstr_fields (s : fungeSpace) (fuel : Nat) (ip : instructionPointer)
    (I : Int) (ipI : instructionPointer)
    (h : fetchInstr s fuel ip = some (I, ipI)) :
    ipI = { ip with position := ipI.position } := by
  unfold fetchInstr at h
  dsimp only at h
  split_ifs at h
  · exact skipLoop_fields s fuel _ (ipForward s ip 1) I ipI h
  · exact skipLoop_fields s fuel _ (ipForward s ip 1) I ipI h
  · cases h
    rfl

theorem iterLoop_eq_iterate {ω : Type} (exec : Int → Interp ω → Interp ω)
    (I : Int) (n : Nat) (m : Interp ω) :
    iterLoop exec I n m = (exec I)^[n] m := by
  induction n generalizing m with
  | zero => rfl
  | succ n ih => exact ih (exec I m)

/-- C5: when the count popped by k is 0, `RunIterate` returns, for every
dispatcher and with any fuel, the state in which only the instruction pointer
changed: the count is popped, the rest of the stack, the delta and the storage
offset are as before, and the position is the one `ipForward(ip, 1)` gives, which
is position + delta when that is in range. Funge-space and the world are
unchanged, so no instruction was executed. -/
theorem C5_iterate_zero {ω : Type} (exec : Int → Interp ω → Interp ω)
    (std : standardVersion) (fuel : Nat) (m : Interp ω)
    (h : (StackPop m.ip.stack).1 = 0) :
    RunIterate exec std fuel m = some
      { ip := { stack := (StackPop m.ip.stack).2,
                position := (ipForward m.fspace m.ip 1).position,
                delta := m.ip.delta,
                storageOffset := m.ip.storageOffset },
        fspace := m.fspace,
        world := m.world }
    ∧ (FungeSpaceInRange m.fspace ⟨m.ip.position.x + m.ip.delta.x, m.ip.position.y + m.ip.delta.y⟩
        = true →
      (ipForward m.fspace m.ip 1).position
        = ⟨m.ip.position.x + m.ip.delta.x, m.ip.position.y + m.ip.delta.y⟩) := by
  constructor
  · unfold RunIterate
    simp only [h, if_true]
    rfl
  · intro hr
    simp only [ipForward, mul_one, hr, if_true]

/-- C8: when the count popped by k is negative, `RunIterate` returns, for every
dispatcher and with any fuel, the state in which the count is popped and the
delta is negated; the position, the rest of the stack, the storage offset,
Funge-space and the world are unchanged, so no instruction was executed. -/
theorem C8_iterate_negative {ω : Type} (exec : Int → Interp ω → Interp ω)
    (std : standardVersion) (fuel : Nat) (m : Interp ω)
    (h : (StackPop m.ip.stack).1 < 0) :
    RunIterate exec std fuel m = some
      { ip := { stack := (StackPop m.ip.stack).2,
                position := m.ip.position,
                delta := ⟨-m.ip.delta.x, -m.ip.delta.y⟩,
                storageOffset := m.ip.storageOffset },
        fspace := m.fspace,
        world := m.world } := by
  unfold RunIterate
  have h0 : (StackPop m.ip.stack).1 ≠ 0 := by omega
  simp only [h0, h, if_true, if_false]
  rfl

/-- The `default` case of `RunIterate`: with a positive count and a target
other than `z`, `k` and `@`, the result is the state after the iterations,
passed through `movePast`. -/
theorem RunIterate_default {ω : Type} (exec : Int → Interp ω → Interp ω)
    (std : standardVersion) (fuel : Nat) (m : Interp ω)
    (I : Int) (ipI : instructionPointer)
    (hN : 0 < (StackPop m.ip.stack).1)
    (hfetch : fetchInstr m.fspace fuel
        ⟨(StackPop m.ip.stack).2, m.ip.position, m.ip.delta, m.ip.storageOffset⟩
      = some (I, ipI))
    (hz : I ≠ 122) (hk : I ≠ 107) (hat : I ≠ 64) :
    RunIterate exec std fuel m = some
      (movePast std m.ip.delta m.ip.position ipI.position
        ((exec I)^[(StackPop m.ip.stack).1.toNat]
          { ip := ⟨(StackPop m.ip.stack).2, m.ip.position, m.ip.delta, m.ip.storageOffset⟩,
            fspace := m.fspace, world := m.world })) := by
  have hf := fetchInstr_fields _ _ _ _ _ hfetch
  have hs : ipI.stack = (StackPop m.ip.stack).2 := by rw [hf]
  have ho : ipI.storageOffset = m.ip.storageOffset := by rw [hf]
  have hd : ipI.delta = m.ip.delta := by rw [hf]
  unfold RunIterate
  have h0 : (StackPop m.ip.stack).1 ≠ 0 := by omega
  have h1 : ¬ (StackPop m.ip.stack).1 < 0 := by omega
  simp only [h0, h1, if_false, hfetch, hz, hk, hat, hs, ho, hd, iterLoop_eq_iterate]

/-- C5, witness: in `0k5@` with the stack 0, 7 at k, the count is popped and the instruction pointer stands on the cell (2,0). -/
theorem C5_iterate_zero_witness :
    (RunIterate ExecuteInstructionNoK standardVersion.stdver98 0
        (stateAt (bytesOf "0k5@") [0, 7] ⟨1, 0⟩)).map (fun r => (r.ip, r.world))
      = some (⟨[7], ⟨2, 0⟩, ⟨1, 0⟩, ⟨0, 0⟩⟩, ⟨"", none⟩) := by
  rw [(C5_iterate_zero ExecuteInstructionNoK standardVersion.stdver98 0
    (stateAt (bytesOf "0k5@") [0, 7] ⟨1, 0⟩) (by decide)).1]
  decide

/-- C8, witness: in `k5@` with the stack -3, 7 at k, the count is popped and the delta becomes (-1,0). -/
theorem C8_iterate_negative_witness :
    (RunIterate ExecuteInstructionNoK standardVersion.stdver98 0
        (stateAt (bytesOf "k5@") [-3, 7] ⟨0, 0⟩)).map (fun r => (r.ip, r.world))
      = some (⟨[7], ⟨0, 0⟩, ⟨-1, 0⟩, ⟨0, 0⟩⟩, ⟨"", none⟩) := by
  rw [C8_iterate_negative ExecuteInstructionNoK standardVersion.stdver98 0
    (stateAt (bytesOf "k5@") [-3, 7] ⟨0, 0⟩) (by decide)]
  decide

/-- The instruction that the fetch of `RunIterate` returns is the cell under
the instruction pointer that it returns. -/
theorem skipLoop_get (s : fungeSpace) (n : Nat) (injump : Bool) (ip : instructionPointer)
    (I : Int) (ipI : instructionPointer) (h : skipLoop s n injump ip = some (I, ipI)) :
    FungeSpaceGet s ipI.position = I := by
  induction n generalizing injump ip with
  | zero => simp [skipLoop] at h
  | succ n ih =>
    rw [skipLoop] at h
    split_ifs at h
    · exact ih _ _ h
    · exact ih _ _ h
    · exact ih _ _ h
    · cases h
      rfl

theorem fetchInstr_get (s : fungeSpace) (fuel : Nat) (ip : instructionPointer)
    (I : Int) (ipI : instructionPointer) (h : fetchInstr s fuel ip = some (I, ipI)) :
    FungeSpaceGet s ipI.position = I := by
  unfold fetchInstr at h
  dsimp only at h
  split_ifs at h
  · exact skipLoop_get s fuel _ _ I ipI h
  · exact skipLoop_get s fuel _ _ I ipI h
  · cases h
    rfl

/-- C7, counterexample: in Funge-108 mode, in the program `2k5@` with the count
2 on the stack, the target 5 (53) is the cell (2,0), the two executions leave
delta and position as they were at k, and on return from `RunIterate` the
position is (2,0), the cell holding the target, and not (3,0), the cell one
step along delta past it. -/
theorem C7_counterexample :
    fetchInstr (stateAt (bytesOf "2k5@") [2] ⟨1, 0⟩).fspace 0 ⟨[], ⟨1, 0⟩, ⟨1, 0⟩, ⟨0, 0⟩⟩
      = some (53, ⟨[], ⟨2, 0⟩, ⟨1, 0⟩, ⟨0, 0⟩⟩)
    ∧ (ExecuteInstructionNoK 53 (ExecuteInstructionNoK 53
        (stateAt (bytesOf "2k5@") [] ⟨1, 0⟩))).ip = ⟨[5, 5], ⟨1, 0⟩, ⟨1, 0⟩, ⟨0, 0⟩⟩
    ∧ (RunIterate ExecuteInstructionNoK standardVersion.stdver108 0
        (stateAt (bytesOf "2k5@") [2] ⟨1, 0⟩)).map (fun r => r.ip)
      = some ⟨[5, 5], ⟨2, 0⟩, ⟨1, 0⟩, ⟨0, 0⟩⟩
    ∧ (ipForward (stateAt (bytesOf "2k5@") [2] ⟨1, 0⟩).fspace
        ⟨[5, 5], ⟨2, 0⟩, ⟨1, 0⟩, ⟨0, 0⟩⟩ 1).position = ⟨3, 0⟩
    ∧ (RunIterate ExecuteInstructionNoK standardVersion.stdver108 0
        (stateAt (bytesOf "2k5@") [2] ⟨1, 0⟩)).map (fun r => r.ip.position)
      ≠ some ⟨3, 0⟩ := by
  decide

/-- C7, amended: for N > 0 and a target I other than `z`, `k` and `@`, found
by the fetch in the cell at `posinstr`: in Funge-108 mode, if after the N
executions delta and position equal the values they had at k, then on return
from `RunIterate` the position is `posinstr`, the cell holding I; if delta or
position differ, the state is left as the iterated instruction made it; in the
other modes the position is never adjusted. -/
theorem C7_move_past {ω : Type} (exec : Int → Interp ω → Interp ω)
    (std : standardVersion) (fuel : Nat) (m r : Interp ω)
    (I : Int) (ipI : instructionPointer)
    (hN : 0 < (StackPop m.ip.stack).1)
    (hfetch : fetchInstr m.fspace fuel
        ⟨(StackPop m.ip.stack).2, m.ip.position, m.ip.delta, m.ip.storageOffset⟩
      = some (I, ipI))
    (hz : I ≠ 122) (hk : I ≠ 107) (hat : I ≠ 64)
    (hr : r = (exec I)^[(StackPop m.ip.stack).1.toNat]
      { ip := ⟨(StackPop m.ip.stack).2, m.ip.position, m.ip.delta, m.ip.storageOffset⟩,
        fspace := m.fspace, world := m.world }) :
    FungeSpaceGet m.fspace ipI.position = I
    ∧ (std = standardVersion.stdver108 → r.ip.delta = m.ip.delta → r.ip.position = m.ip.position →
        RunIterate exec std fuel m = some
          { ip := ⟨r.ip.stack, ipI.position, r.ip.delta, r.ip.storageOffset⟩,
            fspace := r.fspace, world := r.world })
    ∧ (std = standardVersion.stdver108 →
        ¬ (r.ip.delta = m.ip.delta ∧ r.ip.position = m.ip.position) →
        RunIterate exec std fuel m = some r)
    ∧ (std ≠ standardVersion.stdver108 → RunIterate exec std fuel m = some r) := by
  have h := RunIterate_default exec std fuel m I ipI hN hfetch hz hk hat
  rw [← hr] at h
  refine ⟨fetchInstr_get _ _ _ _ _ hfetch, ?_, ?_, ?_⟩
  · intro hs hd hp
    rw [h, movePast, if_pos hs, if_pos]
    · rw [hd, hp]
      exact ⟨rfl, rfl, rfl, rfl⟩
  · intro hs hne
    rw [h, movePast, if_pos hs, if_neg]
    rintro ⟨a, b, c, d⟩
    apply hne
    constructor
    · cases hd : r.ip.delta
      cases hd2 : m.ip.delta
      rw [hd] at a b
      rw [hd2] at a b
      simp only at a b
      rw [a, b]
    · cases hp : r.ip.position
      cases hp2 : m.ip.position
      rw [hp] at c d
      rw [hp2] at c d
      simp only at c d
      rw [c, d]
  · intro hs
    rw [h, movePast, if_neg hs]

/-- C7, witness: in `3k 5@` under Funge-108 the position on return is (3,0), the cell holding the target 5. -/
theorem C7_move_past_witness :
    (RunIterate ExecuteInstructionNoK standardVersion.stdver108 9
        (stateAt (bytesOf "3k 5@") [3, 7] ⟨1, 0⟩)).map (fun r => (r.ip, r.world))
      = some (⟨[5, 5, 5, 7], ⟨3, 0⟩, ⟨1, 0⟩, ⟨0, 0⟩⟩, ⟨"", none⟩) := by
  rw [(C7_move_past ExecuteInstructionNoK standardVersion.stdver108 9
    (stateAt (bytesOf "3k 5@") [3, 7] ⟨1, 0⟩)
    (ExecuteInstructionNoK 53 (ExecuteInstructionNoK 53 (ExecuteInstructionNoK 53
      (stateAt (bytesOf "3k 5@") [7] ⟨1, 0⟩))))
    53 ⟨[7], ⟨3, 0⟩, ⟨1, 0⟩, ⟨0, 0⟩⟩
    (by decide) (by decide) (by decide) (by decide) (by decide) rfl).2.1 rfl
      (by decide) (by decide)]
  decide

/-! ## Theorems: the end-to-end scenario -/

/-- C9, counterexample: the run of `2k1.@` under Funge-98 ends with `1 ` on
the standard output, which is not `1 1 `. -/
theorem C9_counterexample :
    (interpreterRun standardVersion.stdver98 (bytesOf "2k1.@") 0 5).map (fun m => m.world)
      = some ⟨"1 ", some 0⟩
    ∧ (interpreterRun standardVersion.stdver98 (bytesOf "2k1.@") 0 5).map
        (fun m => m.world.stdout) ≠ some "1 1 " := by
  decide

theorem skipLoop_succ (s : fungeSpace) (n : Nat) (injump : Bool) (ip : instructionPointer)
    (r : Int × instructionPointer) (h : skipLoop s n injump ip = some r) :
    skipLoop s (n + 1) injump ip = some r := by
  induction n generalizing injump ip with
  | zero => simp [skipLoop] at h
  | succ n ih =>
    rw [skipLoop] at h ⊢
    split_ifs at h ⊢
    · exact ih _ _ h
    · exact ih _ _ h
    · exact ih _ _ h
    · exact h

theorem fetchInstr_succ (s : fungeSpace) (n : Nat) (ip : instructionPointer)
    (r : Int × instructionPointer) (h : fetchInstr s n ip = some r) :
    fetchInstr s (n + 1) ip = some r := by
  unfold fetchInstr at h ⊢
  dsimp only at h ⊢
  split_ifs at h ⊢
  · exact skipLoop_succ _ _ _ _ _ h
  · exact skipLoop_succ _ _ _ _ _ h
  · exact h

/-- More fuel for the skip loop does not change a result of `RunIterate`. -/
theorem RunIterate_succ {ω : Type} (exec : Int → Interp ω → Interp ω)
    (std : standardVersion) (n : Nat) (m r : Interp ω)
    (h : RunIterate exec std n m = some r) : RunIterate exec std (n + 1) m = some r := by
  unfold RunIterate at h ⊢
  dsimp only at h ⊢
  split_ifs at h ⊢
  · exact h
  · exact h
  · cases hf : fetchInstr m.fspace n
        ⟨(StackPop m.ip.stack).2, m.ip.position, m.ip.delta, m.ip.storageOffset⟩ with
    | none => rw [hf] at h; cases h
    | some v =>
      rw [fetchInstr_succ _ _ _ _ hf]
      rw [hf] at h
      exact h

theorem ExecuteInstruction_succ (std : standardVersion) (n : Nat) (op : Int)
    (m r : Interp Console) (h : ExecuteInstruction std n op m = some r) :
    ExecuteInstruction std (n + 1) op m = some r := by
  unfold ExecuteInstruction at h ⊢
  split_ifs at h ⊢
  · exact h
  · exact RunIterate_succ _ _ _ _ _ h
  · exact h

theorem mainLoop_fuel_succ (std : standardVersion) (n ticks : Nat) (m r : Interp Console)
    (h : mainLoop std n ticks m = some r) : mainLoop std (n + 1) ticks m = some r := by
  induction ticks generalizing m with
  | zero => exact h
  | succ t ih =>
    rw [mainLoop] at h ⊢
    split_ifs at h ⊢ with he
    · exact h
    · cases hx : ExecuteInstruction std n (FungeSpaceGet m.fspace m.ip.position) m with
      | none => rw [hx] at h; cases h
      | some m1 =>
        rw [ExecuteInstruction_succ _ _ _ _ _ hx]
        rw [hx] at h
        dsimp only at h ⊢
        split_ifs at h ⊢
        · exact h
        · exact ih _ h

theorem mainLoop_ticks_succ (std : standardVersion) (n ticks : Nat) (m r : Interp Console)
    (h : mainLoop std n ticks m = some r) : mainLoop std n (ticks + 1) m = some r := by
  induction ticks generalizing m with
  | zero =>
    rw [mainLoop] at h
    split_ifs at h with he
    rw [mainLoop, if_pos he]
    exact h
  | succ t ih =>
    rw [mainLoop] at h
    rw [mainLoop]
    split_ifs at h ⊢ with he
    · exact h
    · cases hx : ExecuteInstruction std n (FungeSpaceGet m.fspace m.ip.position) m with
      | none => rw [hx] at h; cases h
      | some m1 =>
        rw [hx] at h
        dsimp only at h ⊢
        split_ifs at h ⊢
        · exact h
        · exact ih _ h

/-- A run that has ended keeps its result with more fuel and a larger bound on
the number of instructions. -/
theorem interpreterRun_mono (std : standardVersion) (file : List Int)
    (fuel ticks fuel2 ticks2 : Nat) (r : Interp Console)
    (h : interpreterRun std file fuel ticks = some r) :
    interpreterRun std file (fuel + fuel2) (ticks + ticks2) = some r := by
  unfold interpreterRun at h ⊢
  induction fuel2 with
  | zero =>
    induction ticks2 with
    | zero => exact h
    | succ k ih => exact mainLoop_ticks_succ _ _ _ _ _ ih
  | succ k ih => exact mainLoop_fuel_succ _ _ _ _ _ ih

theorem interpreterRun_map_mono {α : Type} (f : Interp Console → α) (std : standardVersion)
    (file : List Int) (fuel ticks fuel2 ticks2 : Nat) (v : α)
    (h : (interpreterRun std file fuel ticks).map f = some v) :
    (interpreterRun std file (fuel + fuel2) (ticks + ticks2)).map f = some v := by
  cases hr : interpreterRun std file fuel ticks with
  | none => rw [hr] at h; cases h
  | some r =>
    rw [interpreterRun_mono std file fuel ticks fuel2 ticks2 r hr]
    rw [hr] at h
    exact h

/-- C9, amended: running the program `2k1.@` (one instruction pointer at (0,0)
moving east, k by `RunIterate` followed by the one-step advance of the main
loop) prints exactly `1 ` and terminates with exit code 0, under Funge-98 and
under Funge-108, with any fuel for the skip loop and any bound of at least five
instructions: k executes the single instruction `1` twice. -/
theorem C9_run_2k1 (fuel extra : Nat) :
    (interpreterRun standardVersion.stdver98 (bytesOf "2k1.@") fuel (5 + extra)).map
        (fun m => (m.world, m.ip.stack)) = some (⟨"1 ", some 0⟩, [1, 1])
    ∧ (interpreterRun standardVersion.stdver108 (bytesOf "2k1.@") fuel (5 + extra)).map
        (fun m => (m.world, m.ip.stack)) = some (⟨"1 ", some 0⟩, [1]) := by
  have h98 := interpreterRun_map_mono (fun m => (m.world, m.ip.stack))
    standardVersion.stdver98 (bytesOf "2k1.@") 0 5 fuel extra (⟨"1 ", some 0⟩, [1, 1]) (by decide)
  have h108 := interpreterRun_map_mono (fun m => (m.world, m.ip.stack))
    standardVersion.stdver108 (bytesOf "2k1.@") 0 5 fuel extra (⟨"1 ", some 0⟩, [1]) (by decide)
  rw [Nat.zero_add] at h98 h108
  exact ⟨h98, h108⟩

/-! ## Theorems: loading a text at an offset -/

/-- An induction principle that follows the way a text is read: `\r\n`, a lone
`\r`, `\n`, or any other character, then the rest. -/
theorem text_induction (P : List Int → Prop) (hnil : P [])
    (hcrlf : ∀ rest, P rest → P (13 :: 10 :: rest))
    (hcr : ∀ rest, rest.head? ≠ some 10 → P rest → P (13 :: rest))
    (hlf : ∀ rest, P rest → P (10 :: rest))
    (hchar : ∀ c rest, c ≠ 10 → c ≠ 13 → P rest → P (c :: rest)) :
    ∀ l, P l := by
  have two : ∀ l, P l ∧ ∀ d, P (d :: l) := by
    intro l
    induction l with
    | nil =>
      refine ⟨hnil, fun d => ?_⟩
      by_cases h13 : d = 13
      · subst h13
        exact hcr [] (by simp) hnil
      · by_cases h10 : d = 10
        · subst h10
          exact hlf [] hnil
        · exact hchar d [] h10 h13 hnil
    | cons c l ih =>
      refine ⟨ih.2 c, fun d => ?_⟩
      by_cases h13 : d = 13
      · subst h13
        by_cases hc : c = 10
        · subst hc
          exact hcrlf l ih.1
        · exact hcr (c :: l) (by simp [hc]) (ih.2 c)
      · by_cases h10 : d = 10
        · subst h10
          exact hlf (c :: l) (ih.2 c)
        · exact hchar d (c :: l) h10 h13 (ih.2 c)
  exact fun l => (two l).1

theorem loadAt_crlf (o : fungePosition) (rest : List Int) (st : LoadAtState) :
    loadAtOffsetLine o false (13 :: 10 :: rest) st
      = loadAtOffsetLine o false rest
          { st with size := growSizeX st.size st.x, x := 0, y := st.y + 1 } := by
  rw [loadAtOffsetLine]
  simp

theorem loadAt_cr (o : fungePosition) (rest : List Int) (st : LoadAtState)
    (h : rest.head? ≠ some 10) :
    loadAtOffsetLine o false (13 :: rest) st
      = loadAtOffsetLine o false rest
          { st with size := growSizeX st.size st.x, x := 0, y := st.y + 1 } := by
  cases rest <;> simp_all [loadAtOffsetLine]

theorem loadAt_lf (o : fungePosition) (rest : List Int) (st : LoadAtState) :
    loadAtOffsetLine o false (10 :: rest) st
      = loadAtOffsetLine o false rest
          { st with size := growSizeX st.size st.x, x := 0, y := st.y + 1 } := by
  cases rest <;> simp [loadAtOffsetLine]

theorem loadAt_char (o : fungePosition) (c : Int) (rest : List Int) (st : LoadAtState)
    (h0 : c ≠ 0) (h10 : c ≠ 10) (h13 : c ≠ 13) :
    loadAtOffsetLine o false (c :: rest) st
      = loadAtOffsetLine o false rest
          { st with
            fspace := if c ≠ 32 then FungeSpaceSetOff c ⟨st.x, st.y⟩ o st.fspace
                      else st.fspace,
            x := st.x + 1 } := by
  cases rest <;> simp [loadAtOffsetLine, h0, h10, h13]

theorem textRows_crlf (rest : List Int) :
    textRows (13 :: 10 :: rest) = [] :: textRows rest := by
  simp [textRows]

theorem textRows_cr (rest : List Int) (h : rest.head? ≠ some 10) :
    textRows (13 :: rest) = [] :: textRows rest := by
  cases rest <;> simp_all [textRows]

theorem textRows_lf (rest : List Int) : textRows (10 :: rest) = [] :: textRows rest := by
  cases rest <;> simp [textRows]

theorem textRows_ne_nil : ∀ l : List Int, textRows l ≠ [] := by
  apply text_induction
  · simp [textRows]
  · intro rest _; rw [textRows_crlf]; simp
  · intro rest h _; rw [textRows_cr rest h]; simp
  · intro rest _; rw [textRows_lf]; simp
  · intro c rest h10 h13 ih
    cases h : textRows rest with
    | nil => exact absurd h ih
    | cons row rows =>
      cases rest <;> simp_all [textRows]

theorem textRows_char (c : Int) (rest : List Int) (h10 : c ≠ 10) (h13 : c ≠ 13) :
    ∃ row rows, textRows rest = row :: rows ∧ textRows (c :: rest) = (c :: row) :: rows := by
  cases h : textRows rest with
  | nil => exact absurd h (textRows_ne_nil rest)
  | cons row rows =>
    refine ⟨row, rows, rfl, ?_⟩
    cases rest <;> simp_all [textRows]

theorem rowsCellFrom_newline (R : List (List Int)) (x0 y0 : Int) (q : fungePosition) :
    rowsCellFrom ([] :: R) x0 y0 q = rowsCellFrom R 0 (y0 + 1) q := by
  unfold rowsCellFrom rowsCell
  by_cases h1 : q.y = y0
  · subst h1
    have h2 : ¬ q.y = q.y + 1 := by omega
    have h3 : q.y - (q.y + 1) < 0 := by omega
    simp only [h2, if_true, if_false, h3, or_true]
    split_ifs <;> simp
  · by_cases h2 : q.y = y0 + 1
    · have h3 : q.y - y0 = 1 := by omega
      simp only [h1, h2, if_true, if_false, h3]
      by_cases hx : q.x < 0
      · simp [hx]
      · simp [hx]
    · simp only [h1, h2, if_false]
      by_cases hx : q.x < 0 ∨ q.y - y0 < 0
      · have hx2 : q.x < 0 ∨ q.y - (y0 + 1) < 0 := by omega
        simp only [hx, hx2, if_true]
      · have hx2 : ¬ (q.x < 0 ∨ q.y - (y0 + 1) < 0) := by omega
        have e : (q.y - y0).toNat = (q.y - (y0 + 1)).toNat + 1 := by omega
        simp only [hx, hx2, if_false, e, List.getElem?_cons_succ]

theorem rowsCellFrom_char (c : Int) (row : List Int) (rows : List (List Int)) (x0 y0 : Int)
    (q : fungePosition) :
    rowsCellFrom ((c :: row) :: rows) x0 y0 q
      = if q = ⟨x0, y0⟩ then some c else rowsCellFrom (row :: rows) (x0 + 1) y0 q := by
  unfold rowsCellFrom rowsCell
  by_cases h1 : q.y = y0
  · by_cases h2 : q.x < x0
    · have h3 : q.x < x0 + 1 := by omega
      have h4 : q ≠ ⟨x0, y0⟩ := by
        intro e; rw [e] at h2; simp at h2
      simp only [h1, h2, h3, h4, if_true, if_false]
    · by_cases h3 : q.x = x0
      · have h4 : q = ⟨x0, y0⟩ := by
          cases q; simp_all
        simp [h1, h3, h4]
      · have h4 : q ≠ ⟨x0, y0⟩ := by
          intro e; rw [e] at h3; simp at h3
        have h5 : ¬ q.x < x0 + 1 := by omega
        have h6 : ¬ q.x - x0 < 0 := by omega
        have h7 : ¬ q.x - (x0 + 1) < 0 := by omega
        have e : (q.x - x0).toNat = (q.x - (x0 + 1)).toNat + 1 := by omega
        simp [h1, h2, h4, h5, h6, h7, e]
  · have h4 : q ≠ ⟨x0, y0⟩ := by
      intro e; rw [e] at h1; simp at h1
    simp only [h1, h4, if_false]
    by_cases hx : q.x < 0 ∨ q.y - y0 < 0
    · simp only [hx, if_true]
    · have e : ∃ n : Nat, (q.y - y0).toNat = n + 1 := ⟨(q.y - y0).toNat - 1, by omega⟩
      obtain ⟨n, hn⟩ := e
      simp only [hx, if_false, hn, List.getElem?_cons_succ]

theorem rowsCellFrom_zero (rows : List (List Int)) (q : fungePosition) :
    rowsCellFrom rows 0 0 q = rowsCell rows q.x q.y := by
  unfold rowsCellFrom rowsCell
  by_cases h1 : q.y = 0
  · by_cases h2 : q.x < 0 <;> simp [h1, h2]
  · simp [h1]

theorem rowsCell_empty (x y : Int) : rowsCell [[]] x y = none := by
  unfold rowsCell
  split_ifs
  · rfl
  · cases y.toNat <;> simp

theorem readAfterLoad_empty (x0 y0 : Int) (o p : fungePosition) (old : Int) :
    readAfterLoad [[]] x0 y0 o p old = old := by
  unfold readAfterLoad rowsCellFrom
  split_ifs <;> simp [rowsCell_empty]

theorem readAfterLoad_newline (R : List (List Int)) (x0 y0 : Int) (o p : fungePosition)
    (old : Int) :
    readAfterLoad ([] :: R) x0 y0 o p old = readAfterLoad R 0 (y0 + 1) o p old := by
  unfold readAfterLoad
  rw [rowsCellFrom_newline]

/-- Reading after the text-mode loop of `FungeSpaceLoadAtOffset` has run over a
NUL-free text, started with the counters `x` and `y` of the state. -/
theorem loadAt_get (o : fungePosition) :
    ∀ (l : List Int), (∀ c ∈ l, c ≠ 0) → ∀ (st : LoadAtState), WF st.fspace →
      WF (loadAtOffsetLine o false l st).fspace
      ∧ ∀ p, FungeSpaceGet (loadAtOffsetLine o false l st).fspace p
          = readAfterLoad (textRows l) st.x st.y o p (FungeSpaceGet st.fspace p) := by
  apply text_induction
  · intro _ st hw
    refine ⟨hw, fun p => ?_⟩
    simp [loadAtOffsetLine, textRows, readAfterLoad_empty]
  · intro rest ih h0 st hw
    rw [loadAt_crlf, textRows_crlf]
    have h := ih (fun c hc => h0 c (by simp [hc]))
      { st with size := growSizeX st.size st.x, x := 0, y := st.y + 1 } hw
    refine ⟨h.1, fun p => ?_⟩
    rw [h.2 p, readAfterLoad_newline]
  · intro rest hh ih h0 st hw
    rw [loadAt_cr _ _ _ hh, textRows_cr _ hh]
    have h := ih (fun c hc => h0 c (by simp [hc]))
      { st with size := growSizeX st.size st.x, x := 0, y := st.y + 1 } hw
    refine ⟨h.1, fun p => ?_⟩
    rw [h.2 p, readAfterLoad_newline]
  · intro rest ih h0 st hw
    rw [loadAt_lf, textRows_lf]
    have h := ih (fun c hc => h0 c (by simp [hc]))
      { st with size := growSizeX st.size st.x, x := 0, y := st.y + 1 } hw
    refine ⟨h.1, fun p => ?_⟩
    rw [h.2 p, readAfterLoad_newline]
  · intro c rest h10 h13 ih h0 st hw
    have hc0 : c ≠ 0 := h0 c (by simp)
    rw [loadAt_char _ _ _ _ hc0 h10 h13]
    obtain ⟨row, rows, e1, e2⟩ := textRows_char c rest h10 h13
    have hw1 : WF (if c ≠ 32 then FungeSpaceSetOff c ⟨st.x, st.y⟩ o st.fspace
        else st.fspace) := by
      split_ifs
      · exact WF_Set _ _ _ hw
      · exact hw
    have h := ih (fun c hc => h0 c (by simp [hc]))
      { st with
        fspace := if c ≠ 32 then FungeSpaceSetOff c ⟨st.x, st.y⟩ o st.fspace else st.fspace,
        x := st.x + 1 } hw1
    refine ⟨h.1, fun p => ?_⟩
    rw [h.2 p, e1, e2]
    unfold readAfterLoad
    rw [rowsCellFrom_char]
    by_cases hq : (⟨p.x - o.x, p.y - o.y⟩ : fungePosition) = ⟨st.x, st.y⟩
    · have hp : p = ⟨st.x + o.x, st.y + o.y⟩ := by
        cases p
        simp only [fungeVector.mk.injEq] at hq ⊢
        omega
      have hnone : rowsCellFrom (row :: rows) (st.x + 1) st.y ⟨p.x - o.x, p.y - o.y⟩ = none := by
        rw [hq]
        simp [rowsCellFrom]
      rw [if_pos hq, hnone]
      simp only
      by_cases h32 : c = 32
      · simp [h32]
      · simp only [h32, ne_eq, not_false_eq_true, if_true, if_false]
        rw [hp, FungeSpaceSetOff, Get_Set _ _ _ _ hw]
        simp
    · have hp : p ≠ ⟨st.x + o.x, st.y + o.y⟩ := by
        intro e
        apply hq
        rw [e]
        simp
      rw [if_neg hq]
      have hsame : FungeSpaceGet (if c ≠ 32 then FungeSpaceSetOff c ⟨st.x, st.y⟩ o st.fspace
          else st.fspace) p = FungeSpaceGet st.fspace p := by
        split_ifs
        · rw [FungeSpaceSetOff, Get_Set _ _ _ _ hw, if_neg hp]
        · rfl
      simp only [hsame]

/-- The text-mode loop over a text that ends with a newline, followed by the
loop over more text, is the loop over the two together. -/
theorem loadAt_append (o : fungePosition) :
    ∀ (a : List Int), (∀ c ∈ a, c ≠ 0) → (a = [] ∨ a.getLast? = some 10) →
      ∀ (b : List Int) (st : LoadAtState),
        loadAtOffsetLine o false (a ++ b) st
          = loadAtOffsetLine o false b (loadAtOffsetLine o false a st) := by
  apply text_induction
  · intro _ _ b st
    simp [loadAtOffsetLine]
  · intro rest ih h0 hl b st
    have hl2 : rest = [] ∨ rest.getLast? = some 10 := by
      cases rest with
      | nil => exact Or.inl rfl
      | cons d r =>
        right
        rcases hl with hl | hl
        · cases hl
        · simpa [List.getLast?_cons_cons] using hl
    rw [List.cons_append, List.cons_append, loadAt_crlf, loadAt_crlf]
    exact ih (fun c hc => h0 c (by simp [hc])) hl2 b _
  · intro rest hh ih h0 hl b st
    cases rest with
    | nil =>
      rcases hl with hl | hl
      · cases hl
      · simp at hl
    | cons d r =>
      have hl2 : (d :: r) = [] ∨ (d :: r).getLast? = some 10 := by
        right
        rcases hl with hl | hl
        · cases hl
        · simpa [List.getLast?_cons_cons] using hl
      have hh2 : (d :: r ++ b).head? ≠ some 10 := by simpa using hh
      rw [List.cons_append, loadAt_cr _ _ _ hh2, loadAt_cr _ _ _ hh]
      exact ih (fun c hc => h0 c (by simp [hc])) hl2 b _
  · intro rest ih h0 hl b st
    have hl2 : rest = [] ∨ rest.getLast? = some 10 := by
      cases rest with
      | nil => exact Or.inl rfl
      | cons d r =>
        right
        rcases hl with hl | hl
        · cases hl
        · simpa [List.getLast?_cons_cons] using hl
    rw [List.cons_append, loadAt_lf, loadAt_lf]
    exact ih (fun c hc => h0 c (by simp [hc])) hl2 b _
  · intro c rest h10 h13 ih h0 hl b st
    have hc0 : c ≠ 0 := h0 c (by simp)
    have hl2 : rest = [] ∨ rest.getLast? = some 10 := by
      cases rest with
      | nil => exact Or.inl rfl
      | cons d r =>
        right
        rcases hl with hl | hl
        · cases hl
        · simpa [List.getLast?_cons_cons] using hl
    rw [List.cons_append, loadAt_char _ _ _ _ hc0 h10 h13, loadAt_char _ _ _ _ hc0 h10 h13]
    exact ih (fun c hc => h0 c (by simp [hc])) hl2 b _

/-- The lines that `cf_getline` returns: the first line and the lines of the
rest; the first line ends with a newline unless it is the whole file. -/
theorem cf_getlines_first (f : List Int) (hf : f ≠ []) :
    ∃ l rest, cf_getlines f = l :: cf_getlines rest ∧ f = l ++ rest ∧ l ≠ []
      ∧ (rest = [] ∨ l.getLast? = some 10) := by
  induction f with
  | nil => exact absurd rfl hf
  | cons c f ih =>
    by_cases hc : c = 10
    · subst hc
      exact ⟨[10], f, by simp [cf_getlines], rfl, by simp, Or.inr rfl⟩
    · by_cases hf2 : f = []
      · subst hf2
        exact ⟨[c], [], by simp [cf_getlines, hc], rfl, by simp, Or.inl rfl⟩
      · obtain ⟨l, rest, e1, e2, e3, e4⟩ := ih hf2
        refine ⟨c :: l, rest, ?_, ?_, by simp, ?_⟩
        · simp [cf_getlines, hc, e1]
        · rw [e2]; rfl
        · rcases e4 with e4 | e4
          · exact Or.inl e4
          · right
            cases l with
            | nil => exact absurd rfl e3
            | cons d r => simpa [List.getLast?_cons_cons] using e4

theorem loadAt_lines_aux (o : fungePosition) :
    ∀ (n : Nat) (f : List Int), f.length ≤ n → (∀ c ∈ f, c ≠ 0) → ∀ (st : LoadAtState),
      (cf_getlines f).foldl (fun st line => loadAtOffsetLine o false line st) st
        = loadAtOffsetLine o false f st := by
  intro n
  induction n with
  | zero =>
    intro f hlen _ st
    have hf : f = [] := List.length_eq_zero.mp (by omega)
    subst hf
    simp [cf_getlines, loadAtOffsetLine]
  | succ n ih =>
    intro f hlen h0 st
    by_cases hf : f = []
    · subst hf
      simp [cf_getlines, loadAtOffsetLine]
    · obtain ⟨l, rest, e1, e2, e3, e4⟩ := cf_getlines_first f hf
      have hl : rest.length ≤ n := by
        have h1 : f.length = l.length + rest.length := by rw [e2, List.length_append]
        have h2 : 0 < l.length := List.length_pos.mpr e3
        omega
      have h0l : ∀ c ∈ l, c ≠ 0 := fun c hc => h0 c (by rw [e2]; simp [hc])
      have h0r : ∀ c ∈ rest, c ≠ 0 := fun c hc => h0 c (by rw [e2]; simp [hc])
      rw [e1, List.foldl_cons, ih rest hl h0r]
      rcases e4 with e4 | e4
      · subst e4
        rw [e2]
        simp [loadAtOffsetLine]
      · rw [e2, loadAt_append o l h0l (Or.inr e4)]

/-- For a NUL-free text, running the text-mode loop line by line is running it
over the whole text. -/
theorem loadAt_lines (o : fungePosition) (f : List Int) (h0 : ∀ c ∈ f, c ≠ 0)
    (st : LoadAtState) :
    (cf_getlines f).foldl (fun st line => loadAtOffsetLine o false line st) st
      = loadAtOffsetLine o false f st :=
  loadAt_lines_aux o f.length f (le_refl _) h0 st

/-- C10: for every NUL-free text and every offset o, text-mode
`FungeSpaceLoadAtOffset` on a well-formed space changes Funge-space exactly as
follows: with the text split into rows at every `\r\n`, `\n` or lone `\r`, each
character c other than the space at column x of row y is stored so that
get(o + (x, y)) = c, and every other coordinate, also those under spaces of the
file, keeps the value it had before the load. -/
theorem C10_load_text (file : List Int) (o : fungePosition) (s : fungeSpace)
    (hs : WF s) (h0 : ∀ c ∈ file, c ≠ 0) :
    (∀ (x y : Nat) (row : List Int) (c : Int),
      (textRows file)[y]? = some row → row[x]? = some c → c ≠ 32 →
        FungeSpaceGet (FungeSpaceLoadAtOffset file o false s).1 ⟨o.x + x, o.y + y⟩ = c)
    ∧ (∀ (p : fungePosition),
      (¬ ∃ (x y : Nat) (row : List Int) (c : Int),
        (textRows file)[y]? = some row ∧ row[x]? = some c ∧ c ≠ 32
          ∧ p = ⟨o.x + x, o.y + y⟩) →
        FungeSpaceGet (FungeSpaceLoadAtOffset file o false s).1 p = FungeSpaceGet s p) := by
  have key : ∀ p, FungeSpaceGet (FungeSpaceLoadAtOffset file o false s).1 p
      = match rowsCell (textRows file) (p.x - o.x) (p.y - o.y) with
        | some c => if c = 32 then FungeSpaceGet s p else c
        | none => FungeSpaceGet s p := by
    intro p
    unfold FungeSpaceLoadAtOffset
    simp only
    rw [loadAt_lines o file h0]
    rw [(loadAt_get o file h0 _ hs).2 p]
    unfold readAfterLoad
    rw [rowsCellFrom_zero]
  constructor
  · intro x y row c hrow hc h32
    rw [key]
    have e : rowsCell (textRows file) ((⟨o.x + x, o.y + y⟩ : fungePosition).x - o.x)
        ((⟨o.x + x, o.y + y⟩ : fungePosition).y - o.y) = some c := by
      unfold rowsCell
      have e1 : o.x + (x : Int) - o.x = x := by omega
      have e2 : o.y + (y : Int) - o.y = y := by omega
      simp only [e1, e2, Int.toNat_ofNat, hrow, hc]
      have : ¬ ((x : Int) < 0 ∨ (y : Int) < 0) := by omega
      simp [this]
    rw [e]
    simp [h32]
  · intro p hne
    rw [key]
    cases hcell : rowsCell (textRows file) (p.x - o.x) (p.y - o.y) with
    | none => rfl
    | some c =>
      simp only
      by_cases h32 : c = 32
      · simp [h32]
      · exfalso
        apply hne
        unfold rowsCell at hcell
        split_ifs at hcell with hneg
        cases hrow : (textRows file)[(p.y - o.y).toNat]? with
        | none => rw [hrow] at hcell; cases hcell
        | some row =>
          rw [hrow] at hcell
          simp only at hcell
          refine ⟨(p.x - o.x).toNat, (p.y - o.y).toNat, row, c, hrow, hcell, h32, ?_⟩
          cases p
          simp only [fungeVector.mk.injEq] at hneg ⊢
          omega

/-- C10, witness: loading `a b\r\nc` at (3,4) stores `c` at (3,5) and leaves the cell (4,4), under the space of the file, as it was. -/
theorem C10_load_text_witness :
    FungeSpaceGet (FungeSpaceLoadAtOffset [97, 32, 98, 13, 10, 99] ⟨3, 4⟩ false
        (FungeSpaceSet 120 ⟨4, 4⟩ FungeSpaceCreate)).1 ⟨3, 5⟩ = 99
    ∧ FungeSpaceGet (FungeSpaceLoadAtOffset [97, 32, 98, 13, 10, 99] ⟨3, 4⟩ false
        (FungeSpaceSet 120 ⟨4, 4⟩ FungeSpaceCreate)).1 ⟨4, 4⟩
      = FungeSpaceGet (FungeSpaceSet 120 ⟨4, 4⟩ FungeSpaceCreate) ⟨4, 4⟩ :=
  ⟨(C10_load_text [97, 32, 98, 13, 10, 99] ⟨3, 4⟩ (FungeSpaceSet 120 ⟨4, 4⟩ FungeSpaceCreate)
      (WF_Set _ _ _ WF_Create) (by decide)).1 0 1 [99] 99 (by decide) (by decide) (by decide),
   (C10_load_text [97, 32, 98, 13, 10, 99] ⟨3, 4⟩ (FungeSpaceSet 120 ⟨4, 4⟩ FungeSpaceCreate)
      (WF_Set _ _ _ WF_Create) (by decide)).2 ⟨4, 4⟩ (by
        rintro ⟨x, y, row, c, h1, h2, h3, h4⟩
        simp only [fungeVector.mk.injEq] at h4
        have hx : x = 1 := by omega
        have hy : y = 0 := by omega
        subst hx hy
        have hr : row = [97, 32, 98] := by
          have : (textRows [97, 32, 98, 13, 10, 99])[0]? = some [97, 32, 98] := by decide
          rw [this] at h1
          exact (Option.some.inj h1).symm
        subst hr
        have : c = 32 := by
          have e : ([97, 32, 98] : List Int)[1]? = some 32 := by decide
          rw [e] at h2
          exact (Option.some.inj h2).symm
        exact h3 this)⟩

/-! ## Theorems: the size returned by a load, and saving -/

/-- C11, the failing input: the text `abc`, without a terminating newline,
loaded in text mode at the origin into a fresh space. The load writes the
cells (0,0), (1,0) and (2,0), and returns the size (3,0): the height is 0 and
not 1, the number of rows, so the cells written do not lie in rows 0 ≤ y < h,
and `FungeSpaceSaveToFile` with that size writes nothing. -/
theorem C11_size_without_final_newline :
    (FungeSpaceLoadAtOffset [97, 98, 99] ⟨0, 0⟩ false FungeSpaceCreate).2 = ⟨3, 0⟩
    ∧ FungeSpaceGet (FungeSpaceLoadAtOffset [97, 98, 99] ⟨0, 0⟩ false FungeSpaceCreate).1
        ⟨0, 0⟩ = 97
    ∧ FungeSpaceGet (FungeSpaceLoadAtOffset [97, 98, 99] ⟨0, 0⟩ false FungeSpaceCreate).1
        ⟨2, 0⟩ = 99
    ∧ textRows [97, 98, 99] = [[97, 98, 99]]
    ∧ FungeSpaceSaveToFile
        (FungeSpaceLoadAtOffset [97, 98, 99] ⟨0, 0⟩ false FungeSpaceCreate).1 ⟨0, 0⟩
        (FungeSpaceLoadAtOffset [97, 98, 99] ⟨0, 0⟩ false FungeSpaceCreate).2 true = []
    ∧ (FungeSpaceLoadAtOffset [97, 98, 99, 10] ⟨0, 0⟩ false FungeSpaceCreate).2 = ⟨3, 1⟩ := by
  decide

/-- C13, the failing input: a space that holds `a` at (0,0) and `b` at (2,1),
saved in text mode from the origin with the size (3,2), the whole bounding
rect. The bytes written are `a`, two spaces, the newline, two spaces, `b` and
the newline: the trailing spaces of the first row are not trimmed, and the
output is the same as with `textfile` false. -/
theorem C13_save_keeps_trailing_spaces :
    FungeSpaceGetBoundRect (FungeSpaceSet 98 ⟨2, 1⟩ (FungeSpaceSet 97 ⟨0, 0⟩ FungeSpaceCreate))
      = ⟨0, 0, 2, 1⟩
    ∧ FungeSpaceSaveToFile (FungeSpaceSet 98 ⟨2, 1⟩ (FungeSpaceSet 97 ⟨0, 0⟩ FungeSpaceCreate))
        ⟨0, 0⟩ ⟨3, 2⟩ true = [97, 32, 32, 10, 32, 32, 98, 10]
    ∧ FungeSpaceSaveToFile (FungeSpaceSet 98 ⟨2, 1⟩ (FungeSpaceSet 97 ⟨0, 0⟩ FungeSpaceCreate))
        ⟨0, 0⟩ ⟨3, 2⟩ false = [97, 32, 32, 10, 32, 32, 98, 10] := by
  decide

/-! ## Theorems: wrapping along a delta that is not cardinal -/

/-- What the back-up loop returns: the first position `p - k·d`, `k ≥ 1`, that
is out of range; the positions before it are in range. -/
theorem backUp_spec (s : fungeSpace) (d : fungeVector) :
    ∀ (n : Nat) (p r : fungePosition), backUp s d n p = some r →
      ∃ k : Nat, 1 ≤ k ∧ r = ⟨p.x - k * d.x, p.y - k * d.y⟩
        ∧ FungeSpaceInRange s r = false
        ∧ ∀ j : Nat, 1 ≤ j → j < k →
            FungeSpaceInRange s ⟨p.x - j * d.x, p.y - j * d.y⟩ = true := by
  intro n
  induction n with
  | zero => intro p r h; simp [backUp] at h
  | succ n ih =>
    intro p r h
    rw [backUp] at h
    split_ifs at h with hr
    · obtain ⟨k, hk1, hk2, hk3, hk4⟩ := ih _ r h
      refine ⟨k + 1, by omega, ?_, hk3, ?_⟩
      · rw [hk2]
        simp only [fungeVector.mk.injEq]
        constructor <;> push_cast <;> ring
      · intro j hj1 hj2
        by_cases hj : j = 1
        · subst hj
          simpa using hr
        · have h4 := hk4 (j - 1) (by omega) (by omega)
          have e1 : p.x - d.x - ((j - 1 : Nat) : Int) * d.x = p.x - (j : Int) * d.x := by
            have : ((j - 1 : Nat) : Int) = (j : Int) - 1 := by omega
            rw [this]; ring
          have e2 : p.y - d.y - ((j - 1 : Nat) : Int) * d.y = p.y - (j : Int) * d.y := by
            have : ((j - 1 : Nat) : Int) = (j : Int) - 1 := by omega
            rw [this]; ring
          rw [e1, e2] at h4
          exact h4
    · cases h
      refine ⟨1, le_refl _, by simp, by simpa using hr, ?_⟩
      intro j hj1 hj2
      omega

/-- The branch of `FungeSpaceWrap` for a delta that is not cardinal and a
position out of range: the result of the back-up loop plus delta. -/
theorem Wrap_backUp (s : fungeSpace) (p : fungePosition) (d : fungeVector)
    (hc : VectorIsCardinal d = false) (hp : FungeSpaceInRange s p = false) :
    ∃ r, (∀ n, wrapFuel s ≤ n → backUp s d n p = some r)
      ∧ FungeSpaceWrap s p d = ⟨r.x + d.x, r.y + d.y⟩ := by
  obtain ⟨r, hr⟩ := backUp_wrapFuel s d p hp
  refine ⟨r, hr, ?_⟩
  unfold FungeSpaceWrap
  simp [hc, hp, hr (wrapFuel s) (le_refl _)]

/-- C19: for every delta d that is not cardinal and every position p outside
the bounding rect such that p - d is inside it, `FungeSpaceWrap` returns a
position q = p - k·d with k ≥ 1 that is inside the bounding rect and whose
predecessor q - d is outside it; and for a position already inside the rect
and a delta that is not cardinal, wrap is the identity. -/
theorem C19_wrap_reentry (s : fungeSpace) (p : fungePosition) (d : fungeVector)
    (hc : VectorIsCardinal d = false) :
    (FungeSpaceInRange s p = false → FungeSpaceInRange s ⟨p.x - d.x, p.y - d.y⟩ = true →
      ∃ k : Nat, 1 ≤ k
        ∧ FungeSpaceWrap s p d = ⟨p.x - k * d.x, p.y - k * d.y⟩
        ∧ FungeSpaceInRange s (FungeSpaceWrap s p d) = true
        ∧ FungeSpaceInRange s
            ⟨(FungeSpaceWrap s p d).x - d.x, (FungeSpaceWrap s p d).y - d.y⟩ = false)
    ∧ (FungeSpaceInRange s p = true → FungeSpaceWrap s p d = p) := by
  constructor
  · intro hp hin
    obtain ⟨r, hr, hw⟩ := Wrap_backUp s p d hc hp
    obtain ⟨k, hk1, hk2, hk3, hk4⟩ := backUp_spec s d _ p r (hr _ (le_refl _))
    have hk : 2 ≤ k := by
      by_contra hlt
      have hk1' : k = 1 := by omega
      subst hk1'
      rw [hk2] at hk3
      simp only [Nat.cast_one, one_mul] at hk3
      rw [hin] at hk3
      cases hk3
    have hq : FungeSpaceWrap s p d
        = ⟨p.x - ((k - 1 : Nat) : Int) * d.x, p.y - ((k - 1 : Nat) : Int) * d.y⟩ := by
      rw [hw, hk2]
      have : ((k - 1 : Nat) : Int) = (k : Int) - 1 := by omega
      simp only [fungeVector.mk.injEq]
      rw [this]
      constructor <;> ring
    refine ⟨k - 1, by omega, hq, ?_, ?_⟩
    · rw [hq]
      exact hk4 (k - 1) (by omega) (by omega)
    · rw [hw]
      have e : (⟨r.x + d.x - d.x, r.y + d.y - d.y⟩ : fungePosition) = r := by
        cases r
        simp
      rw [e]
      exact hk3
  · intro hp
    unfold FungeSpaceWrap
    simp [hc, hp]

/-- C19, witness: with the rect from (0,0) to (5,5) and the delta (2,1), the
position (6,3) is outside and (4,2) inside; wrap returns a position inside
whose predecessor is outside. -/
theorem C19_wrap_reentry_witness :
    ∃ k : Nat, 1 ≤ k
      ∧ FungeSpaceWrap (FungeSpaceSet 120 ⟨5, 5⟩ FungeSpaceCreate) ⟨6, 3⟩ ⟨2, 1⟩
          = ⟨6 - k * 2, 3 - k * 1⟩
      ∧ FungeSpaceInRange (FungeSpaceSet 120 ⟨5, 5⟩ FungeSpaceCreate)
          (FungeSpaceWrap (FungeSpaceSet 120 ⟨5, 5⟩ FungeSpaceCreate) ⟨6, 3⟩ ⟨2, 1⟩) = true
      ∧ FungeSpaceInRange (FungeSpaceSet 120 ⟨5, 5⟩ FungeSpaceCreate)
          ⟨(FungeSpaceWrap (FungeSpaceSet 120 ⟨5, 5⟩ FungeSpaceCreate) ⟨6, 3⟩ ⟨2, 1⟩).x - 2,
           (FungeSpaceWrap (FungeSpaceSet 120 ⟨5, 5⟩ FungeSpaceCreate) ⟨6, 3⟩ ⟨2, 1⟩).y - 1⟩
          = false :=
  (C19_wrap_reentry (FungeSpaceSet 120 ⟨5, 5⟩ FungeSpaceCreate) ⟨6, 3⟩ ⟨2, 1⟩ (by decide)).1
    (by decide) (by decide)

/-- C20: `FungeSpaceWrap` terminates for every bounding rect, every position
and every delta. For a cardinal delta and for a position in range there is no
loop. Otherwise the back-up loop ends after at most `wrapFuel` passes (width
plus height of the rect, plus two), also for the zero delta, for a rect of
zero area and for a position far outside the rect, and the result of the wrap
is the position the loop ends on plus delta. -/
theorem C20_wrap_terminates (s : fungeSpace) (p : fungePosition) (d : fungeVector) :
    (VectorIsCardinal d = true → FungeSpaceWrap s p d = wrapCardinal s p)
    ∧ (VectorIsCardinal d = false → FungeSpaceInRange s p = true → FungeSpaceWrap s p d = p)
    ∧ (VectorIsCardinal d = false → FungeSpaceInRange s p = false →
        ∃ r, (∀ n, wrapFuel s ≤ n → backUp s d n p = some r)
          ∧ FungeSpaceWrap s p d = ⟨r.x + d.x, r.y + d.y⟩) := by
  refine ⟨?_, ?_, ?_⟩
  · intro hc
    unfold FungeSpaceWrap
    simp [hc]
  · intro hc hp
    unfold FungeSpaceWrap
    simp [hc, hp]
  · intro hc hp
    exact Wrap_backUp s p d hc hp

/-- C20, witness: in a fresh space, whose rect has zero area, the back-up loop
from the position (1000,-7) ends within `wrapFuel` passes for the zero delta. -/
theorem C20_wrap_terminates_witness :
    ∃ r, (∀ n, wrapFuel FungeSpaceCreate ≤ n → backUp FungeSpaceCreate ⟨0, 0⟩ n ⟨1000, -7⟩ = some r)
      ∧ FungeSpaceWrap FungeSpaceCreate ⟨1000, -7⟩ ⟨0, 0⟩ = ⟨r.x + 0, r.y + 0⟩ :=
  (C20_wrap_terminates FungeSpaceCreate ⟨1000, -7⟩ ⟨0, 0⟩).2.2 (by decide) (by decide)

/-! ## Theorems: loading in binary mode -/

theorem loadAt_bin_char (o : fungePosition) (c : Int) (rest : List Int) (st : LoadAtState)
    (h0 : c ≠ 0) :
    loadAtOffsetLine o true (c :: rest) st
      = loadAtOffsetLine o true rest
          { st with
            fspace := if c ≠ 32 then FungeSpaceSetOff c ⟨st.x, st.y⟩ o st.fspace
                      else st.fspace,
            x := st.x + 1 } := by
  cases rest <;> simp [loadAtOffsetLine, h0]

theorem loadAt_bin_append (o : fungePosition) :
    ∀ (a : List Int), (∀ c ∈ a, c ≠ 0) → ∀ (b : List Int) (st : LoadAtState),
      loadAtOffsetLine o true (a ++ b) st
        = loadAtOffsetLine o true b (loadAtOffsetLine o true a st) := by
  intro a
  induction a with
  | nil => intro _ b st; simp [loadAtOffsetLine]
  | cons c a ih =>
    intro h0 b st
    have hc : c ≠ 0 := h0 c (by simp)
    rw [List.cons_append, loadAt_bin_char _ _ _ _ hc, loadAt_bin_char _ _ _ _ hc]
    exact ih (fun c hc => h0 c (by simp [hc])) b _

theorem loadAt_bin_lines_aux (o : fungePosition) :
    ∀ (n : Nat) (f : List Int), f.length ≤ n → (∀ c ∈ f, c ≠ 0) → ∀ (st : LoadAtState),
      (cf_getlines f).foldl (fun st line => loadAtOffsetLine o true line st) st
        = loadAtOffsetLine o true f st := by
  intro n
  induction n with
  | zero =>
    intro f hlen _ st
    have hf : f = [] := List.length_eq_zero.mp (by omega)
    subst hf
    simp [cf_getlines, loadAtOffsetLine]
  | succ n ih =>
    intro f hlen h0 st
    by_cases hf : f = []
    · subst hf
      simp [cf_getlines, loadAtOffsetLine]
    · obtain ⟨l, rest, e1, e2, e3, _⟩ := cf_getlines_first f hf
      have hl : rest.length ≤ n := by
        have h1 : f.length = l.length + rest.length := by rw [e2, List.length_append]
        have h2 : 0 < l.length := List.length_pos.mpr e3
        omega
      have h0l : ∀ c ∈ l, c ≠ 0 := fun c hc => h0 c (by rw [e2]; simp [hc])
      have h0r : ∀ c ∈ rest, c ≠ 0 := fun c hc => h0 c (by rw [e2]; simp [hc])
      rw [e1, List.foldl_cons, ih rest hl h0r, e2, loadAt_bin_append o l h0l]

/-- Reading after the binary-mode loop of `FungeSpaceLoadAtOffset` has run over
NUL-free bytes, started with the counters `x` and `y` of the state; the row
counter and the size stay as they were. -/
theorem loadAt_bin_get (o : fungePosition) :
    ∀ (l : List Int), (∀ c ∈ l, c ≠ 0) → ∀ (st : LoadAtState), WF st.fspace →
      WF (loadAtOffsetLine o true l st).fspace
      ∧ (loadAtOffsetLine o true l st).y = st.y
      ∧ (loadAtOffsetLine o true l st).x = st.x + l.length
      ∧ (loadAtOffsetLine o true l st).size = st.size
      ∧ ∀ p, FungeSpaceGet (loadAtOffsetLine o true l st).fspace p
          = readAfterBinaryLoad l st.x st.y o p (FungeSpaceGet st.fspace p) := by
  intro l
  induction l with
  | nil =>
    intro _ st hw
    refine ⟨hw, rfl, by simp [loadAtOffsetLine], rfl, fun p => ?_⟩
    simp [loadAtOffsetLine, readAfterBinaryLoad]
  | cons c l ih =>
    intro h0 st hw
    have hc : c ≠ 0 := h0 c (by simp)
    rw [loadAt_bin_char _ _ _ _ hc]
    have hw1 : WF (if c ≠ 32 then FungeSpaceSetOff c ⟨st.x, st.y⟩ o st.fspace
        else st.fspace) := by
      split_ifs
      · exact WF_Set _ _ _ hw
      · exact hw
    obtain ⟨i1, i2, i3, i4, i5⟩ := ih (fun c hc => h0 c (by simp [hc]))
      { st with
        fspace := if c ≠ 32 then FungeSpaceSetOff c ⟨st.x, st.y⟩ o st.fspace else st.fspace,
        x := st.x + 1 } hw1
    refine ⟨i1, i2, ?_, i4, fun p => ?_⟩
    · rw [i3]
      simp only [List.length_cons]
      push_cast
      ring
    · rw [i5 p]
      unfold readAfterBinaryLoad
      simp only
      by_cases hq : p = ⟨st.x + o.x, st.y + o.y⟩
      · have hy : p.y - o.y = st.y := by rw [hq]; simp
        have hx : p.x - o.x = st.x := by rw [hq]; simp
        have h1 : ¬ (p.y - o.y = st.y ∧ st.x + 1 ≤ p.x - o.x) := by omega
        have h2 : p.y - o.y = st.y ∧ st.x ≤ p.x - o.x := by omega
        rw [if_neg h1, if_pos h2]
        have e : (p.x - o.x - st.x).toNat = 0 := by omega
        rw [e]
        simp only [List.getElem?_cons_zero]
        by_cases h32 : c = 32
        · simp [h32]
        · simp only [h32, ne_eq, not_false_eq_true, if_true, if_false]
          rw [hq, FungeSpaceSetOff, Get_Set _ _ _ _ hw]
          simp
      · have hsame : FungeSpaceGet (if c ≠ 32 then FungeSpaceSetOff c ⟨st.x, st.y⟩ o st.fspace
            else st.fspace) p = FungeSpaceGet st.fspace p := by
          split_ifs
          · rw [FungeSpaceSetOff, Get_Set _ _ _ _ hw, if_neg hq]
          · rfl
        rw [hsame]
        by_cases h2 : p.y - o.y = st.y ∧ st.x ≤ p.x - o.x
        · have hne : p.x - o.x ≠ st.x := by
            intro e
            apply hq
            cases p
            simp only [fungeVector.mk.injEq] at e h2 ⊢
            omega
          have h1 : p.y - o.y = st.y ∧ st.x + 1 ≤ p.x - o.x := by omega
          have e : (p.x - o.x - st.x).toNat = (p.x - o.x - (st.x + 1)).toNat + 1 := by omega
          rw [if_pos h1, if_pos h2, e, List.getElem?_cons_succ]
        · have h1 : ¬ (p.y - o.y = st.y ∧ st.x + 1 ≤ p.x - o.x) := by omega
          rw [if_neg h1, if_neg h2]

/-- Reading after a binary-mode `FungeSpaceLoadAtOffset` of NUL-free bytes into
a well-formed space, and the size it returns. -/
theorem LoadAtOffset_binary (file : List Int) (o : fungePosition) (s : fungeSpace)
    (hs : WF s) (h0 : ∀ c ∈ file, c ≠ 0) :
    (∀ p, FungeSpaceGet (FungeSpaceLoadAtOffset file o true s).1 p
      = readAfterBinaryLoad file 0 0 o p (FungeSpaceGet s p))
    ∧ (FungeSpaceLoadAtOffset file o true s).2 = ⟨file.length, 0⟩ := by
  unfold FungeSpaceLoadAtOffset
  simp only
  rw [loadAt_bin_lines_aux o file.length file (le_refl _) h0]
  obtain ⟨_, i2, i3, i4, i5⟩ := loadAt_bin_get o file h0
    { fspace := s, x := 0, y := 0, size := ⟨0, 0⟩ } hs
  refine ⟨i5, ?_⟩
  rw [i2, i3, i4]
  simp only [growSizeX, zero_add]
  cases file with
  | nil => simp
  | cons c l =>
    have : (0 : Int) < ((c :: l).length : Int) := by simp only [List.length_cons]; omega
    simp [this]

/-- C12, counterexample: the cell (0,0) holds `x` (120); loading the single
space byte in binary mode at the origin leaves 120 there, not the byte 32. -/
theorem C12_counterexample :
    FungeSpaceGet (FungeSpaceLoadAtOffset [32] ⟨0, 0⟩ true
        (FungeSpaceSet 120 ⟨0, 0⟩ FungeSpaceCreate)).1 ⟨0, 0⟩ = 120
    ∧ ([32] : List Int)[0]? = some 32
    ∧ FungeSpaceGet (FungeSpaceLoadAtOffset [32] ⟨0, 0⟩ true
        (FungeSpaceSet 120 ⟨0, 0⟩ FungeSpaceCreate)).1 ⟨0, 0⟩ ≠ 32 := by
  decide

/-- C12, amended: for every NUL-free byte string s, every offset o and every
well-formed prior Funge-space, binary-mode `FungeSpaceLoadAtOffset` writes
every byte other than the space into one row: afterwards get(o + (i, 0)) = s[i]
for every index i with s[i] not the space (newline and carriage return
included), a cell under a space byte keeps the value it had before, and so
does every cell outside the row o.y; the y coordinate never advances, so the
size returned is (length of s, 0). -/
theorem C12_load_binary (file : List Int) (o : fungePosition) (s : fungeSpace)
    (hs : WF s) (h0 : ∀ c ∈ file, c ≠ 0) :
    (∀ (i : Nat) (c : Int), file[i]? = some c → c ≠ 32 →
      FungeSpaceGet (FungeSpaceLoadAtOffset file o true s).1 ⟨o.x + i, o.y⟩ = c)
    ∧ (∀ (i : Nat), file[i]? = some 32 →
      FungeSpaceGet (FungeSpaceLoadAtOffset file o true s).1 ⟨o.x + i, o.y⟩
        = FungeSpaceGet s ⟨o.x + i, o.y⟩)
    ∧ (∀ (p : fungePosition), p.y ≠ o.y →
      FungeSpaceGet (FungeSpaceLoadAtOffset file o true s).1 p = FungeSpaceGet s p)
    ∧ (FungeSpaceLoadAtOffset file o true s).2 = ⟨file.length, 0⟩ := by
  obtain ⟨hget, hsize⟩ := LoadAtOffset_binary file o s hs h0
  refine ⟨?_, ?_, ?_, hsize⟩
  · intro i c hi h32
    rw [hget]
    unfold readAfterBinaryLoad
    have h2 : (⟨o.x + i, o.y⟩ : fungePosition).y - o.y = 0
        ∧ 0 ≤ (⟨o.x + i, o.y⟩ : fungePosition).x - o.x := by
      simp only
      omega
    have e : ((⟨o.x + i, o.y⟩ : fungePosition).x - o.x - 0).toNat = i := by
      simp only
      omega
    rw [if_pos h2, e, hi]
    simp [h32]
  · intro i hi
    rw [hget]
    unfold readAfterBinaryLoad
    have h2 : (⟨o.x + i, o.y⟩ : fungePosition).y - o.y = 0
        ∧ 0 ≤ (⟨o.x + i, o.y⟩ : fungePosition).x - o.x := by
      simp only
      omega
    have e : ((⟨o.x + i, o.y⟩ : fungePosition).x - o.x - 0).toNat = i := by
      simp only
      omega
    rw [if_pos h2, e, hi]
    simp
  · intro p hp
    rw [hget]
    unfold readAfterBinaryLoad
    have h2 : ¬ (p.y - o.y = 0 ∧ 0 ≤ p.x - o.x) := by omega
    rw [if_neg h2]

/-- C12, witness: loading the bytes `a`, newline, space, `b` in binary mode at
(3,4), where (5,4) held `x`: the newline is stored at (4,4), `b` at (6,4), and
(5,4), under the space, keeps `x`. -/
theorem C12_load_binary_witness :
    FungeSpaceGet (FungeSpaceLoadAtOffset [97, 10, 32, 98] ⟨3, 4⟩ true
        (FungeSpaceSet 120 ⟨5, 4⟩ FungeSpaceCreate)).1 ⟨4, 4⟩ = 10
    ∧ FungeSpaceGet (FungeSpaceLoadAtOffset [97, 10, 32, 98] ⟨3, 4⟩ true
        (FungeSpaceSet 120 ⟨5, 4⟩ FungeSpaceCreate)).1 ⟨5, 4⟩
      = FungeSpaceGet (FungeSpaceSet 120 ⟨5, 4⟩ FungeSpaceCreate) ⟨5, 4⟩ :=
  ⟨(C12_load_binary [97, 10, 32, 98] ⟨3, 4⟩ (FungeSpaceSet 120 ⟨5, 4⟩ FungeSpaceCreate)
      (WF_Set _ _ _ WF_Create) (by decide)).1 1 10 (by decide) (by decide),
   (C12_load_binary [97, 10, 32, 98] ⟨3, 4⟩ (FungeSpaceSet 120 ⟨5, 4⟩ FungeSpaceCreate)
      (WF_Set _ _ _ WF_Create) (by decide)).2.1 2 (by decide)⟩

/-! ## Theorems: saving and loading back -/

/-- Reading after a text-mode `FungeSpaceLoadAtOffset` of a NUL-free text into
a well-formed space, in terms of the rows of the text. -/
theorem LoadAtOffset_text_get (file : List Int) (o : fungePosition) (s : fungeSpace)
    (hs : WF s) (h0 : ∀ c ∈ file, c ≠ 0) (p : fungePosition) :
    FungeSpaceGet (FungeSpaceLoadAtOffset file o false s).1 p
      = match rowsCell (textRows file) (p.x - o.x) (p.y - o.y) with
        | some c => if c = 32 then FungeSpaceGet s p else c
        | none => FungeSpaceGet s p := by
  unfold FungeSpaceLoadAtOffset
  simp only
  rw [loadAt_lines o file h0]
  rw [(loadAt_get o file h0 _ hs).2 p]
  unfold readAfterLoad
  rw [rowsCellFrom_zero]

theorem saveRow_length (s : fungeSpace) (y : Int) :
    ∀ (n : Nat) (x : Int), (saveRow s y n x).length = n := by
  intro n
  induction n with
  | zero => intro x; rfl
  | succ n ih => intro x; simp [saveRow, ih]

theorem saveRow_get (s : fungeSpace) (y : Int) :
    ∀ (n : Nat) (x : Int) (i : Nat), i < n →
      (saveRow s y n x)[i]? = some (FungeSpaceGet s ⟨x + i, y⟩ % 256) := by
  intro n
  induction n with
  | zero => intro x i h; omega
  | succ n ih =>
    intro x i h
    cases i with
    | zero => simp [saveRow]
    | succ i =>
      rw [saveRow, List.getElem?_cons_succ, ih (x + 1) i (by omega)]
      have : x + 1 + (i : Int) = x + ((i + 1 : Nat) : Int) := by push_cast; ring
      rw [this]

theorem saveRow_mem (s : fungeSpace) (y : Int) (n : Nat) (x : Int) (c : Int)
    (h : c ∈ saveRow s y n x) :
    ∃ i : Nat, i < n ∧ c = FungeSpaceGet s ⟨x + i, y⟩ % 256 := by
  obtain ⟨i, hi, e⟩ := List.getElem_of_mem h
  rw [saveRow_length] at hi
  refine ⟨i, hi, ?_⟩
  have h2 := saveRow_get s y n x i hi
  rw [List.getElem?_eq_getElem (by rw [saveRow_length]; exact hi)] at h2
  rw [← e]
  exact Option.some.inj h2

/-- A row without row terminators, followed by a newline, is the first row of
the text. -/
theorem textRows_row (r rest : List Int) (h : ∀ c ∈ r, c ≠ 10 ∧ c ≠ 13) :
    textRows (r ++ 10 :: rest) = r :: textRows rest := by
  induction r with
  | nil => exact textRows_lf rest
  | cons c r ih =>
    obtain ⟨h10, h13⟩ := h c (by simp)
    obtain ⟨row, rows, e1, e2⟩ := textRows_char c (r ++ 10 :: rest) h10 h13
    rw [List.cons_append, e2]
    rw [ih (fun c hc => h c (by simp [hc]))] at e1
    cases e1
    rfl

/-- The rows of the text that `saveRows` writes are the rows that `saveRow`
writes, when no cell of the rect is written as a row terminator. -/
theorem saveRows_rows (s : fungeSpace) (x0 : Int) (w : Nat) :
    ∀ (n : Nat) (y0 : Int),
      (∀ (i j : Nat), i < w → j < n →
        FungeSpaceGet s ⟨x0 + i, y0 + j⟩ % 256 ≠ 10
          ∧ FungeSpaceGet s ⟨x0 + i, y0 + j⟩ % 256 ≠ 13) →
      ∀ (j : Nat), j < n →
        (textRows (saveRows s x0 w n y0))[j]? = some (saveRow s (y0 + j) w x0) := by
  intro n
  induction n with
  | zero => intro y0 _ j h; omega
  | succ n ih =>
    intro y0 hgood j hj
    rw [saveRows]
    have hrow : ∀ c ∈ saveRow s y0 w x0, c ≠ 10 ∧ c ≠ 13 := by
      intro c hc
      obtain ⟨i, hi, e⟩ := saveRow_mem s y0 w x0 c hc
      have := hgood i 0 hi (by omega)
      simp only [Nat.cast_zero, add_zero] at this
      rw [e]
      exact this
    rw [textRows_row _ _ hrow]
    cases j with
    | zero => simp
    | succ j =>
      rw [List.getElem?_cons_succ]
      have h2 := ih (y0 + 1) (fun i j2 hi hj2 => by
        have := hgood i (j2 + 1) hi (by omega)
        have e : y0 + ((j2 + 1 : Nat) : Int) = y0 + 1 + (j2 : Int) := by push_cast; ring
        rw [e] at this
        exact this) j (by omega)
      rw [h2]
      have e : y0 + 1 + (j : Int) = y0 + ((j + 1 : Nat) : Int) := by push_cast; ring
      rw [e]

theorem saveRows_mem (s : fungeSpace) (x0 : Int) (w : Nat) :
    ∀ (n : Nat) (y0 : Int) (c : Int), c ∈ saveRows s x0 w n y0 →
      c = 10 ∨ ∃ i j : Nat, i < w ∧ j < n ∧ c = FungeSpaceGet s ⟨x0 + i, y0 + j⟩ % 256 := by
  intro n
  induction n with
  | zero => intro y0 c h; simp [saveRows] at h
  | succ n ih =>
    intro y0 c h
    rw [saveRows] at h
    rcases List.mem_append.mp h with h | h
    · obtain ⟨i, hi, e⟩ := saveRow_mem s y0 w x0 c h
      exact Or.inr ⟨i, 0, hi, by omega, by simpa using e⟩
    · rcases List.mem_cons.mp h with h | h
      · exact Or.inl h
      · rcases ih (y0 + 1) c h with h | ⟨i, j, hi, hj, e⟩
        · exact Or.inl h
        · refine Or.inr ⟨i, j + 1, hi, by omega, ?_⟩
          have e2 : y0 + ((j + 1 : Nat) : Int) = y0 + 1 + (j : Int) := by push_cast; ring
          rw [e2]
          exact e

/-- C14, counterexample: a space with the cell value 10 at (0,0) and `a` at
(1,0); the rect from (0,0) with size (2,1) is the bounding rect. Saving it
in text mode writes the bytes 10, 97, 10, and loading these into a fresh space
gives the space at (0,0) and at (1,0), not the original 10 and 97. -/
theorem C14_counterexample :
    FungeSpaceGetBoundRect (FungeSpaceSet 97 ⟨1, 0⟩ (FungeSpaceSet 10 ⟨0, 0⟩ FungeSpaceCreate))
      = ⟨0, 0, 1, 0⟩
    ∧ FungeSpaceSaveToFile (FungeSpaceSet 97 ⟨1, 0⟩ (FungeSpaceSet 10 ⟨0, 0⟩ FungeSpaceCreate))
        ⟨0, 0⟩ ⟨2, 1⟩ true = [10, 97, 10]
    ∧ FungeSpaceGet (FungeSpaceSet 97 ⟨1, 0⟩ (FungeSpaceSet 10 ⟨0, 0⟩ FungeSpaceCreate)) ⟨1, 0⟩
        = 97
    ∧ FungeSpaceGet (FungeSpaceLoadAtOffset
        (FungeSpaceSaveToFile (FungeSpaceSet 97 ⟨1, 0⟩ (FungeSpaceSet 10 ⟨0, 0⟩ FungeSpaceCreate))
          ⟨0, 0⟩ ⟨2, 1⟩ true) ⟨0, 0⟩ false FungeSpaceCreate).1 ⟨1, 0⟩ = 32
    ∧ FungeSpaceGet (FungeSpaceLoadAtOffset
        (FungeSpaceSaveToFile (FungeSpaceSet 97 ⟨1, 0⟩ (FungeSpaceSet 10 ⟨0, 0⟩ FungeSpaceCreate))
          ⟨0, 0⟩ ⟨2, 1⟩ true) ⟨0, 0⟩ false FungeSpaceCreate).1 ⟨1, 0⟩
      ≠ FungeSpaceGet (FungeSpaceSet 97 ⟨1, 0⟩ (FungeSpaceSet 10 ⟨0, 0⟩ FungeSpaceCreate))
          ⟨1, 0⟩ := by
  decide

/-- C14, amended: for every Funge-space content and every rect R (offset,
size) all of whose cells hold values from 1 to 127 other than 10 and 13 (the
space 32 included): the bytes written by `FungeSpaceSaveToFile(R, text)`,
loaded into an empty space with text-mode `FungeSpaceLoadAtOffset` at the
origin, reproduce R, that is, get((x, y)) after the load equals the original
get(R.offset + (x, y)) for every 0 ≤ x < size.x and 0 ≤ y < size.y. -/
theorem C14_save_load_roundtrip (s : fungeSpace) (offset : fungePosition) (size : fungeVector)
    (hcells : ∀ x y : Int, 0 ≤ x → x < size.x → 0 ≤ y → y < size.y →
      1 ≤ FungeSpaceGet s ⟨offset.x + x, offset.y + y⟩
        ∧ FungeSpaceGet s ⟨offset.x + x, offset.y + y⟩ ≤ 127
        ∧ FungeSpaceGet s ⟨offset.x + x, offset.y + y⟩ ≠ 10
        ∧ FungeSpaceGet s ⟨offset.x + x, offset.y + y⟩ ≠ 13)
    (x y : Int) (hx0 : 0 ≤ x) (hx : x < size.x) (hy0 : 0 ≤ y) (hy : y < size.y) :
    FungeSpaceGet (FungeSpaceLoadAtOffset (FungeSpaceSaveToFile s offset size true)
        ⟨0, 0⟩ false FungeSpaceCreate).1 ⟨x, y⟩
      = FungeSpaceGet s ⟨offset.x + x, offset.y + y⟩ := by
  have hmod : ∀ v : Int, 1 ≤ v → v ≤ 127 → v % 256 = v := by
    intro v h1 h2
    omega
  have hw : (offset.x + size.x - offset.x).toNat = size.x.toNat := by
    congr 1; ring
  have hh : (offset.y + size.y - offset.y).toNat = size.y.toNat := by
    congr 1; ring
  have hfile : FungeSpaceSaveToFile s offset size true
      = saveRows s offset.x size.x.toNat size.y.toNat offset.y := by
    unfold FungeSpaceSaveToFile
    simp only [hw, hh]
  have hcell : ∀ (i j : Nat), i < size.x.toNat → j < size.y.toNat →
      FungeSpaceGet s ⟨offset.x + i, offset.y + j⟩ % 256
        = FungeSpaceGet s ⟨offset.x + i, offset.y + j⟩
      ∧ 1 ≤ FungeSpaceGet s ⟨offset.x + i, offset.y + j⟩
      ∧ FungeSpaceGet s ⟨offset.x + i, offset.y + j⟩ ≠ 10
      ∧ FungeSpaceGet s ⟨offset.x + i, offset.y + j⟩ ≠ 13 := by
    intro i j hi hj
    obtain ⟨a, b, c, d⟩ := hcells i j (by omega) (by omega) (by omega) (by omega)
    exact ⟨hmod _ a b, a, c, d⟩
  have h0 : ∀ c ∈ FungeSpaceSaveToFile s offset size true, c ≠ 0 := by
    intro c hc
    rw [hfile] at hc
    rcases saveRows_mem s offset.x _ _ offset.y c hc with h | ⟨i, j, hi, hj, e⟩
    · omega
    · obtain ⟨a, b, _, _⟩ := hcell i j hi hj
      rw [e, a]
      omega
  rw [LoadAtOffset_text_get _ _ _ WF_Create h0]
  have hrow : (textRows (FungeSpaceSaveToFile s offset size true))[y.toNat]?
      = some (saveRow s (offset.y + y) size.x.toNat offset.x) := by
    rw [hfile, saveRows_rows s offset.x _ _ offset.y (fun i j hi hj => by
      obtain ⟨a, _, c, d⟩ := hcell i j hi hj
      rw [a]
      exact ⟨c, d⟩) y.toNat (by omega)]
    have : ((y.toNat : Nat) : Int) = y := by omega
    rw [this]
  have hcol : (saveRow s (offset.y + y) size.x.toNat offset.x)[x.toNat]?
      = some (FungeSpaceGet s ⟨offset.x + x, offset.y + y⟩) := by
    rw [saveRow_get s _ _ _ x.toNat (by omega)]
    have e : ((x.toNat : Nat) : Int) = x := by omega
    rw [e]
    obtain ⟨a, b, _, _⟩ := hcells x y hx0 hx hy0 hy
    rw [hmod _ a b]
  have hcellxy : rowsCell (textRows (FungeSpaceSaveToFile s offset size true))
      ((⟨x, y⟩ : fungePosition).x - (⟨0, 0⟩ : fungePosition).x)
      ((⟨x, y⟩ : fungePosition).y - (⟨0, 0⟩ : fungePosition).y)
      = some (FungeSpaceGet s ⟨offset.x + x, offset.y + y⟩) := by
    unfold rowsCell
    have hneg : ¬ (x < 0 ∨ y < 0) := by omega
    simp only [sub_zero, hneg, if_false, hrow, hcol]
  rw [hcellxy]
  simp only [Get_Create]
  split_ifs with h32
  · exact h32.symm
  · rfl

/-- C14, witness: the rect from (0,0) with size (2,1) of a space that holds
`a` at (0,0) and `b` at (1,0) is reproduced by saving and loading back. -/
theorem C14_save_load_roundtrip_witness :
    FungeSpaceGet (FungeSpaceLoadAtOffset
        (FungeSpaceSaveToFile (FungeSpaceSet 98 ⟨1, 0⟩ (FungeSpaceSet 97 ⟨0, 0⟩ FungeSpaceCreate))
          ⟨0, 0⟩ ⟨2, 1⟩ true) ⟨0, 0⟩ false FungeSpaceCreate).1 ⟨1, 0⟩
      = FungeSpaceGet (FungeSpaceSet 98 ⟨1, 0⟩ (FungeSpaceSet 97 ⟨0, 0⟩ FungeSpaceCreate))
          ⟨0 + 1, 0 + 0⟩ :=
  C14_save_load_roundtrip (FungeSpaceSet 98 ⟨1, 0⟩ (FungeSpaceSet 97 ⟨0, 0⟩ FungeSpaceCreate))
    ⟨0, 0⟩ ⟨2, 1⟩
    (by
      intro x y hx0 hx hy0 hy
      have hy1 : y = 0 := by
        simp only at hy
        omega
      subst hy1
      have hx1 : x = 0 ∨ x = 1 := by
        simp only at hx
        omega
      rcases hx1 with h | h <;> subst h <;> decide)
    1 0 (by decide) (by decide) (by decide) (by decide)

/-! ## Theorems: the handle table of FILE -/

theorem valid_handle_iff (l : List (Option FungeFileHandle)) (h : Int) :
    valid_handle l h = true ↔ 0 ≤ h ∧ ∃ e, l[h.toNat]? = some (some e) := by
  unfold valid_handle
  rw [List.getD_eq_getElem?_getD]
  constructor
  · intro hv
    split_ifs at hv with hc
    have h1 : 0 ≤ h := by omega
    have h2 : h.toNat < l.length := by omega
    refine ⟨h1, ?_⟩
    cases hl : l[h.toNat]? with
    | none =>
      rw [List.getElem?_eq_none_iff] at hl
      omega
    | some o =>
      cases o with
      | none => simp [hl] at hc
      | some e => exact ⟨e, rfl⟩
  · rintro ⟨h1, e, he⟩
    have h2 : h.toNat < l.length := by
      by_contra hlt
      rw [List.getElem?_eq_none (by omega)] at he
      cases he
    have hc : ¬ (h < 0 ∨ h.toNat ≥ l.length ∨ (l[h.toNat]?.getD none).isNone = true) := by
      rw [he]
      simp
      omega
    rw [if_neg hc]

theorem valid_handle_false_iff (l : List (Option FungeFileHandle)) (h : Int) :
    valid_handle l h = false ↔ ¬ (0 ≤ h ∧ ∃ e, l[h.toNat]? = some (some e)) := by
  rw [← valid_handle_iff]
  simp

/-- What the loop of `find_next_free_handle` finds: the lowest index whose
slot is `NULL`. -/
theorem firstFreeFrom_some :
    ∀ (l : List (Option FungeFileHandle)) (i k : Nat), firstFreeFrom l i = some k →
      i ≤ k ∧ l[k - i]? = some none ∧ ∀ j, j < k - i → ∃ e, l[j]? = some (some e) := by
  intro l
  induction l with
  | nil => intro i k h; simp [firstFreeFrom] at h
  | cons a l ih =>
    intro i k h
    cases a with
    | none =>
      simp only [firstFreeFrom, Option.some.injEq] at h
      subst h
      refine ⟨le_refl _, by simp, fun j hj => by omega⟩
    | some e =>
      simp only [firstFreeFrom] at h
      obtain ⟨h1, h2, h3⟩ := ih (i + 1) k h
      refine ⟨by omega, ?_, ?_⟩
      · have e1 : k - i = (k - (i + 1)) + 1 := by omega
        rw [e1, List.getElem?_cons_succ]
        exact h2
      · intro j hj
        cases j with
        | zero => exact ⟨e, by simp⟩
        | succ j =>
          rw [List.getElem?_cons_succ]
          exact h3 j (by omega)

theorem firstFreeFrom_none :
    ∀ (l : List (Option FungeFileHandle)) (i : Nat), firstFreeFrom l i = none →
      ∀ j, j < l.length → ∃ e, l[j]? = some (some e) := by
  intro l
  induction l with
  | nil => intro i _ j hj; simp at hj
  | cons a l ih =>
    intro i h j hj
    cases a with
    | none => simp [firstFreeFrom] at h
    | some e =>
      simp only [firstFreeFrom] at h
      cases j with
      | zero => exact ⟨e, by simp⟩
      | succ j =>
        rw [List.getElem?_cons_succ]
        exact ih (i + 1) h j (by simpa using hj)

/-- The result of `allocate_handle`: either the lowest free index `k` of the
array, which then holds a new entry, or, when no slot is free, the old
`maxHandle`, in the array grown by `ALLOCCHUNK`. -/
theorem allocate_handle_cases (l : List (Option FungeFileHandle)) :
    (∃ k : Nat, firstFreeFrom l 0 = some k
        ∧ allocate_handle l = ((k : Int), l.set k (some ⟨none, ⟨0, 0⟩⟩)))
    ∨ (firstFreeFrom l 0 = none
        ∧ allocate_handle l
          = ((l.length : Int), (l ++ [none, none]).set l.length (some ⟨none, ⟨0, 0⟩⟩))) := by
  unfold allocate_handle find_next_free_handle
  cases hf : firstFreeFrom l 0 with
  | some k =>
    left
    refine ⟨k, rfl, ?_⟩
    have : ¬ ((k : Int) < 0) := by omega
    simp [this]
  | none =>
    right
    refine ⟨rfl, ?_⟩
    have : ¬ ((l.length : Int) < 0) := by omega
    simp [this, ALLOCCHUNK, List.replicate]

/-- C15: for every state of the handle table, `allocate_handle` returns the
lowest index whose slot is free, and the table keeps its size; when all
`maxHandle` slots are in use it grows the table by `ALLOCCHUNK` (2) and returns
the old `maxHandle`. The handle returned was not valid before and is valid
afterwards, and every handle that was valid stays valid with its entry
unchanged. -/
theorem C15_allocate_handle (l : List (Option FungeFileHandle)) :
    ((∃ j : Nat, l[j]? = some none) →
      0 ≤ (allocate_handle l).1
        ∧ l[(allocate_handle l).1.toNat]? = some none
        ∧ (∀ j : Nat, j < (allocate_handle l).1.toNat → l[j]? ≠ some none)
        ∧ (allocate_handle l).2.length = l.length)
    ∧ ((∀ j : Nat, l[j]? ≠ some none) →
      (allocate_handle l).1 = l.length
        ∧ (allocate_handle l).2.length = l.length + ALLOCCHUNK)
    ∧ valid_handle l (allocate_handle l).1 = false
    ∧ valid_handle (allocate_handle l).2 (allocate_handle l).1 = true
    ∧ (∀ g, valid_handle l g = true →
        valid_handle (allocate_handle l).2 g = true
          ∧ (allocate_handle l).2[g.toNat]? = l[g.toNat]?) := by
  rcases allocate_handle_cases l with ⟨k, hf, ha⟩ | ⟨hf, ha⟩
  · obtain ⟨_, h2, h3⟩ := firstFreeFrom_some l 0 k hf
    simp only [Nat.sub_zero] at h2 h3
    have hk : k < l.length := by
      by_contra hlt
      rw [List.getElem?_eq_none (by omega)] at h2
      cases h2
    rw [ha]
    simp only [Int.toNat_ofNat, List.length_set]
    refine ⟨fun _ => ⟨by omega, h2, ?_, trivial⟩, ?_, ?_, ?_, ?_⟩
    · intro j hj hn
      obtain ⟨e, he⟩ := h3 j hj
      rw [he] at hn
      cases hn
    · intro hall
      exact absurd h2 (hall k)
    · rw [valid_handle_false_iff]
      rintro ⟨_, e, he⟩
      simp only [Int.toNat_ofNat] at he
      rw [h2] at he
      cases he
    · rw [valid_handle_iff]
      refine ⟨by omega, ⟨none, ⟨0, 0⟩⟩, ?_⟩
      simp only [Int.toNat_ofNat]
      rw [List.getElem?_set_self hk]
    · intro g hg
      obtain ⟨hg0, e, he⟩ := (valid_handle_iff l g).mp hg
      have hne : k ≠ g.toNat := by
        intro e2
        rw [← e2, h2] at he
        cases he
      have e3 : (l.set k (some ⟨none, ⟨0, 0⟩⟩))[g.toNat]? = l[g.toNat]? :=
        List.getElem?_set_ne hne
      refine ⟨?_, e3⟩
      rw [valid_handle_iff]
      exact ⟨hg0, e, by rw [e3, he]⟩
  · have hfull := firstFreeFrom_none l 0 hf
    rw [ha]
    simp only [Int.toNat_ofNat, List.length_set, List.length_append, List.length_cons,
      List.length_nil]
    refine ⟨?_, fun _ => ⟨trivial, by simp [ALLOCCHUNK]⟩, ?_, ?_, ?_⟩
    · rintro ⟨j, hj⟩
      have hjl : j < l.length := by
        by_contra hlt
        rw [List.getElem?_eq_none (by omega)] at hj
        cases hj
      obtain ⟨e, he⟩ := hfull j hjl
      rw [he] at hj
      cases hj
    · rw [valid_handle_false_iff]
      rintro ⟨_, e, he⟩
      simp only [Int.toNat_ofNat] at he
      rw [List.getElem?_eq_none (le_refl _)] at he
      cases he
    · rw [valid_handle_iff]
      refine ⟨by omega, ⟨none, ⟨0, 0⟩⟩, ?_⟩
      simp only [Int.toNat_ofNat]
      rw [List.getElem?_set_self (by simp)]
    · intro g hg
      obtain ⟨hg0, e, he⟩ := (valid_handle_iff l g).mp hg
      have hgl : g.toNat < l.length := by
        by_contra hlt
        rw [List.getElem?_eq_none (by omega)] at he
        cases he
      have e3 : ((l ++ [none, none]).set l.length (some ⟨none, ⟨0, 0⟩⟩))[g.toNat]?
          = l[g.toNat]? := by
        rw [List.getElem?_set_ne (by omega), List.getElem?_append_left hgl]
      refine ⟨?_, e3⟩
      rw [valid_handle_iff]
      exact ⟨hg0, e, by rw [e3, he]⟩

/-- C15, witness: in a table with the slots 0 and 2 in use and the slot 1
free, `allocate_handle` returns 1. -/
theorem C15_allocate_handle_witness :
    0 ≤ (allocate_handle [some ⟨some 7, ⟨0, 0⟩⟩, none, some ⟨some 8, ⟨1, 1⟩⟩, none]).1
    ∧ ([some ⟨some 7, ⟨0, 0⟩⟩, none, some ⟨some 8, ⟨1, 1⟩⟩, none] :
        List (Option FungeFileHandle))[
          (allocate_handle [some ⟨some 7, ⟨0, 0⟩⟩, none, some ⟨some 8, ⟨1, 1⟩⟩, none]).1.toNat]?
        = some none
    ∧ (∀ j : Nat, j < (allocate_handle
          [some ⟨some 7, ⟨0, 0⟩⟩, none, some ⟨some 8, ⟨1, 1⟩⟩, none]).1.toNat →
        ([some ⟨some 7, ⟨0, 0⟩⟩, none, some ⟨some 8, ⟨1, 1⟩⟩, none] :
          List (Option FungeFileHandle))[j]? ≠ some none)
    ∧ (allocate_handle [some ⟨some 7, ⟨0, 0⟩⟩, none, some ⟨some 8, ⟨1, 1⟩⟩, none]).2.length
        = ([some ⟨some 7, ⟨0, 0⟩⟩, none, some ⟨some 8, ⟨1, 1⟩⟩, none] :
            List (Option FungeFileHandle)).length :=
  (C15_allocate_handle [some ⟨some 7, ⟨0, 0⟩⟩, none, some ⟨some 8, ⟨1, 1⟩⟩, none]).1
    ⟨1, by decide⟩

theorem free_handle_valid (l : List (Option FungeFileHandle)) (h : Int)
    (hv : valid_handle l h = true) : free_handle h l = l.set h.toNat none := by
  obtain ⟨_, e, he⟩ := (valid_handle_iff l h).mp hv
  unfold free_handle
  rw [he]

theorem fclose_handles {Ω : Type} (libc : Libc Ω) (ip : instructionPointer) (w : FileWorld Ω)
    (hv : valid_handle w.handles (stack_pop ip.stack).1 = true) :
    (finger_FILE_fclose libc ip w).2.handles
      = w.handles.set (stack_pop ip.stack).1.toNat none := by
  unfold finger_FILE_fclose
  simp only [hv, Bool.not_true, Bool.false_eq_true, if_false]
  exact free_handle_valid _ _ hv

/-- C16: for every valid handle h on top of the stack, executing C of FILE
makes `valid_handle(h)` false and leaves the validity of every other handle
unchanged, whatever the C library does (so whether or not `fclose` succeeds);
the next `allocate_handle` then returns an index from 0 to h, and h itself when
every lower handle is valid, that is, when no lower slot is free. -/
theorem C16_close_frees_handle {Ω : Type} (libc : Libc Ω) (ip : instructionPointer)
    (w : FileWorld Ω) (hv : valid_handle w.handles (stack_pop ip.stack).1 = true) :
    valid_handle (finger_FILE_fclose libc ip w).2.handles (stack_pop ip.stack).1 = false
    ∧ (∀ g, g ≠ (stack_pop ip.stack).1 →
        valid_handle (finger_FILE_fclose libc ip w).2.handles g = valid_handle w.handles g)
    ∧ 0 ≤ (allocate_handle (finger_FILE_fclose libc ip w).2.handles).1
    ∧ (allocate_handle (finger_FILE_fclose libc ip w).2.handles).1 ≤ (stack_pop ip.stack).1
    ∧ ((∀ j : Int, 0 ≤ j → j < (stack_pop ip.stack).1 → valid_handle w.handles j = true) →
        (allocate_handle (finger_FILE_fclose libc ip w).2.handles).1 = (stack_pop ip.stack).1) := by
  rw [fclose_handles libc ip w hv]
  generalize (stack_pop ip.stack).1 = h at hv ⊢
  obtain ⟨h0, e, he⟩ := (valid_handle_iff w.handles h).mp hv
  have hlen : h.toNat < w.handles.length := by
    by_contra hlt
    rw [List.getElem?_eq_none (by omega)] at he
    cases he
  have hslot : (w.handles.set h.toNat none)[h.toNat]? = some none :=
    List.getElem?_set_self hlen
  have hother : ∀ j : Nat, j ≠ h.toNat → (w.handles.set h.toNat none)[j]? = w.handles[j]? :=
    fun j hj => List.getElem?_set_ne (fun e2 => hj e2.symm)
  have hfirst : ∃ k : Nat, firstFreeFrom (w.handles.set h.toNat none) 0 = some k
      ∧ (allocate_handle (w.handles.set h.toNat none)).1 = (k : Int) := by
    rcases allocate_handle_cases (w.handles.set h.toNat none) with ⟨k, hf, ha⟩ | ⟨hf, _⟩
    · exact ⟨k, hf, by rw [ha]⟩
    · obtain ⟨e2, he2⟩ := firstFreeFrom_none _ 0 hf h.toNat (by simpa using hlen)
      rw [hslot] at he2
      cases he2
  obtain ⟨k, hf, hk⟩ := hfirst
  obtain ⟨_, k2, k3⟩ := firstFreeFrom_some _ 0 k hf
  simp only [Nat.sub_zero] at k2 k3
  have hkle : k ≤ h.toNat := by
    by_contra hlt
    obtain ⟨e2, he2⟩ := k3 h.toNat (by omega)
    rw [hslot] at he2
    cases he2
  refine ⟨?_, ?_, ?_, ?_, ?_⟩
  · rw [valid_handle_false_iff]
    rintro ⟨_, e2, he2⟩
    rw [hslot] at he2
    cases he2
  · intro g hg
    by_cases hg0 : 0 ≤ g
    · have hne : g.toNat ≠ h.toNat := by omega
      have e3 := hother g.toNat hne
      cases hb : valid_handle w.handles g with
      | true =>
        obtain ⟨_, e2, he2⟩ := (valid_handle_iff _ g).mp hb
        rw [valid_handle_iff]
        exact ⟨hg0, e2, by rw [e3, he2]⟩
      | false =>
        rw [valid_handle_false_iff] at hb ⊢
        rintro ⟨_, e2, he2⟩
        exact hb ⟨hg0, e2, by rw [← e3, he2]⟩
    · have h1 : valid_handle w.handles g = false := by
        rw [valid_handle_false_iff]
        rintro ⟨c, _⟩
        exact hg0 c
      have h2 : valid_handle (w.handles.set h.toNat none) g = false := by
        rw [valid_handle_false_iff]
        rintro ⟨c, _⟩
        exact hg0 c
      rw [h1, h2]
  · rw [hk]
    omega
  · rw [hk]
    omega
  · intro hall
    rw [hk]
    have hkeq : k = h.toNat := by
      by_contra hne
      have hklt : k < h.toNat := by omega
      have hvk := hall (k : Int) (by omega) (by omega)
      obtain ⟨_, e2, he2⟩ := (valid_handle_iff _ _).mp hvk
      simp only [Int.toNat_ofNat] at he2
      rw [hother k (by omega)] at k2
      rw [k2] at he2
      cases he2
    omega

/-- C16, witness: with the handles 0, 1 and 2 valid, closing 1 with a failing
`fclose` makes 1 invalid, and the next `allocate_handle` returns 1. -/
theorem C16_close_frees_handle_witness :
    valid_handle (finger_FILE_fclose failingLibc ⟨[1, 9], ⟨0, 0⟩, ⟨1, 0⟩, ⟨0, 0⟩⟩
        { handles := [some ⟨some 7, ⟨0, 0⟩⟩, some ⟨some 8, ⟨1, 1⟩⟩, some ⟨some 9, ⟨2, 2⟩⟩],
          fspace := FungeSpaceCreate, os := () }).2.handles 1 = false
    ∧ (allocate_handle (finger_FILE_fclose failingLibc ⟨[1, 9], ⟨0, 0⟩, ⟨1, 0⟩, ⟨0, 0⟩⟩
        { handles := [some ⟨some 7, ⟨0, 0⟩⟩, some ⟨some 8, ⟨1, 1⟩⟩, some ⟨some 9, ⟨2, 2⟩⟩],
          fspace := FungeSpaceCreate, os := () }).2.handles).1 = 1 :=
  ⟨(C16_close_frees_handle failingLibc ⟨[1, 9], ⟨0, 0⟩, ⟨1, 0⟩, ⟨0, 0⟩⟩
      { handles := [some ⟨some 7, ⟨0, 0⟩⟩, some ⟨some 8, ⟨1, 1⟩⟩, some ⟨some 9, ⟨2, 2⟩⟩],
        fspace := FungeSpaceCreate, os := () } (by decide)).1,
   (C16_close_frees_handle failingLibc ⟨[1, 9], ⟨0, 0⟩, ⟨1, 0⟩, ⟨0, 0⟩⟩
      { handles := [some ⟨some 7, ⟨0, 0⟩⟩, some ⟨some 8, ⟨1, 1⟩⟩, some ⟨some 9, ⟨2, 2⟩⟩],
        fspace := FungeSpaceCreate, os := () } (by decide)).2.2.2.2 (by
        intro j hj0 hj1
        have hj : j = 0 := by
          have : (stack_pop [1, 9]).1 = 1 := rfl
          simp only [this] at hj1
          omega
        subst hj
        decide)⟩

/-- C17: each instruction of FILE that takes a handle (C, G, L, P, R, S, W),
given an invalid handle operand, returns the instruction pointer with its
delta negated, its position and storage offset unchanged and its operands
popped as far as they were, and leaves the handle table, Funge-space and the
operating system as they were; and O with a mode outside 0..5 does the same,
so it pushes no handle and allocates no slot. This holds whatever the C
library does. -/
theorem C17_invalid_handle_reflects {Ω : Type} (libc : Libc Ω) (fuel : Nat)
    (ip : instructionPointer) (w : FileWorld Ω) :
    (valid_handle w.handles (stack_pop ip.stack).1 = false →
      finger_FILE_fclose libc ip w
        = (⟨(stack_pop ip.stack).2, ip.position, ⟨-ip.delta.x, -ip.delta.y⟩,
            ip.storageOffset⟩, w))
    ∧ (valid_handle w.handles (stack_peek ip.stack) = false →
      finger_FILE_fgets libc fuel ip w
        = some (⟨ip.stack, ip.position, ⟨-ip.delta.x, -ip.delta.y⟩, ip.storageOffset⟩, w))
    ∧ (valid_handle w.handles (stack_peek ip.stack) = false →
      finger_FILE_ftell libc ip w
        = (⟨ip.stack, ip.position, ⟨-ip.delta.x, -ip.delta.y⟩, ip.storageOffset⟩, w))
    ∧ (valid_handle w.handles (stack_peek (stack_pop_string ip.stack).2) = false →
      finger_FILE_fputs libc ip w
        = (⟨(stack_pop_string ip.stack).2, ip.position, ⟨-ip.delta.x, -ip.delta.y⟩,
            ip.storageOffset⟩, w))
    ∧ (valid_handle w.handles (stack_peek (stack_pop ip.stack).2) = false →
      finger_FILE_fread libc ip w
        = (⟨(stack_pop ip.stack).2, ip.position, ⟨-ip.delta.x, -ip.delta.y⟩,
            ip.storageOffset⟩, w))
    ∧ (valid_handle w.handles (stack_peek (stack_pop (stack_pop ip.stack).2).2) = false →
      finger_FILE_fseek libc ip w
        = (⟨(stack_pop (stack_pop ip.stack).2).2, ip.position, ⟨-ip.delta.x, -ip.delta.y⟩,
            ip.storageOffset⟩, w))
    ∧ (valid_handle w.handles (stack_peek (stack_pop ip.stack).2) = false →
      finger_FILE_fwrite libc ip w
        = (⟨(stack_pop ip.stack).2, ip.position, ⟨-ip.delta.x, -ip.delta.y⟩,
            ip.storageOffset⟩, w))
    ∧ ((stack_pop (stack_pop_string ip.stack).2).1 < 0
        ∨ (stack_pop (stack_pop_string ip.stack).2).1 > 5 →
      finger_FILE_fopen libc ip w
        = (⟨(stack_pop_vector (stack_pop (stack_pop_string ip.stack).2).2).2, ip.position,
            ⟨-ip.delta.x, -ip.delta.y⟩, ip.storageOffset⟩, w)) := by
  refine ⟨?_, ?_, ?_, ?_, ?_, ?_, ?_, ?_⟩
  · intro hv
    unfold finger_FILE_fclose
    simp only [hv, Bool.not_false, if_true]
    rfl
  · intro hv
    unfold finger_FILE_fgets
    simp only [hv, Bool.not_false, if_true]
    rfl
  · intro hv
    unfold finger_FILE_ftell
    simp only [hv, Bool.not_false, if_true]
    rfl
  · intro hv
    unfold finger_FILE_fputs
    simp only [hv, Bool.not_false, if_true]
    rfl
  · intro hv
    unfold finger_FILE_fread
    simp only [hv, Bool.not_false, if_true]
    rfl
  · intro hv
    unfold finger_FILE_fseek
    simp only [hv, Bool.not_false, if_true]
    rfl
  · intro hv
    unfold finger_FILE_fwrite
    simp only [hv, Bool.not_false, if_true]
    rfl
  · intro hm
    unfold finger_FILE_fopen
    simp only [hm, if_true]
    rfl

/-- C17, witness: with the handle table of two free slots, C on the handle 5
and O with the mode 9 reflect and leave the table as it was. -/
theorem C17_invalid_handle_reflects_witness :
    finger_FILE_fclose failingLibc ⟨[5, 9], ⟨3, 0⟩, ⟨1, 0⟩, ⟨0, 0⟩⟩
        { handles := [none, none], fspace := FungeSpaceCreate, os := () }
      = (⟨(stack_pop [5, 9]).2, ⟨3, 0⟩, ⟨-1, -0⟩, ⟨0, 0⟩⟩,
          { handles := [none, none], fspace := FungeSpaceCreate, os := () })
    ∧ finger_FILE_fopen failingLibc ⟨[97, 0, 9, 4, 4], ⟨3, 0⟩, ⟨1, 0⟩, ⟨0, 0⟩⟩
        { handles := [none, none], fspace := FungeSpaceCreate, os := () }
      = (⟨(stack_pop_vector (stack_pop (stack_pop_string [97, 0, 9, 4, 4]).2).2).2, ⟨3, 0⟩,
          ⟨-1, -0⟩, ⟨0, 0⟩⟩,
          { handles := [none, none], fspace := FungeSpaceCreate, os := () }) :=
  ⟨(C17_invalid_handle_reflects failingLibc 0 ⟨[5, 9], ⟨3, 0⟩, ⟨1, 0⟩, ⟨0, 0⟩⟩
      { handles := [none, none], fspace := FungeSpaceCreate, os := () }).1 (by decide),
   (C17_invalid_handle_reflects failingLibc 0 ⟨[97, 0, 9, 4, 4], ⟨3, 0⟩, ⟨1, 0⟩, ⟨0, 0⟩⟩
      { handles := [none, none], fspace := FungeSpaceCreate, os := () }).2.2.2.2.2.2.2
        (by decide)⟩

/-! ## Theorems: the ROMA fingerprint -/

/-- C18: loading ROMA returns true and pushes one handler on the stack of each
of the seven letters C, D, I, L, M, V, X and on no other; for every instruction
pointer the handlers of I, V, X, L, C, D, M push exactly one cell, with the
value 1, 5, 10, 50, 100, 500, 1000, and change nothing else of it. -/
theorem C18_roma (opcodes : OpcodeStacks) :
    (FingerROMAload opcodes).2 = true
    ∧ (FingerROMAload opcodes).1 67 = FingerROMApushC :: opcodes 67
    ∧ (FingerROMAload opcodes).1 68 = FingerROMApushD :: opcodes 68
    ∧ (FingerROMAload opcodes).1 73 = FingerROMApushI :: opcodes 73
    ∧ (FingerROMAload opcodes).1 76 = FingerROMApushL :: opcodes 76
    ∧ (FingerROMAload opcodes).1 77 = FingerROMApushM :: opcodes 77
    ∧ (FingerROMAload opcodes).1 86 = FingerROMApushV :: opcodes 86
    ∧ (FingerROMAload opcodes).1 88 = FingerROMApushX :: opcodes 88
    ∧ (∀ c : Int, c ∉ [67, 68, 73, 76, 77, 86, 88] → (FingerROMAload opcodes).1 c = opcodes c)
    ∧ (∀ ip : instructionPointer,
        FingerROMApushI ip = ⟨1 :: ip.stack, ip.position, ip.delta, ip.storageOffset⟩
        ∧ FingerROMApushV ip = ⟨5 :: ip.stack, ip.position, ip.delta, ip.storageOffset⟩
        ∧ FingerROMApushX ip = ⟨10 :: ip.stack, ip.position, ip.delta, ip.storageOffset⟩
        ∧ FingerROMApushL ip = ⟨50 :: ip.stack, ip.position, ip.delta, ip.storageOffset⟩
        ∧ FingerROMApushC ip = ⟨100 :: ip.stack, ip.position, ip.delta, ip.storageOffset⟩
        ∧ FingerROMApushD ip = ⟨500 :: ip.stack, ip.position, ip.delta, ip.storageOffset⟩
        ∧ FingerROMApushM ip = ⟨1000 :: ip.stack, ip.position, ip.delta, ip.storageOffset⟩) := by
  refine ⟨rfl, ?_, ?_, ?_, ?_, ?_, ?_, ?_, ?_, ?_⟩
  · simp [FingerROMAload, ManagerAddOpcode]
  · simp [FingerROMAload, ManagerAddOpcode]
  · simp [FingerROMAload, ManagerAddOpcode]
  · simp [FingerROMAload, ManagerAddOpcode]
  · simp [FingerROMAload, ManagerAddOpcode]
  · simp [FingerROMAload, ManagerAddOpcode]
  · simp [FingerROMAload, ManagerAddOpcode]
  · intro c hc
    simp only [List.mem_cons, List.mem_singleton, List.not_mem_nil, or_false, not_or] at hc
    obtain ⟨h1, h2, h3, h4, h5, h6, h7⟩ := hc
    simp [FingerROMAload, ManagerAddOpcode, h1, h2, h3, h4, h5, h6, h7]
  · intro ip
    exact ⟨rfl, rfl, rfl, rfl, rfl, rfl, rfl⟩

/-- C18, witness: after loading ROMA into empty opcode stacks the letter A (65)
has no handler, and the handler on top for M pushes 1000. -/
theorem C18_roma_witness :
    (FingerROMAload (fun _ => [])).1 65 = []
    ∧ (FingerROMAload (fun _ => [])).1 77 = [FingerROMApushM]
    ∧ FingerROMApushM ⟨[4], ⟨9, 0⟩, ⟨1, 0⟩, ⟨0, 0⟩⟩ = ⟨[1000, 4], ⟨9, 0⟩, ⟨1, 0⟩, ⟨0, 0⟩⟩ :=
  ⟨(C18_roma (fun _ => [])).2.2.2.2.2.2.2.2.1 65 (by decide),
   (C18_roma (fun _ => [])).2.2.2.2.2.1,
   ((C18_roma (fun _ => [])).2.2.2.2.2.2.2.2.2 ⟨[4], ⟨9, 0⟩, ⟨1, 0⟩, ⟨0, 0⟩⟩).2.2.2.2.2.2⟩

/-! ## Theorems: the instruction that iterate fetches -/

/-- The skip loop of `RunIterate`, entered after `m` steps with `injump` the
parity of the `;` seen so far, returns the first target cell after them. -/
theorem skipLoop_target (fspace : fungeSpace) (ip : instructionPointer) (j : Nat)
    (ht : isIterateTarget fspace ip j) :
    ∀ (fuel m : Nat), m < j → j ≤ m + fuel →
      (∀ i, m < i → i < j → ¬ isIterateTarget fspace ip i) →
      skipLoop fspace fuel (decide (semicolonsUpTo fspace ip m % 2 = 1)) (ipAfter fspace ip m)
        = some (cellAfter fspace ip j, ipAfter fspace ip j) := by
  intro fuel
  induction fuel with
  | zero => intro m h1 h2; omega
  | succ fuel ih =>
    intro m h1 h2 hmin
    rw [skipLoop]
    have hip : ipForward fspace (ipAfter fspace ip m) 1 = ipAfter fspace ip (m + 1) := rfl
    have hcell : FungeSpaceGet fspace (ipAfter fspace ip (m + 1)).position
        = cellAfter fspace ip (m + 1) := rfl
    simp only [hip, hcell]
    have hsem : semicolonsUpTo fspace ip (m + 1)
        = semicolonsUpTo fspace ip m + (if cellAfter fspace ip (m + 1) = 59 then 1 else 0) := rfl
    by_cases h59 : cellAfter fspace ip (m + 1) = 59
    · have hne : m + 1 ≠ j := by
        intro e
        rw [← e] at ht
        exact ht.2.1 h59
      have hpar : (!decide (semicolonsUpTo fspace ip m % 2 = 1))
          = decide (semicolonsUpTo fspace ip (m + 1) % 2 = 1) := by
        rw [hsem, if_pos h59]
        by_cases hp : semicolonsUpTo fspace ip m % 2 = 1
        · have : ¬ (semicolonsUpTo fspace ip m + 1) % 2 = 1 := by omega
          simp [hp, this]
        · have : (semicolonsUpTo fspace ip m + 1) % 2 = 1 := by omega
          simp [hp, this]
      rw [if_pos h59, hpar]
      exact ih (m + 1) (by omega) (by omega) (fun i hi1 hi2 => hmin i (by omega) hi2)
    · have hpar : decide (semicolonsUpTo fspace ip m % 2 = 1)
          = decide (semicolonsUpTo fspace ip (m + 1) % 2 = 1) := by
        rw [hsem, if_neg h59, Nat.add_zero]
      rw [if_neg h59]
      by_cases h32 : cellAfter fspace ip (m + 1) = 32
      · have hne : m + 1 ≠ j := by
          intro e
          rw [← e] at ht
          exact ht.1 h32
        rw [if_pos h32, hpar]
        exact ih (m + 1) (by omega) (by omega) (fun i hi1 hi2 => hmin i (by omega) hi2)
      · rw [if_neg h32]
        by_cases hp : semicolonsUpTo fspace ip m % 2 = 1
        · have hne : m + 1 ≠ j := by
            intro e
            rw [← e] at ht
            have := ht.2.2
            simp only [Nat.add_sub_cancel] at this
            omega
          have hd : decide (semicolonsUpTo fspace ip m % 2 = 1) = true := by simp [hp]
          rw [if_pos hd, hpar]
          exact ih (m + 1) (by omega) (by omega) (fun i hi1 hi2 => hmin i (by omega) hi2)
        · have hd : ¬ (decide (semicolonsUpTo fspace ip m % 2 = 1) = true) := by simp [hp]
          rw [if_neg hd]
          have htm : isIterateTarget fspace ip (m + 1) := by
            refine ⟨h32, h59, ?_⟩
            simp only [Nat.add_sub_cancel]
            omega
          have hj : j = m + 1 := by
            by_contra hne
            exact hmin (m + 1) (by omega) (by omega) htm
          rw [hj]

/-- The fetch of `RunIterate` returns the first target cell ahead of `k`, given
fuel for the steps up to it. -/
theorem fetchInstr_target (fspace : fungeSpace) (ip : instructionPointer) (j fuel : Nat)
    (hj : 1 ≤ j) (ht : isIterateTarget fspace ip j)
    (hmin : ∀ i, 1 ≤ i → i < j → ¬ isIterateTarget fspace ip i) (hfuel : j ≤ fuel + 1) :
    fetchInstr fspace fuel ip = some (cellAfter fspace ip j, ipAfter fspace ip j) := by
  unfold fetchInstr
  have hip : ipForward fspace ip 1 = ipAfter fspace ip 1 := rfl
  have hcell : FungeSpaceGet fspace (ipAfter fspace ip 1).position = cellAfter fspace ip 1 := rfl
  simp only [hip, hcell]
  by_cases hc : cellAfter fspace ip 1 = 32 ∨ cellAfter fspace ip 1 = 59
  · rw [if_pos hc]
    have hne : 1 ≠ j := by
      intro e
      rw [← e] at ht
      rcases hc with h | h
      · exact ht.1 h
      · exact ht.2.1 h
    have hpar : (if cellAfter fspace ip 1 = 59 then true else false)
        = decide (semicolonsUpTo fspace ip 1 % 2 = 1) := by
      have hsem : semicolonsUpTo fspace ip 1
          = 0 + (if cellAfter fspace ip 1 = 59 then 1 else 0) := rfl
      rw [hsem]
      by_cases h59 : cellAfter fspace ip 1 = 59 <;> simp [h59]
    rw [hpar]
    exact skipLoop_target fspace ip j ht fuel 1 (by omega) (by omega)
      (fun i hi1 hi2 => hmin i (by omega) hi2)
  · rw [if_neg hc]
    have ht1 : isIterateTarget fspace ip 1 :=
      ⟨fun h => hc (Or.inl h), fun h => hc (Or.inr h), rfl⟩
    have hj1 : j = 1 := by
      by_contra hne
      exact hmin 1 (le_refl _) (by omega) ht1
    rw [hj1]

/-- C21: for a count N > 0, with c_j the cell reached after j forward steps
from k (with wrap): if c_j is the first cell that is neither the space nor `;`
and is preceded by an even number of `;` among c_1..c_(j-1), then, given fuel
for the steps up to it, the fetch of `RunIterate` returns c_j and the position
of that cell; this is c_1 when c_1 is neither the space nor `;`; and when c_j
is not `z`, `k` or `@`, `RunIterate` iterates c_j, N times, and the position
remembered for the Funge-108 move is the position of that cell. -/
theorem C21_iterate_target {ω : Type} (exec : Int → Interp ω → Interp ω)
    (std : standardVersion) (fuel : Nat) (m : Interp ω) (j : Nat)
    (hN : 0 < (StackPop m.ip.stack).1) (hj : 1 ≤ j)
    (ht : isIterateTarget m.fspace
      ⟨(StackPop m.ip.stack).2, m.ip.position, m.ip.delta, m.ip.storageOffset⟩ j)
    (hmin : ∀ i, 1 ≤ i → i < j → ¬ isIterateTarget m.fspace
      ⟨(StackPop m.ip.stack).2, m.ip.position, m.ip.delta, m.ip.storageOffset⟩ i)
    (hfuel : j ≤ fuel + 1) :
    fetchInstr m.fspace fuel
        ⟨(StackPop m.ip.stack).2, m.ip.position, m.ip.delta, m.ip.storageOffset⟩
      = some (cellAfter m.fspace
          ⟨(StackPop m.ip.stack).2, m.ip.position, m.ip.delta, m.ip.storageOffset⟩ j,
        ipAfter m.fspace
          ⟨(StackPop m.ip.stack).2, m.ip.position, m.ip.delta, m.ip.storageOffset⟩ j)
    ∧ (cellAfter m.fspace
          ⟨(StackPop m.ip.stack).2, m.ip.position, m.ip.delta, m.ip.storageOffset⟩ 1 ≠ 32 →
       cellAfter m.fspace
          ⟨(StackPop m.ip.stack).2, m.ip.position, m.ip.delta, m.ip.storageOffset⟩ 1 ≠ 59 →
       j = 1)
    ∧ (cellAfter m.fspace
          ⟨(StackPop m.ip.stack).2, m.ip.position, m.ip.delta, m.ip.storageOffset⟩ j ≠ 122 →
       cellAfter m.fspace
          ⟨(StackPop m.ip.stack).2, m.ip.position, m.ip.delta, m.ip.storageOffset⟩ j ≠ 107 →
       cellAfter m.fspace
          ⟨(StackPop m.ip.stack).2, m.ip.position, m.ip.delta, m.ip.storageOffset⟩ j ≠ 64 →
       RunIterate exec std fuel m = some
        (movePast std m.ip.delta m.ip.position
          (ipAfter m.fspace
            ⟨(StackPop m.ip.stack).2, m.ip.position, m.ip.delta, m.ip.storageOffset⟩ j).position
          ((exec (cellAfter m.fspace
              ⟨(StackPop m.ip.stack).2, m.ip.position, m.ip.delta, m.ip.storageOffset⟩ j))^[
                (StackPop m.ip.stack).1.toNat]
            { ip := ⟨(StackPop m.ip.stack).2, m.ip.position, m.ip.delta, m.ip.storageOffset⟩,
              fspace := m.fspace, world := m.world }))) := by
  have hf := fetchInstr_target m.fspace _ j fuel hj ht hmin hfuel
  refine ⟨hf, ?_, ?_⟩
  · intro h32 h59
    by_contra hne
    exact hmin 1 (le_refl _) (by omega) ⟨h32, h59, rfl⟩
  · intro hz hk hat
    exact RunIterate_default exec std fuel m _ _ hN hf hz hk hat

/-- C21, witness: in `3k;k;5@`, with the count 3 on the stack at k, the cells
ahead of k are `;`, `k`, `;`, `5`; the first target is the fourth, the `5` at
(5,0), and `RunIterate` fetches it. -/
theorem C21_iterate_target_witness :
    fetchInstr (stateAt (bytesOf "3k;k;5") [3] ⟨1, 0⟩).fspace 3
        ⟨(StackPop [3]).2, ⟨1, 0⟩, ⟨1, 0⟩, ⟨0, 0⟩⟩
      = some (cellAfter (stateAt (bytesOf "3k;k;5") [3] ⟨1, 0⟩).fspace
          ⟨(StackPop [3]).2, ⟨1, 0⟩, ⟨1, 0⟩, ⟨0, 0⟩⟩ 4,
        ipAfter (stateAt (bytesOf "3k;k;5") [3] ⟨1, 0⟩).fspace
          ⟨(StackPop [3]).2, ⟨1, 0⟩, ⟨1, 0⟩, ⟨0, 0⟩⟩ 4) :=
  (C21_iterate_target ExecuteInstructionNoK standardVersion.stdver98 3
    (stateAt (bytesOf "3k;k;5") [3] ⟨1, 0⟩) 4 (by decide) (by decide)
    (by unfold isIterateTarget; decide)
    (by
      intro i hi1 hi2
      have : i = 1 ∨ i = 2 ∨ i = 3 := by omega
      rcases this with h | h | h <;> subst h <;> unfold isIterateTarget <;> decide)
    (by decide)).1

/-- C22: for every count N > 0, when the instruction found after k is itself
`k` (107), `RunIterate` returns, for every dispatcher and in every mode, the
state in which the count is popped, the delta is negated and the position is
that of the outer k; the rest of the stack, the storage offset, Funge-space and
the world are unchanged, so nothing was executed. -/
theorem C22_nested_k_reflects {ω : Type} (exec : Int → Interp ω → Interp ω)
    (std : standardVersion) (fuel : Nat) (m : Interp ω) (ipI : instructionPointer)
    (hN : 0 < (StackPop m.ip.stack).1)
    (hfetch : fetchInstr m.fspace fuel
        ⟨(StackPop m.ip.stack).2, m.ip.position, m.ip.delta, m.ip.storageOffset⟩
      = some (107, ipI)) :
    RunIterate exec std fuel m = some
      { ip := { stack := (StackPop m.ip.stack).2,
                position := m.ip.position,
                delta := ⟨-m.ip.delta.x, -m.ip.delta.y⟩,
                storageOffset := m.ip.storageOffset },
        fspace := m.fspace,
        world := m.world } := by
  have hf := fetchInstr_fields _ _ _ _ _ hfetch
  have hs : ipI.stack = (StackPop m.ip.stack).2 := by rw [hf]
  have ho : ipI.storageOffset = m.ip.storageOffset := by rw [hf]
  have hd : ipI.delta = m.ip.delta := by rw [hf]
  unfold RunIterate
  have h0 : (StackPop m.ip.stack).1 ≠ 0 := by omega
  have h1 : ¬ (StackPop m.ip.stack).1 < 0 := by omega
  have h2 : (107 : Int) ≠ 122 := by decide
  simp only [h0, h1, if_false, hfetch, h2, if_true, ipReverse, hs, ho, hd]

/-- C22, witness: in `2kk5` under Funge-108, with the count 2 on the stack at
the first k, the instruction found is the second k, and the instruction
pointer reflects at (1,0). -/
theorem C22_nested_k_reflects_witness :
    (RunIterate ExecuteInstructionNoK standardVersion.stdver108 0
        (stateAt (bytesOf "2kk5") [2, 7] ⟨1, 0⟩)).map (fun r => (r.ip, r.world))
      = some (⟨[7], ⟨1, 0⟩, ⟨-1, 0⟩, ⟨0, 0⟩⟩, ⟨"", none⟩) := by
  rw [C22_nested_k_reflects ExecuteInstructionNoK standardVersion.stdver108 0
    (stateAt (bytesOf "2kk5") [2, 7] ⟨1, 0⟩) ⟨[7], ⟨2, 0⟩, ⟨1, 0⟩, ⟨0, 0⟩⟩
    (by decide) (by decide)]
  decide

/-! ## Theorems: the allocator -/

theorem alloc_index (v : Int) (s : fungeSpace) :
    (FungeSpaceInternalAlloc v s).1.index < FUNGESPACEALLOCCHUNK
      ∧ (FungeSpaceInternalAlloc v s).1.chunk = (FungeSpaceInternalAlloc v s).2.allocarray
      ∧ (FungeSpaceInternalAlloc v s).1.index
          = (FungeSpaceInternalAlloc v s).2.allocarrayCurrent := by
  unfold FungeSpaceInternalAlloc FUNGESPACEALLOCCHUNK
  by_cases h : s.allocarrayCurrent > 1024 - 2
  · simp [h]
  · simp [h]
    omega

theorem allocSeq_allocated :
    ∀ (vs : List Int) (s : fungeSpace),
      (∀ p, allocated s p → allocated (allocSeq vs s).2 p)
      ∧ ∀ p ∈ (allocSeq vs s).1, ¬ allocated s p ∧ allocated (allocSeq vs s).2 p := by
  intro vs
  induction vs with
  | nil => intro s; exact ⟨fun p h => h, fun p h => by simp [allocSeq] at h⟩
  | cons v vs ih =>
    intro s
    obtain ⟨i1, i2⟩ := ih (FungeSpaceInternalAlloc v s).2
    constructor
    · intro p hp
      exact i1 p (alloc_mono v s p hp)
    · intro p hp
      simp only [allocSeq, List.mem_cons] at hp
      rcases hp with hp | hp
      · rw [hp]
        exact ⟨alloc_fresh v s, i1 _ (alloc_self v s)⟩
      · exact ⟨fun h => (i2 p hp).1 (alloc_mono v s p h), (i2 p hp).2⟩

theorem allocSeq_nodup : ∀ (vs : List Int) (s : fungeSpace), (allocSeq vs s).1.Nodup := by
  intro vs
  induction vs with
  | nil => intro s; simp [allocSeq]
  | cons v vs ih =>
    intro s
    simp only [allocSeq, List.nodup_cons]
    refine ⟨?_, ih _⟩
    intro hmem
    exact ((allocSeq_allocated vs _).2 _ hmem).1 (alloc_self v s)

/-- C30: every call of `FungeSpaceInternalAlloc` returns a slot of the current
chunk whose index is within 0..FUNGESPACEALLOCCHUNK-1, and across every
sequence of calls no slot (chunk, index) is returned twice; so after any
sequence of sets on a fresh space two distinct keys never share one storage
cell, and a set at one coordinate does not change the value read at another. -/
theorem C30_alloc_slots_distinct :
    (∀ (v : Int) (s : fungeSpace),
      (FungeSpaceInternalAlloc v s).1.index < FUNGESPACEALLOCCHUNK
        ∧ (FungeSpaceInternalAlloc v s).1.chunk = (FungeSpaceInternalAlloc v s).2.allocarray)
    ∧ (∀ (vs : List Int) (s : fungeSpace), (allocSeq vs s).1.Nodup)
    ∧ (∀ (calls : List (Int × fungePosition)) (k1 k2 : fungePosition) (ptr : CellPtr),
        (runSets calls FungeSpaceCreate).entries k1 = some ptr →
        (runSets calls FungeSpaceCreate).entries k2 = some ptr → k1 = k2)
    ∧ (∀ (calls : List (Int × fungePosition)) (v : Int) (p q : fungePosition), q ≠ p →
        FungeSpaceGet (FungeSpaceSet v p (runSets calls FungeSpaceCreate)) q
          = FungeSpaceGet (runSets calls FungeSpaceCreate) q) := by
  refine ⟨fun v s => ⟨(alloc_index v s).1, (alloc_index v s).2.1⟩, allocSeq_nodup, ?_, ?_⟩
  · intro calls k1 k2 ptr h1 h2
    exact (WF_runSets calls _ WF_Create).inj k1 k2 ptr h1 h2
  · intro calls v p q hq
    rw [Get_Set _ _ _ _ (WF_runSets calls _ WF_Create), if_neg hq]

/-- C30, witness: after `a` was set at (0,0) and `b` at (1,0), setting `c` at
(1,0) leaves `a` at (0,0). -/
theorem C30_alloc_slots_distinct_witness :
    FungeSpaceGet (FungeSpaceSet 99 ⟨1, 0⟩
        (runSets [(97, ⟨0, 0⟩), (98, ⟨1, 0⟩)] FungeSpaceCreate)) ⟨0, 0⟩
      = FungeSpaceGet (runSets [(97, ⟨0, 0⟩), (98, ⟨1, 0⟩)] FungeSpaceCreate) ⟨0, 0⟩ :=
  C30_alloc_slots_distinct.2.2.2 [(97, ⟨0, 0⟩), (98, ⟨1, 0⟩)] 99 ⟨1, 0⟩ ⟨0, 0⟩ (by decide)

/-! ## Theorems: the space after `FungeSpaceLoad` -/

theorem widenRight_fields (s : fungeSpace) (x : Int) :
    (widenRight s x).entries = s.entries ∧ (widenRight s x).mem = s.mem
      ∧ (widenRight s x).allocarray = s.allocarray
      ∧ (widenRight s x).allocarrayCurrent = s.allocarrayCurrent
      ∧ (widenRight s x).topLeftCorner = s.topLeftCorner
      ∧ (widenRight s x).bottomRightCorner.y = s.bottomRightCorner.y
      ∧ (widenRight s x).bottomRightCorner.x = max s.bottomRightCorner.x x := by
  unfold widenRight
  split_ifs with h
  · refine ⟨rfl, rfl, rfl, rfl, rfl, rfl, ?_⟩
    simp only
    omega
  · refine ⟨rfl, rfl, rfl, rfl, rfl, rfl, ?_⟩
    omega

theorem WF_widenRight (s : fungeSpace) (x : Int) (h : WF s) : WF (widenRight s x) := by
  obtain ⟨e1, _, e3, e4, _, _, _⟩ := widenRight_fields s x
  constructor
  · intro k ptr hk
    rw [e1] at hk
    have := h.alloc k ptr hk
    unfold allocated at this ⊢
    rw [e3, e4]
    exact this
  · intro k1 k2 ptr h1 h2
    rw [e1] at h1 h2
    exact h.inj k1 k2 ptr h1 h2

theorem Get_widenRight (s : fungeSpace) (x : Int) (p : fungePosition) :
    FungeSpaceGet (widenRight s x) p = FungeSpaceGet s p := by
  obtain ⟨e1, e2, _⟩ := widenRight_fields s x
  simp only [FungeSpaceGet, e1, e2]

/-- The keys after `FungeSpaceSetNoBoundUpdate`: the position written is a key
exactly when the value is not the space, and the other keys are as before. -/
theorem entries_SetNoBoundUpdate (v : Int) (p q : fungePosition) (s : fungeSpace) :
    (FungeSpaceSetNoBoundUpdate v p s).entries q ≠ none
      ↔ if q = p then v ≠ 32 else s.entries q ≠ none := by
  by_cases hv : v = 32
  · subst hv
    rw [SetNoBoundUpdate_space]
    simp only [ght_remove]
    split_ifs <;> simp
  · cases hp : s.entries p with
    | some tmp =>
      rw [SetNoBoundUpdate_present v p s hv tmp hp]
      simp only
      split_ifs with hq
      · rw [hq, hp]
        simp [hv]
      · rfl
    | none =>
      rw [SetNoBoundUpdate_absent v p s hv hp]
      simp only
      split_ifs with hq
      · simp [hv]
      · rfl

theorem load_nil (st : LoadState) :
    loadLine [] st = { st with fspace := widenRight st.fspace st.x } := rfl

theorem load_nul (rest : List Int) (st : LoadState) :
    loadLine (0 :: rest) st = { st with fspace := widenRight st.fspace st.x } := by
  cases rest <;> simp [loadLine]

theorem load_crlf (rest : List Int) (st : LoadState) :
    loadLine (13 :: 10 :: rest) st
      = loadLine rest
          { fspace := widenRight st.fspace st.x, x := 0, y := st.y + 1,
            noendingnewline := false } := by
  rw [loadLine]
  simp

theorem load_cr (rest : List Int) (st : LoadState) (h : rest.head? ≠ some 10) :
    loadLine (13 :: rest) st
      = loadLine rest
          { fspace := widenRight st.fspace st.x, x := 0, y := st.y + 1,
            noendingnewline := false } := by
  cases rest <;> simp_all [loadLine]

theorem load_lf (rest : List Int) (st : LoadState) :
    loadLine (10 :: rest) st
      = loadLine rest
          { fspace := widenRight st.fspace st.x, x := 0, y := st.y + 1,
            noendingnewline := false } := by
  cases rest <;> simp [loadLine]

theorem load_char (c : Int) (rest : List Int) (st : LoadState)
    (h0 : c ≠ 0) (h10 : c ≠ 10) (h13 : c ≠ 13) :
    loadLine (c :: rest) st
      = loadLine rest
          { fspace := FungeSpaceSetNoBoundUpdate c ⟨st.x, st.y⟩ st.fspace,
            x := st.x + 1, y := st.y, noendingnewline := true } := by
  cases rest <;> simp [loadLine, h0, h10, h13]

theorem LoadInv_end (st : LoadState) (h : LoadInv st) :
    LoadInv { st with fspace := widenRight st.fspace st.x }
      ∧ st.x ≤ (widenRight st.fspace st.x).bottomRightCorner.x := by
  obtain ⟨e1, _, _, _, e5, e6, e7⟩ := widenRight_fields st.fspace st.x
  refine ⟨⟨WF_widenRight _ _ h.wf, ?_, ?_, ?_, h.x0, h.y0, h.nl, ?_, ?_⟩, ?_⟩
  · simp only [e5, h.tl]
  · simp only [e6, h.bry]
  · simp only [e7]
    have := h.brx
    omega
  · intro k hk
    simp only [e1] at hk
    simp only [e7]
    have := h.keys k hk
    omega
  · intro k hk
    simp only [e1] at hk
    simp only [Get_widenRight]
    exact h.vals k hk
  · rw [e7]
    omega

theorem LoadInv_newline (st : LoadState) (h : LoadInv st) :
    LoadInv { fspace := widenRight st.fspace st.x, x := 0, y := st.y + 1,
              noendingnewline := false } := by
  obtain ⟨e1, _, _, _, e5, e6, e7⟩ := widenRight_fields st.fspace st.x
  refine ⟨WF_widenRight _ _ h.wf, ?_, ?_, ?_, le_refl _, ?_, fun _ => rfl, ?_, ?_⟩
  · simp only [e5, h.tl]
  · simp only [e6, h.bry]
  · simp only [e7]
    have := h.brx
    omega
  · have := h.y0
    simp only
    omega
  · intro k hk
    simp only [e1] at hk
    simp only [e7]
    have := h.keys k hk
    omega
  · intro k hk
    simp only [e1] at hk
    simp only [Get_widenRight]
    exact h.vals k hk

theorem LoadInv_char (c : Int) (st : LoadState) (h : LoadInv st) :
    LoadInv { fspace := FungeSpaceSetNoBoundUpdate c ⟨st.x, st.y⟩ st.fspace,
              x := st.x + 1, y := st.y, noendingnewline := true } := by
  obtain ⟨c1, c2⟩ := SetNoBoundUpdate_corners c ⟨st.x, st.y⟩ st.fspace
  refine ⟨WF_SetNoBoundUpdate _ _ _ h.wf, ?_, ?_, ?_, ?_, h.y0, ?_, ?_, ?_⟩
  · simp only [c1, h.tl]
  · simp only [c2, h.bry]
  · simp only [c2]
    exact h.brx
  · have := h.x0
    simp only
    omega
  · intro hf
    cases hf
  · intro k hk
    simp only at hk ⊢
    rw [entries_SetNoBoundUpdate] at hk
    rw [c2]
    by_cases hq : k = ⟨st.x, st.y⟩
    · rw [hq]
      refine ⟨h.x0, h.y0, Or.inr ⟨rfl, ?_⟩⟩
      show st.x < st.x + 1
      omega
    · rw [if_neg hq] at hk
      have := h.keys k hk
      omega
  · intro k hk
    simp only at hk ⊢
    rw [entries_SetNoBoundUpdate] at hk
    rw [Get_SetNoBoundUpdate _ _ _ _ h.wf]
    by_cases hq : k = ⟨st.x, st.y⟩
    · rw [if_pos hq] at hk ⊢
      exact hk
    · rw [if_neg hq] at hk ⊢
      exact h.vals k hk

/-- The loop of `FungeSpaceLoad` over one line keeps the invariant, and at its
end the bottom right corner bounds the current row. -/
theorem loadLine_inv :
    ∀ (l : List Int) (st : LoadState), LoadInv st →
      LoadInv (loadLine l st)
        ∧ (loadLine l st).x ≤ (loadLine l st).fspace.bottomRightCorner.x := by
  apply text_induction
  · intro st h
    rw [load_nil]
    exact LoadInv_end st h
  · intro rest ih st h
    rw [load_crlf]
    exact ih _ (LoadInv_newline st h)
  · intro rest hh ih st h
    rw [load_cr _ _ hh]
    exact ih _ (LoadInv_newline st h)
  · intro rest ih st h
    rw [load_lf]
    exact ih _ (LoadInv_newline st h)
  · intro c rest h10 h13 ih st h
    by_cases h0 : c = 0
    · subst h0
      rw [load_nul]
      exact LoadInv_end st h
    · rw [load_char _ _ _ h0 h10 h13]
      exact ih _ (LoadInv_char c st h)

theorem loadLines_inv :
    ∀ (lines : List (List Int)) (st : LoadState), LoadInv st →
      st.x ≤ st.fspace.bottomRightCorner.x →
      LoadInv (lines.foldl (fun st line => loadLine line st) st)
        ∧ (lines.foldl (fun st line => loadLine line st) st).x
            ≤ (lines.foldl (fun st line => loadLine line st) st).fspace.bottomRightCorner.x := by
  intro lines
  induction lines with
  | nil => intro st h hx; exact ⟨h, hx⟩
  | cons l ls ih =>
    intro st h _
    obtain ⟨h1, h2⟩ := loadLine_inv l st h
    exact ih _ h1 h2

theorem LoadInv_start :
    LoadInv { fspace := FungeSpaceCreate, x := 0, y := 0, noendingnewline := true } := by
  refine ⟨WF_Create, rfl, rfl, le_refl _, le_refl _, le_refl _, ?_, ?_, ?_⟩
  · intro hf
    cases hf
  · intro k hk
    exact absurd rfl hk
  · intro k hk
    exact absurd rfl hk

/-- C24: after `FungeSpaceLoad` of any program text into a freshly created
space, every coordinate holding a cell other than the space satisfies
`FungeSpaceInRange`, the bounding rect has w ≥ 0 and h ≥ 0 and contains the
origin, and no key holds the space, so no space character of the file is
stored as a key. -/
theorem C24_load_bounds (file : List Int) :
    (∀ p, FungeSpaceGet (FungeSpaceLoad file FungeSpaceCreate) p ≠ 32 →
      FungeSpaceInRange (FungeSpaceLoad file FungeSpaceCreate) p = true)
    ∧ 0 ≤ (FungeSpaceGetBoundRect (FungeSpaceLoad file FungeSpaceCreate)).w
    ∧ 0 ≤ (FungeSpaceGetBoundRect (FungeSpaceLoad file FungeSpaceCreate)).h
    ∧ (FungeSpaceGetBoundRect (FungeSpaceLoad file FungeSpaceCreate)).contains ⟨0, 0⟩
    ∧ (∀ p, (FungeSpaceLoad file FungeSpaceCreate).entries p ≠ none →
        FungeSpaceGet (FungeSpaceLoad file FungeSpaceCreate) p ≠ 32) := by
  obtain ⟨hinv, hx⟩ := loadLines_inv (cf_getlines file) _ LoadInv_start (le_refl _)
  generalize hst : (cf_getlines file).foldl (fun st line => loadLine line st)
    { fspace := FungeSpaceCreate, x := 0, y := 0, noendingnewline := true } = st at hinv hx
  have hload : FungeSpaceLoad file FungeSpaceCreate
      = if st.fspace.bottomRightCorner.y < (if st.noendingnewline then st.y + 1 else st.y) then
          { st.fspace with
            bottomRightCorner :=
              { st.fspace.bottomRightCorner with
                y := if st.noendingnewline then st.y + 1 else st.y } }
        else st.fspace := by
    unfold FungeSpaceLoad
    simp only [hst]
  have hent : (FungeSpaceLoad file FungeSpaceCreate).entries = st.fspace.entries := by
    rw [hload]; split_ifs <;> rfl
  have hmem : (FungeSpaceLoad file FungeSpaceCreate).mem = st.fspace.mem := by
    rw [hload]; split_ifs <;> rfl
  have htl : (FungeSpaceLoad file FungeSpaceCreate).topLeftCorner = ⟨0, 0⟩ := by
    rw [hload]; split_ifs <;> exact hinv.tl
  have hbrx : (FungeSpaceLoad file FungeSpaceCreate).bottomRightCorner.x
      = st.fspace.bottomRightCorner.x := by
    rw [hload]; split_ifs <;> rfl
  have hbry : (FungeSpaceLoad file FungeSpaceCreate).bottomRightCorner.y
      = (if st.noendingnewline then st.y + 1 else st.y) := by
    rw [hload]
    have h1 := hinv.bry
    have h2 := hinv.y0
    split_ifs at * <;> (try simp only) <;> omega
  have hget : ∀ p, FungeSpaceGet (FungeSpaceLoad file FungeSpaceCreate) p
      = FungeSpaceGet st.fspace p := by
    intro p
    simp only [FungeSpaceGet, hent, hmem]
  have hkey : ∀ p, st.fspace.entries p ≠ none →
      FungeSpaceInRange (FungeSpaceLoad file FungeSpaceCreate) p = true := by
    intro p hp
    rw [InRange_iff, htl, hbrx, hbry]
    have hk := hinv.keys p hp
    have hnl := hinv.nl
    simp only
    cases hb : st.noendingnewline with
    | true =>
      simp only [if_true]
      omega
    | false =>
      have := hnl hb
      simp only [Bool.false_eq_true, if_false]
      omega
  refine ⟨?_, ?_, ?_, ?_, ?_⟩
  · intro p hp
    apply hkey
    intro hnone
    apply hp
    rw [hget]
    simp [FungeSpaceGet, ght_get, hnone]
  · simp only [FungeSpaceGetBoundRect, htl, hbrx]
    have := hinv.brx
    omega
  · simp only [FungeSpaceGetBoundRect, htl, hbry]
    have := hinv.y0
    split_ifs <;> omega
  · simp only [fungeRect.contains, FungeSpaceGetBoundRect, htl, hbrx, hbry]
    have := hinv.brx
    have := hinv.y0
    split_ifs <;> omega
  · intro p hp
    rw [hent] at hp
    rw [hget]
    exact hinv.vals p hp

/-- C24, witness: after loading `a b`, the cell (2,0) holds `b` and is in
range, and the position (1,0) of the space is not a key. -/
theorem C24_load_bounds_witness :
    FungeSpaceInRange (FungeSpaceLoad [97, 32, 98] FungeSpaceCreate) ⟨2, 0⟩ = true
    ∧ (FungeSpaceLoad [97, 32, 98] FungeSpaceCreate).entries ⟨1, 0⟩ = none :=
  ⟨(C24_load_bounds [97, 32, 98]).1 ⟨2, 0⟩ (by decide),
   by
    by_contra h
    exact (C24_load_bounds [97, 32, 98]).2.2.2.2 ⟨1, 0⟩ h (by decide)⟩

/-! ## Theorems: TOYS W (television antenna) -/

/-- What `FingerTOYStelevisionAntenna` does on a stack that holds the three
operands: in the branch `c < v` the vector pushed back is the one popped minus
the storage offset; in the branch `c = v` the operands are consumed and nothing
else changes; in the branch `c > v` the operands are consumed and the delta is
negated. -/
theorem televisionAntenna_cases (fspace : fungeSpace) (ip : instructionPointer)
    (vy vx v : Int) (rest : List Int) (hs : ip.stack = vy :: vx :: v :: rest) :
    (FungeSpaceGet fspace ⟨vx, vy⟩ < v →
      FingerTOYStelevisionAntenna fspace ip
        = ipForward fspace
            { ip with stack := (vy - ip.storageOffset.y) :: (vx - ip.storageOffset.x) :: v :: rest }
            (-1))
    ∧ (FungeSpaceGet fspace ⟨vx, vy⟩ = v →
      FingerTOYStelevisionAntenna fspace ip = { ip with stack := rest })
    ∧ (FungeSpaceGet fspace ⟨vx, vy⟩ > v →
      FingerTOYStelevisionAntenna fspace ip
        = { ip with stack := rest, delta := ⟨-ip.delta.x, -ip.delta.y⟩ }) := by
  refine ⟨?_, ?_, ?_⟩
  · intro h
    simp only [FingerTOYStelevisionAntenna, StackPopVector, StackPop, StackPush,
      StackPushVector, hs, if_pos h]
  · intro h
    have h1 : ¬ FungeSpaceGet fspace ⟨vx, vy⟩ < v := by omega
    have h2 : ¬ FungeSpaceGet fspace ⟨vx, vy⟩ > v := by omega
    simp only [FingerTOYStelevisionAntenna, StackPopVector, StackPop, hs, if_neg h1, if_neg h2]
  · intro h
    have h1 : ¬ FungeSpaceGet fspace ⟨vx, vy⟩ < v := by omega
    simp only [FingerTOYStelevisionAntenna, StackPopVector, StackPop, hs, if_neg h1, if_pos h,
      ipReverse]

/-- C25, the code at the failing input: the space holds `x` at (9,0) and nothing
else, the instruction pointer stands at (3,0) with delta (1,0), storage offset
(1,0) and the stack 0, 5, 40, 7 (top first), so the vector popped is (5,0), the
value is 40 and the cell at (5,0) is the space, 32 < 40. The stack afterwards
is 0, 4, 40, 7: the vector pushed back is (4,0), not (5,0). The position is
moved back to (2,0). -/
theorem C25_television_antenna_offset :
    (FingerTOYStelevisionAntenna (FungeSpaceSet 120 ⟨9, 0⟩ FungeSpaceCreate)
        ⟨[0, 5, 40, 7], ⟨3, 0⟩, ⟨1, 0⟩, ⟨1, 0⟩⟩).stack = [0, 4, 40, 7]
    ∧ (FingerTOYStelevisionAntenna (FungeSpaceSet 120 ⟨9, 0⟩ FungeSpaceCreate)
        ⟨[0, 5, 40, 7], ⟨3, 0⟩, ⟨1, 0⟩, ⟨1, 0⟩⟩).position = ⟨2, 0⟩ := by
  decide

/-! ## Theorems: TOYS L (corner) -/

theorem corner_fields (fspace : fungeSpace) (ip : instructionPointer) :
    (FingerTOYScorner fspace ip).delta = ip.delta
      ∧ (FingerTOYScorner fspace ip).storageOffset = ip.storageOffset
      ∧ (FingerTOYScorner fspace ip).stack
          = StackPush ip.stack
              (FungeSpaceGet fspace (ipForward fspace (ipTurnLeft ip) 1).position) := by
  refine ⟨?_, rfl, rfl⟩
  simp only [FingerTOYScorner, ipTurnRight, ipForward, ipTurnLeft, neg_neg]

/-- C28, the code at the failing input: the space holds `x` at (5,5) and
nothing else, so the bounding rect is (0,0)-(5,5); the instruction pointer
stands at (5,0), in the top right corner, with delta (1,0) and an empty stack.
The delta turned left is (0,-1) and the cell to the left, (5,-1), is outside
the rect. After `L` the position is (0,0), not (5,0), and the cell pushed is
the space at (0,5), not the `x` at (5,5). A second input, with the delta (2,0)
at (3,0): the position afterwards is (3,6), outside the rect. -/
theorem C28_corner_at_edge :
    FungeSpaceInRange (FungeSpaceSet 120 ⟨5, 5⟩ FungeSpaceCreate) ⟨5, 0⟩ = true
    ∧ FingerTOYScorner (FungeSpaceSet 120 ⟨5, 5⟩ FungeSpaceCreate)
        ⟨[], ⟨5, 0⟩, ⟨1, 0⟩, ⟨0, 0⟩⟩ = ⟨[32], ⟨0, 0⟩, ⟨1, 0⟩, ⟨0, 0⟩⟩
    ∧ FungeSpaceInRange (FungeSpaceSet 120 ⟨5, 5⟩ FungeSpaceCreate) ⟨3, 0⟩ = true
    ∧ (FingerTOYScorner (FungeSpaceSet 120 ⟨5, 5⟩ FungeSpaceCreate)
        ⟨[], ⟨3, 0⟩, ⟨2, 0⟩, ⟨0, 0⟩⟩).position = ⟨3, 6⟩ := by
  decide

/-- A cardinal step out of the rect and back: with the coordinate across the
step below that of the bottom right corner, `wrapCardinal` after the step, then
the step back and `wrapCardinal` again give the position of the start. -/
theorem wrapCardinal_back (s : fungeSpace) (px py ex ey : Int)
    (hin : FungeSpaceInRange s ⟨px, py⟩ = true)
    (hout : ¬ FungeSpaceInRange s ⟨px + ex, py + ey⟩ = true)
    (hcard : (ex = 0 ∧ (ey = 1 ∨ ey = -1) ∧ px < s.bottomRightCorner.x)
        ∨ (ey = 0 ∧ (ex = 1 ∨ ex = -1) ∧ py < s.bottomRightCorner.y)) :
    FungeSpaceInRange s
        ⟨(wrapCardinal s ⟨px + ex, py + ey⟩).x - ex,
         (wrapCardinal s ⟨px + ex, py + ey⟩).y - ey⟩ = false
    ∧ wrapCardinal s
        ⟨(wrapCardinal s ⟨px + ex, py + ey⟩).x - ex,
         (wrapCardinal s ⟨px + ex, py + ey⟩).y - ey⟩ = ⟨px, py⟩ := by
  rw [InRange_iff] at hin hout
  simp only at hin hout
  have hwx : (wrapCardinal s ⟨px + ex, py + ey⟩).x
      = if px + ex < s.topLeftCorner.x then s.bottomRightCorner.x
        else if px + ex ≥ s.bottomRightCorner.x then s.topLeftCorner.x else px + ex := rfl
  have hwy : (wrapCardinal s ⟨px + ex, py + ey⟩).y
      = if py + ey < s.topLeftCorner.y then s.bottomRightCorner.y
        else if py + ey ≥ s.bottomRightCorner.y then s.topLeftCorner.y else py + ey := rfl
  generalize (wrapCardinal s ⟨px + ex, py + ey⟩).x = wx at hwx
  generalize (wrapCardinal s ⟨px + ex, py + ey⟩).y = wy at hwy
  have hx1 : wx - ex < s.topLeftCorner.x ∨ wx - ex > s.bottomRightCorner.x
      ∨ wy - ey < s.topLeftCorner.y ∨ wy - ey > s.bottomRightCorner.y := by
    split_ifs at hwx hwy <;> omega
  have hx2 : (if wx - ex < s.topLeftCorner.x then s.bottomRightCorner.x
        else if wx - ex ≥ s.bottomRightCorner.x then s.topLeftCorner.x else wx - ex) = px := by
    split_ifs at hwx hwy ⊢ <;> omega
  have hy2 : (if wy - ey < s.topLeftCorner.y then s.bottomRightCorner.y
        else if wy - ey ≥ s.bottomRightCorner.y then s.topLeftCorner.y else wy - ey) = py := by
    split_ifs at hwx hwy ⊢ <;> omega
  constructor
  · rw [Bool.eq_false_iff, Ne, InRange_iff]
    simp only
    omega
  · simp only [wrapCardinal, hx2, hy2]

theorem corner_position (fspace : fungeSpace) (ip : instructionPointer)
    (hin : FungeSpaceInRange fspace ip.position = true)
    (h : FungeSpaceInRange fspace
            ⟨ip.position.x + ip.delta.y, ip.position.y - ip.delta.x⟩ = true
          ∨ (VectorIsCardinal ip.delta = true
              ∧ (ip.delta.y = 0 → ip.position.x < fspace.bottomRightCorner.x)
              ∧ (ip.delta.x = 0 → ip.position.y < fspace.bottomRightCorner.y))) :
    (FingerTOYScorner fspace ip).position = ip.position := by
  obtain ⟨stack, ⟨px, py⟩, ⟨dx, dy⟩, so⟩ := ip
  rw [InRange_iff] at hin
  simp only at hin h
  by_cases hq : FungeSpaceInRange fspace ⟨px + dy, py - dx⟩ = true
  · have hq2 := hq
    rw [InRange_iff] at hq2
    simp only at hq2
    have e1 : (⟨px + dy * 1, py + -dx * 1⟩ : fungePosition) = ⟨px + dy, py - dx⟩ := by
      congr 1 <;> omega
    have e2 : (⟨px + dy + dy * -1, py - dx + -dx * -1⟩ : fungePosition) = ⟨px, py⟩ := by
      congr 1 <;> omega
    have hp : FungeSpaceInRange fspace ⟨px, py⟩ = true := by
      rw [InRange_iff]
      exact hin
    simp only [FingerTOYScorner, ipTurnRight, ipForward, ipTurnLeft, e1, hq, if_true, e2, hp]
  · rcases h with h | ⟨hc, hx, hy⟩
    · exact absurd h hq
    · have hq2 := hq
      rw [InRange_iff] at hq2
      simp only at hq2
      have e1 : (⟨px + dy * 1, py + -dx * 1⟩ : fungePosition) = ⟨px + dy, py - dx⟩ := by
        congr 1 <;> omega
      have hc2 : VectorIsCardinal ⟨dy, -dx⟩ = true := by
        simp only [VectorIsCardinal, decide_eq_true_eq] at hc ⊢
        omega
      simp only [VectorIsCardinal, decide_eq_true_eq] at hc
      have hp : FungeSpaceInRange fspace ⟨px, py⟩ = true := by
        rw [InRange_iff]
        exact hin
      have hcard : (dy = 0 ∧ (-dx = 1 ∨ -dx = -1) ∧ px < fspace.bottomRightCorner.x)
          ∨ (-dx = 0 ∧ (dy = 1 ∨ dy = -1) ∧ py < fspace.bottomRightCorner.y) := by
        rcases hc with ⟨h1, h2⟩ | ⟨h1, h2⟩
        · exact Or.inl ⟨h2, by omega, hx h2⟩
        · exact Or.inr ⟨by omega, h2, hy h1⟩
      have hq3 : ¬ FungeSpaceInRange fspace ⟨px + dy, py + -dx⟩ = true := by
        rw [show py + -dx = py - dx by omega]
        exact hq
      obtain ⟨b1, b2⟩ := wrapCardinal_back fspace px py dy (-dx) hp hq3 hcard
      rw [show py + -dx = py - dx by omega] at b1 b2
      have e3 : ∀ w : fungePosition,
          (⟨w.x + dy * -1, w.y + -dx * -1⟩ : fungePosition) = ⟨w.x - dy, w.y - -dx⟩ := by
        intro w
        congr 1 <;> omega
      simp only [FingerTOYScorner, ipTurnRight, ipForward, ipTurnLeft, e1, hq,
        FungeSpaceWrap, hc2, if_true, e3, b1, b2, Bool.false_eq_true, if_false]

/-- Where `FingerTOYScorner` does restore the instruction pointer: it leaves the
delta and the storage offset as they were and pushes the cell one step to the
left, for every instruction pointer; it leaves the position as it was when the
instruction pointer stands inside the bounding rect and either the cell to its
left is inside the rect too, or the delta is cardinal and the coordinate along
the delta is less than that of the bottom right corner. -/
theorem corner_restores (fspace : fungeSpace) (ip : instructionPointer)
    (hin : FungeSpaceInRange fspace ip.position = true)
    (h : FungeSpaceInRange fspace
            ⟨ip.position.x + ip.delta.y, ip.position.y - ip.delta.x⟩ = true
          ∨ (VectorIsCardinal ip.delta = true
              ∧ (ip.delta.y = 0 → ip.position.x < fspace.bottomRightCorner.x)
              ∧ (ip.delta.x = 0 → ip.position.y < fspace.bottomRightCorner.y))) :
    FingerTOYScorner fspace ip
      = { ip with
          stack := StackPush ip.stack
            (FungeSpaceGet fspace (ipForward fspace (ipTurnLeft ip) 1).position) } := by
  obtain ⟨e1, e2, e3⟩ := corner_fields fspace ip
  have e4 := corner_position fspace ip hin h
  generalize FingerTOYScorner fspace ip = r at e1 e2 e3 e4
  obtain ⟨rs, rp, rd, ro⟩ := r
  simp only at e1 e2 e3 e4
  subst e1 e2 e3 e4
  rfl

/-- An instance of `corner_restores`: the instruction pointer at (3,0) on the
top edge of the rect (0,0)-(5,5), delta (1,0): the step to the left wraps to
(3,5), whose cell is the space, and the position and the delta are restored. -/
theorem corner_restores_at_top_edge :
    FingerTOYScorner (FungeSpaceSet 120 ⟨5, 5⟩ FungeSpaceCreate)
        ⟨[7], ⟨3, 0⟩, ⟨1, 0⟩, ⟨0, 0⟩⟩
      = ⟨[32, 7], ⟨3, 0⟩, ⟨1, 0⟩, ⟨0, 0⟩⟩ :=
  (corner_restores (FungeSpaceSet 120 ⟨5, 5⟩ FungeSpaceCreate) ⟨[7], ⟨3, 0⟩, ⟨1, 0⟩, ⟨0, 0⟩⟩
    (by decide) (Or.inr (by decide))).trans (by decide)

/-! ## Theorems: TOYS O (boulder) -/

theorem boulderUp_spec (y n : Int) (hn : n < 0) :
    ∀ (k : Nat) (x0 : Int) (s : fungeSpace), WF s →
      WF (boulderUp y n k x0 s)
      ∧ (∀ x, x0 ≤ x → x < x0 + k →
          FungeSpaceGet (boulderUp y n k x0 s) ⟨x + n, y⟩ = FungeSpaceGet s ⟨x, y⟩)
      ∧ (∀ p : fungePosition, (p.y ≠ y ∨ p.x < x0 + n ∨ x0 + k + n ≤ p.x) →
          FungeSpaceGet (boulderUp y n k x0 s) p = FungeSpaceGet s p) := by
  intro k
  induction k with
  | zero =>
    intro x0 s hwf
    refine ⟨hwf, ?_, ?_⟩
    · intro x h1 h2
      simp only [Nat.cast_zero, add_zero] at h2
      omega
    · intro p _
      rfl
  | succ k ih =>
    intro x0 s hwf
    rw [boulderUp]
    have hwf1 := WF_Set (FungeSpaceGet s ⟨x0, y⟩) ⟨x0 + n, y⟩ s hwf
    obtain ⟨i1, i2, i3⟩ := ih (x0 + 1) _ hwf1
    refine ⟨i1, ?_, ?_⟩
    · intro x h1 h2
      simp only [Nat.cast_add, Nat.cast_one] at h2
      by_cases hx : x = x0
      · subst hx
        rw [i3 ⟨x + n, y⟩ (Or.inr (Or.inl (by simp only; omega)))]
        rw [Get_Set _ _ _ _ hwf, if_pos rfl]
      · rw [i2 x (by omega) (by omega)]
        rw [Get_Set _ _ _ _ hwf, if_neg]
        intro he
        have := congrArg fungeVector.x he
        simp only at this
        omega
    · intro p hp
      simp only [Nat.cast_add, Nat.cast_one] at hp
      rw [i3 p (by omega)]
      rw [Get_Set _ _ _ _ hwf, if_neg]
      intro he
      subst he
      simp only at hp
      omega

theorem boulderDown_spec (y n : Int) (hn : 0 < n) :
    ∀ (k : Nat) (x0 : Int) (s : fungeSpace), WF s →
      WF (boulderDown y n k x0 s)
      ∧ (∀ x, x0 - k < x → x ≤ x0 →
          FungeSpaceGet (boulderDown y n k x0 s) ⟨x + n, y⟩ = FungeSpaceGet s ⟨x, y⟩)
      ∧ (∀ p : fungePosition, (p.y ≠ y ∨ p.x ≤ x0 - k + n ∨ x0 + n < p.x) →
          FungeSpaceGet (boulderDown y n k x0 s) p = FungeSpaceGet s p) := by
  intro k
  induction k with
  | zero =>
    intro x0 s hwf
    refine ⟨hwf, ?_, ?_⟩
    · intro x h1 h2
      simp only [Nat.cast_zero, sub_zero] at h1
      omega
    · intro p _
      rfl
  | succ k ih =>
    intro x0 s hwf
    rw [boulderDown]
    have hwf1 := WF_Set (FungeSpaceGet s ⟨x0, y⟩) ⟨x0 + n, y⟩ s hwf
    obtain ⟨i1, i2, i3⟩ := ih (x0 - 1) _ hwf1
    refine ⟨i1, ?_, ?_⟩
    · intro x h1 h2
      simp only [Nat.cast_add, Nat.cast_one] at h1
      by_cases hx : x = x0
      · subst hx
        rw [i3 ⟨x + n, y⟩ (Or.inr (Or.inr (by simp only; omega)))]
        rw [Get_Set _ _ _ _ hwf, if_pos rfl]
      · rw [i2 x (by omega) (by omega)]
        rw [Get_Set _ _ _ _ hwf, if_neg]
        intro he
        have := congrArg fungeVector.x he
        simp only at this
        omega
    · intro p hp
      simp only [Nat.cast_add, Nat.cast_one] at hp
      rw [i3 p (by omega)]
      rw [Get_Set _ _ _ _ hwf, if_neg]
      intro he
      subst he
      simp only at hp
      omega

/-- C27: `FingerTOYSboulder` with a popped `n ≠ 0`, on a well-formed space with
the bounding rect (bx, bw) read before the instruction: afterwards, for every
x with bx ≤ x ≤ bx + bw, the cell at (x + n, ip.y) holds the value that the
cell at (x, ip.y) held before, and no cell outside row ip.y changes. -/
theorem C27_boulder_shift (fspace : fungeSpace) (ip : instructionPointer)
    (hwf : WF fspace) (hn : (StackPop ip.stack).1 ≠ 0) :
    (∀ x, (FungeSpaceGetBoundRect fspace).x ≤ x →
        x ≤ (FungeSpaceGetBoundRect fspace).x + (FungeSpaceGetBoundRect fspace).w →
        FungeSpaceGet (FingerTOYSboulder fspace ip).2
            ⟨x + (StackPop ip.stack).1, ip.position.y⟩
          = FungeSpaceGet fspace ⟨x, ip.position.y⟩)
    ∧ (∀ p : fungePosition, p.y ≠ ip.position.y →
        FungeSpaceGet (FingerTOYSboulder fspace ip).2 p = FungeSpaceGet fspace p) := by
  generalize hb : FungeSpaceGetBoundRect fspace = bounds
  generalize hnn : (StackPop ip.stack).1 = n at hn
  by_cases hneg : n < 0
  · have e : (FingerTOYSboulder fspace ip).2
        = boulderUp ip.position.y n (bounds.w + 1).toNat bounds.x fspace := by
      simp only [FingerTOYSboulder, hb, hnn, if_neg hn, if_pos hneg]
    rw [e]
    obtain ⟨_, i2, i3⟩ := boulderUp_spec ip.position.y n hneg (bounds.w + 1).toNat bounds.x
      fspace hwf
    refine ⟨?_, ?_⟩
    · intro x h1 h2
      apply i2 x h1
      omega
    · intro p hp
      exact i3 p (Or.inl hp)
  · have hpos : 0 < n := by omega
    have e : (FingerTOYSboulder fspace ip).2
        = boulderDown ip.position.y n (bounds.w + 1).toNat (bounds.x + bounds.w) fspace := by
      simp only [FingerTOYSboulder, hb, hnn, if_neg hn, if_neg hneg]
    rw [e]
    obtain ⟨_, i2, i3⟩ := boulderDown_spec ip.position.y n hpos (bounds.w + 1).toNat
      (bounds.x + bounds.w) fspace hwf
    refine ⟨?_, ?_⟩
    · intro x h1 h2
      apply i2 x _ h2
      omega
    · intro p hp
      exact i3 p (Or.inl hp)

/-- C27, witness: the row `ab` with the instruction pointer in row 0 and 1 on
the stack: afterwards (1,0) holds `a` and (2,0) holds `b`. -/
theorem C27_boulder_shift_witness :
    FungeSpaceGet (FingerTOYSboulder (FungeSpaceSet 98 ⟨1, 0⟩ (FungeSpaceSet 97 ⟨0, 0⟩
        FungeSpaceCreate)) ⟨[1], ⟨0, 0⟩, ⟨1, 0⟩, ⟨0, 0⟩⟩).2 ⟨1, 0⟩ = 97
    ∧ FungeSpaceGet (FingerTOYSboulder (FungeSpaceSet 98 ⟨1, 0⟩ (FungeSpaceSet 97 ⟨0, 0⟩
        FungeSpaceCreate)) ⟨[1], ⟨0, 0⟩, ⟨1, 0⟩, ⟨0, 0⟩⟩).2 ⟨2, 0⟩ = 98 :=
  ⟨((C27_boulder_shift (FungeSpaceSet 98 ⟨1, 0⟩ (FungeSpaceSet 97 ⟨0, 0⟩ FungeSpaceCreate))
      ⟨[1], ⟨0, 0⟩, ⟨1, 0⟩, ⟨0, 0⟩⟩ (WF_Set _ _ _ (WF_Set _ _ _ WF_Create)) (by decide)).1 0
      (by decide) (by decide)).trans (by decide),
   ((C27_boulder_shift (FungeSpaceSet 98 ⟨1, 0⟩ (FungeSpaceSet 97 ⟨0, 0⟩ FungeSpaceCreate))
      ⟨[1], ⟨0, 0⟩, ⟨1, 0⟩, ⟨0, 0⟩⟩ (WF_Set _ _ _ (WF_Set _ _ _ WF_Create)) (by decide)).1 1
      (by decide) (by decide)).trans (by decide)⟩

/-! ## Theorems: TOYS G (counterclockwise) and F (calipers) -/

/-- The inner loop of G leaves the cell at `ox` on top. -/
theorem counterclockwiseRow_succ (fspace : fungeSpace) (y : Int) :
    ∀ (k : Nat) (ox : Int) (stack : List Int),
      counterclockwiseRow fspace ox y (k + 1) stack
        = FungeSpaceGet fspace ⟨ox, y⟩ :: counterclockwiseRow fspace (ox + 1) y k stack := by
  intro k
  induction k with
  | zero =>
    intro ox stack
    simp [counterclockwiseRow, StackPush]
  | succ k ih =>
    intro ox stack
    rw [counterclockwiseRow, ih]
    have e : ox + 1 + (k : Int) = ox + ((k + 1 : Nat) : Int) := by
      push_cast
      omega
    conv_rhs => rw [counterclockwiseRow, e]

/-- The outer loop of G leaves the row `oy` on top. -/
theorem counterclockwiseRows_succ (fspace : fungeSpace) (ox : Int) (i : Nat) :
    ∀ (k : Nat) (oy : Int) (stack : List Int),
      counterclockwiseRows fspace ox oy i (k + 1) stack
        = counterclockwiseRow fspace ox oy i
            (counterclockwiseRows fspace ox (oy + 1) i k stack) := by
  intro k
  induction k with
  | zero =>
    intro oy stack
    simp [counterclockwiseRows]
  | succ k ih =>
    intro oy stack
    rw [counterclockwiseRows, ih]
    have e : oy + 1 + (k : Int) = oy + ((k + 1 : Nat) : Int) := by
      push_cast
      omega
    conv_rhs => rw [counterclockwiseRows, e]

/-- The inner loop of F on what the inner loop of G pushed: the stack below is
left, and the space reads as `s0` did when it did so before. -/
theorem calipersRow_restore (s0 : fungeSpace) (y : Int) :
    ∀ (k : Nat) (x : Int) (stack : List Int) (s : fungeSpace), WF s →
      (∀ p, FungeSpaceGet s p = FungeSpaceGet s0 p) →
      (calipersRow y k x (counterclockwiseRow s0 x y k stack, s)).1 = stack
      ∧ WF (calipersRow y k x (counterclockwiseRow s0 x y k stack, s)).2
      ∧ (∀ p, FungeSpaceGet (calipersRow y k x (counterclockwiseRow s0 x y k stack, s)).2 p
            = FungeSpaceGet s0 p) := by
  intro k
  induction k with
  | zero =>
    intro x stack s hwf hs
    exact ⟨rfl, hwf, hs⟩
  | succ k ih =>
    intro x stack s hwf hs
    rw [counterclockwiseRow_succ, calipersRow]
    simp only [StackPop]
    apply ih (x + 1) stack _ (WF_Set _ _ _ hwf)
    intro p
    rw [Get_Set _ _ _ _ hwf]
    split_ifs with hp
    · rw [hp]
    · exact hs p

/-- The outer loop of F on what the outer loop of G pushed. -/
theorem calipersRows_restore (s0 : fungeSpace) (ox : Int) (i : Nat) :
    ∀ (k : Nat) (y : Int) (stack : List Int) (s : fungeSpace), WF s →
      (∀ p, FungeSpaceGet s p = FungeSpaceGet s0 p) →
      (calipersRows ox i k y (counterclockwiseRows s0 ox y i k stack, s)).1 = stack
      ∧ WF (calipersRows ox i k y (counterclockwiseRows s0 ox y i k stack, s)).2
      ∧ (∀ p, FungeSpaceGet
            (calipersRows ox i k y (counterclockwiseRows s0 ox y i k stack, s)).2 p
            = FungeSpaceGet s0 p) := by
  intro k
  induction k with
  | zero =>
    intro y stack s hwf hs
    exact ⟨rfl, hwf, hs⟩
  | succ k ih =>
    intro y stack s hwf hs
    rw [counterclockwiseRows_succ, calipersRows]
    obtain ⟨r1, r2, r3⟩ := calipersRow_restore s0 y i ox
      (counterclockwiseRows s0 ox (y + 1) i k stack) s hwf hs
    have e : calipersRow y i ox
        (counterclockwiseRow s0 ox y i (counterclockwiseRows s0 ox (y + 1) i k stack), s)
        = (counterclockwiseRows s0 ox (y + 1) i k stack,
           (calipersRow y i ox
            (counterclockwiseRow s0 ox y i (counterclockwiseRows s0 ox (y + 1) i k stack),
             s)).2) :=
      Prod.ext r1 rfl
    rw [e]
    exact ih (y + 1) stack _ r2 r3

/-- C26: G and F are inverse. On a well-formed space, for every i, j, origin o
and stack `rest` below the operands: G with the operands i, j, o, then i, j, o
pushed again and F, leaves every cell of the Funge-space with its value and the
stack equal to `rest`; position, delta and storage offset are untouched. -/
theorem C26_counterclockwise_calipers (fspace : fungeSpace) (ip : instructionPointer)
    (i j : Int) (o : fungeVector) (rest : List Int) (hwf : WF fspace)
    (hs : ip.stack = StackPushVector (StackPush (StackPush rest i) j) o) :
    (∀ p, FungeSpaceGet
        (FingerTOYScalipers fspace
          { FingerTOYScounterclockwise fspace ip with
            stack := StackPushVector
              (StackPush (StackPush (FingerTOYScounterclockwise fspace ip).stack i) j) o }).2 p
        = FungeSpaceGet fspace p)
    ∧ (FingerTOYScalipers fspace
          { FingerTOYScounterclockwise fspace ip with
            stack := StackPushVector
              (StackPush (StackPush (FingerTOYScounterclockwise fspace ip).stack i) j) o }).1
        = { ip with stack := rest } := by
  obtain ⟨r1, _, r3⟩ := calipersRows_restore fspace o.x i.toNat j.toNat o.y rest fspace hwf
    (fun _ => rfl)
  have eG : FingerTOYScounterclockwise fspace ip
      = { ip with stack := counterclockwiseRows fspace o.x o.y i.toNat j.toNat rest } := by
    simp only [FingerTOYScounterclockwise, hs, StackPopVector, StackPushVector, StackPush,
      StackPop]
  rw [eG]
  simp only [FingerTOYScalipers, StackPopVector, StackPushVector, StackPush, StackPop]
  exact ⟨r3, by rw [r1]⟩

/-- C26, witness: the block of width 2 and height 1 at (0,0) of the row `ab`,
with 7 below the operands: after G, the operands again and F, the cell (1,0)
still holds `b` and the stack is 7. -/
theorem C26_counterclockwise_calipers_witness :
    FungeSpaceGet
        (FingerTOYScalipers (FungeSpaceSet 98 ⟨1, 0⟩ (FungeSpaceSet 97 ⟨0, 0⟩ FungeSpaceCreate))
          { FingerTOYScounterclockwise
              (FungeSpaceSet 98 ⟨1, 0⟩ (FungeSpaceSet 97 ⟨0, 0⟩ FungeSpaceCreate))
              ⟨[0, 0, 1, 2, 7], ⟨0, 0⟩, ⟨1, 0⟩, ⟨0, 0⟩⟩ with
            stack := StackPushVector
              (StackPush (StackPush (FingerTOYScounterclockwise
                (FungeSpaceSet 98 ⟨1, 0⟩ (FungeSpaceSet 97 ⟨0, 0⟩ FungeSpaceCreate))
                ⟨[0, 0, 1, 2, 7], ⟨0, 0⟩, ⟨1, 0⟩, ⟨0, 0⟩⟩).stack 2) 1) ⟨0, 0⟩ }).2 ⟨1, 0⟩
      = 98
    ∧ (FingerTOYScalipers (FungeSpaceSet 98 ⟨1, 0⟩ (FungeSpaceSet 97 ⟨0, 0⟩ FungeSpaceCreate))
          { FingerTOYScounterclockwise
              (FungeSpaceSet 98 ⟨1, 0⟩ (FungeSpaceSet 97 ⟨0, 0⟩ FungeSpaceCreate))
              ⟨[0, 0, 1, 2, 7], ⟨0, 0⟩, ⟨1, 0⟩, ⟨0, 0⟩⟩ with
            stack := StackPushVector
              (StackPush (StackPush (FingerTOYScounterclockwise
                (FungeSpaceSet 98 ⟨1, 0⟩ (FungeSpaceSet 97 ⟨0, 0⟩ FungeSpaceCreate))
                ⟨[0, 0, 1, 2, 7], ⟨0, 0⟩, ⟨1, 0⟩, ⟨0, 0⟩⟩).stack 2) 1) ⟨0, 0⟩ }).1
      = ⟨[7], ⟨0, 0⟩, ⟨1, 0⟩, ⟨0, 0⟩⟩ :=
  ⟨((C26_counterclockwise_calipers
      (FungeSpaceSet 98 ⟨1, 0⟩ (FungeSpaceSet 97 ⟨0, 0⟩ FungeSpaceCreate))
      ⟨[0, 0, 1, 2, 7], ⟨0, 0⟩, ⟨1, 0⟩, ⟨0, 0⟩⟩ 2 1 ⟨0, 0⟩ [7]
      (WF_Set _ _ _ (WF_Set _ _ _ WF_Create)) rfl).1 ⟨1, 0⟩).trans (by decide),
   (C26_counterclockwise_calipers
      (FungeSpaceSet 98 ⟨1, 0⟩ (FungeSpaceSet 97 ⟨0, 0⟩ FungeSpaceCreate))
      ⟨[0, 0, 1, 2, 7], ⟨0, 0⟩, ⟨1, 0⟩, ⟨0, 0⟩⟩ 2 1 ⟨0, 0⟩ [7]
      (WF_Set _ _ _ (WF_Set _ _ _ WF_Create)) rfl).2⟩

/-! ## Theorems: TOYS C (bracelet) and K (scissors) -/

theorem copyList_append (o t : fungeVector) (a b : List (Int × Int)) (s : fungeSpace) :
    copyList o t (a ++ b) s = copyList o t b (copyList o t a s) := by
  simp [copyList, List.foldl_append]

theorem braceletCol_list (o t : fungeVector) (x : Int) :
    ∀ (k : Nat) (y : Int) (s : fungeSpace),
      braceletCol o t x k y s = copyList o t (colUp x k y) s := by
  intro k
  induction k with
  | zero => intro y s; rfl
  | succ k ih =>
    intro y s
    rw [braceletCol, ih]
    rfl

theorem braceletCols_list (o t : fungeVector) (dy : Nat) :
    ∀ (k : Nat) (x : Int) (s : fungeSpace),
      braceletCols o t dy k x s = copyList o t (colsUp dy k x) s := by
  intro k
  induction k with
  | zero => intro x s; rfl
  | succ k ih =>
    intro x s
    rw [braceletCols, ih, colsUp, copyList_append, braceletCol_list]

theorem scissorsCol_list (o t : fungeVector) (x : Int) :
    ∀ (k : Nat) (s : fungeSpace),
      scissorsCol o t x k s = copyList o t (colDown x k) s := by
  intro k
  induction k with
  | zero => intro s; rfl
  | succ k ih =>
    intro s
    rw [scissorsCol, ih]
    rfl

theorem scissorsCols_list (o t : fungeVector) (dy : Nat) :
    ∀ (k : Nat) (s : fungeSpace),
      scissorsCols o t dy k s = copyList o t (colsDown dy k) s := by
  intro k
  induction k with
  | zero => intro s; rfl
  | succ k ih =>
    intro s
    rw [scissorsCols, ih, colsDown, copyList_append, scissorsCol_list]

theorem mem_colUp (x : Int) :
    ∀ (k : Nat) (y a b : Int), (a, b) ∈ colUp x k y ↔ a = x ∧ y ≤ b ∧ b < y + k := by
  intro k
  induction k with
  | zero =>
    intro y a b
    simp only [colUp, List.not_mem_nil, Nat.cast_zero, add_zero, false_iff]
    omega
  | succ k ih =>
    intro y a b
    simp only [colUp, List.mem_cons, Prod.mk.injEq, ih, Nat.cast_add, Nat.cast_one]
    omega

theorem mem_colsUp (dy : Nat) :
    ∀ (k : Nat) (x a b : Int),
      (a, b) ∈ colsUp dy k x ↔ x ≤ a ∧ a < x + k ∧ 0 ≤ b ∧ b < dy := by
  intro k
  induction k with
  | zero =>
    intro x a b
    simp only [colsUp, List.not_mem_nil, Nat.cast_zero, add_zero, false_iff]
    omega
  | succ k ih =>
    intro x a b
    simp only [colsUp, List.mem_append, mem_colUp, ih, Nat.cast_add, Nat.cast_one]
    omega

theorem mem_colDown (x : Int) :
    ∀ (k : Nat) (a b : Int), (a, b) ∈ colDown x k ↔ a = x ∧ 0 ≤ b ∧ b < k := by
  intro k
  induction k with
  | zero =>
    intro a b
    simp only [colDown, List.not_mem_nil, Nat.cast_zero, false_iff]
    omega
  | succ k ih =>
    intro a b
    simp only [colDown, List.mem_cons, Prod.mk.injEq, ih, Nat.cast_add, Nat.cast_one]
    omega

theorem mem_colsDown (dy : Nat) :
    ∀ (k : Nat) (a b : Int),
      (a, b) ∈ colsDown dy k ↔ 0 ≤ a ∧ a < k ∧ 0 ≤ b ∧ b < dy := by
  intro k
  induction k with
  | zero =>
    intro a b
    simp only [colsDown, List.not_mem_nil, Nat.cast_zero, false_iff]
    omega
  | succ k ih =>
    intro a b
    simp only [colsDown, List.mem_append, mem_colDown, ih, Nat.cast_add, Nat.cast_one]
    omega

theorem copyCell_eq (o t : fungeVector) (x y : Int) (s : fungeSpace) :
    copyCell o t x y s
      = FungeSpaceSet (FungeSpaceGet s ⟨x + o.x, y + o.y⟩) ⟨x + t.x, y + t.y⟩ s := rfl

theorem copyList_cons (o t : fungeVector) (a : Int × Int) (l : List (Int × Int))
    (s : fungeSpace) :
    copyList o t (a :: l) s = copyList o t l (copyCell o t a.1 a.2 s) := rfl

/-- The cells after `copyList`, when no source read is a target written: the
target of a pair of the list holds what its source held at the start, every
other cell is as it was. -/
theorem copyList_get (o t : fungeVector) :
    ∀ (l : List (Int × Int)) (s : fungeSpace), WF s →
      (∀ a ∈ l, ∀ b ∈ l, ¬ (b.1 + o.x = a.1 + t.x ∧ b.2 + o.y = a.2 + t.y)) →
      WF (copyList o t l s)
      ∧ ∀ q : fungePosition, FungeSpaceGet (copyList o t l s) q
          = if (q.x - t.x, q.y - t.y) ∈ l then
              FungeSpaceGet s ⟨q.x - t.x + o.x, q.y - t.y + o.y⟩
            else FungeSpaceGet s q := by
  intro l
  induction l with
  | nil =>
    intro s hwf _
    refine ⟨hwf, ?_⟩
    intro q
    simp [copyList]
  | cons a l ih =>
    intro s hwf hdis
    rw [copyList_cons, copyCell_eq]
    have hwf1 := WF_Set (FungeSpaceGet s ⟨a.1 + o.x, a.2 + o.y⟩) ⟨a.1 + t.x, a.2 + t.y⟩ s hwf
    obtain ⟨i1, i2⟩ := ih _ hwf1
      (fun c hc b hb => hdis c (List.mem_cons_of_mem _ hc) b (List.mem_cons_of_mem _ hb))
    refine ⟨i1, ?_⟩
    intro q
    rw [i2 q]
    by_cases hq : (q.x - t.x, q.y - t.y) ∈ l
    · rw [if_pos hq, if_pos (List.mem_cons_of_mem _ hq), Get_Set _ _ _ _ hwf, if_neg]
      intro he
      have h1 := congrArg fungeVector.x he
      have h2 := congrArg fungeVector.y he
      simp only at h1 h2
      exact hdis a (List.mem_cons_self _ _) _ (List.mem_cons_of_mem _ hq) ⟨h1, h2⟩
    · rw [if_neg hq, Get_Set _ _ _ _ hwf]
      by_cases ha : (q.x - t.x, q.y - t.y) = a
      · have hmem : (q.x - t.x, q.y - t.y) ∈ a :: l := by
          rw [ha]
          exact List.mem_cons_self _ _
        rw [if_pos hmem]
        have hqa : q = ⟨a.1 + t.x, a.2 + t.y⟩ := by
          rw [← ha]
          obtain ⟨qx, qy⟩ := q
          simp only [fungeVector.mk.injEq]
          omega
        rw [if_pos hqa, ← ha]
      · have hmem : ¬ (q.x - t.x, q.y - t.y) ∈ a :: l := by
          intro hm
          rcases List.mem_cons.1 hm with h | h
          · exact ha h
          · exact hq h
        rw [if_neg hmem, if_neg]
        intro he
        apply ha
        rw [he]
        obtain ⟨a1, a2⟩ := a
        simp only [Prod.mk.injEq]
        omega

/-- The corners after `copyList` are the componentwise minimum and maximum of
the corners before and of the targets, whatever the order of the list. -/
theorem copyList_corners (o t : fungeVector) :
    ∀ (l : List (Int × Int)) (s : fungeSpace) (z : Int),
      (z ≤ (copyList o t l s).topLeftCorner.x
          ↔ z ≤ s.topLeftCorner.x ∧ ∀ a ∈ l, z ≤ a.1 + t.x)
      ∧ (z ≤ (copyList o t l s).topLeftCorner.y
          ↔ z ≤ s.topLeftCorner.y ∧ ∀ a ∈ l, z ≤ a.2 + t.y)
      ∧ ((copyList o t l s).bottomRightCorner.x ≤ z
          ↔ s.bottomRightCorner.x ≤ z ∧ ∀ a ∈ l, a.1 + t.x ≤ z)
      ∧ ((copyList o t l s).bottomRightCorner.y ≤ z
          ↔ s.bottomRightCorner.y ≤ z ∧ ∀ a ∈ l, a.2 + t.y ≤ z) := by
  intro l
  induction l with
  | nil =>
    intro s z
    simp [copyList]
  | cons a l ih =>
    intro s z
    rw [copyList_cons, copyCell_eq]
    obtain ⟨c1, c2⟩ := Set_corners (FungeSpaceGet s ⟨a.1 + o.x, a.2 + o.y⟩)
      ⟨a.1 + t.x, a.2 + t.y⟩ s
    generalize FungeSpaceSet (FungeSpaceGet s ⟨a.1 + o.x, a.2 + o.y⟩)
      ⟨a.1 + t.x, a.2 + t.y⟩ s = s1 at c1 c2
    obtain ⟨i1, i2, i3, i4⟩ := ih s1 z
    generalize copyList o t l s1 = s2 at i1 i2 i3 i4
    rw [c1] at i1 i2
    rw [c2] at i3 i4
    simp only [le_min_iff, max_le_iff] at i1 i2 i3 i4
    simp only [List.forall_mem_cons]
    exact ⟨i1.trans and_assoc, i2.trans and_assoc, i3.trans and_assoc, i4.trans and_assoc⟩

/-- Two lists with the same members give the same corners. -/
theorem copyList_corners_eq (o t : fungeVector) (l1 l2 : List (Int × Int)) (s : fungeSpace)
    (h : ∀ a, a ∈ l1 ↔ a ∈ l2) :
    (copyList o t l1 s).topLeftCorner = (copyList o t l2 s).topLeftCorner
    ∧ (copyList o t l1 s).bottomRightCorner = (copyList o t l2 s).bottomRightCorner := by
  have key : ∀ (la lb : List (Int × Int)), (∀ a, a ∈ la → a ∈ lb) →
      (copyList o t lb s).topLeftCorner.x ≤ (copyList o t la s).topLeftCorner.x
      ∧ (copyList o t lb s).topLeftCorner.y ≤ (copyList o t la s).topLeftCorner.y
      ∧ (copyList o t la s).bottomRightCorner.x ≤ (copyList o t lb s).bottomRightCorner.x
      ∧ (copyList o t la s).bottomRightCorner.y ≤ (copyList o t lb s).bottomRightCorner.y := by
    intro la lb hab
    refine ⟨?_, ?_, ?_, ?_⟩
    · obtain ⟨b1, _, _, _⟩ := copyList_corners o t lb s (copyList o t lb s).topLeftCorner.x
      obtain ⟨a1, _, _, _⟩ := copyList_corners o t la s (copyList o t lb s).topLeftCorner.x
      have hb := b1.1 (le_refl _)
      exact a1.2 ⟨hb.1, fun a ha => hb.2 a (hab a ha)⟩
    · obtain ⟨_, b1, _, _⟩ := copyList_corners o t lb s (copyList o t lb s).topLeftCorner.y
      obtain ⟨_, a1, _, _⟩ := copyList_corners o t la s (copyList o t lb s).topLeftCorner.y
      have hb := b1.1 (le_refl _)
      exact a1.2 ⟨hb.1, fun a ha => hb.2 a (hab a ha)⟩
    · obtain ⟨_, _, b1, _⟩ := copyList_corners o t lb s (copyList o t lb s).bottomRightCorner.x
      obtain ⟨_, _, a1, _⟩ := copyList_corners o t la s (copyList o t lb s).bottomRightCorner.x
      have hb := b1.1 (le_refl _)
      exact a1.2 ⟨hb.1, fun a ha => hb.2 a (hab a ha)⟩
    · obtain ⟨_, _, _, b1⟩ := copyList_corners o t lb s (copyList o t lb s).bottomRightCorner.y
      obtain ⟨_, _, _, a1⟩ := copyList_corners o t la s (copyList o t lb s).bottomRightCorner.y
      have hb := b1.1 (le_refl _)
      exact a1.2 ⟨hb.1, fun a ha => hb.2 a (hab a ha)⟩
  obtain ⟨p1, p2, p3, p4⟩ := key l1 l2 (fun a ha => (h a).1 ha)
  obtain ⟨q1, q2, q3, q4⟩ := key l2 l1 (fun a ha => (h a).2 ha)
  constructor
  · generalize (copyList o t l1 s).topLeftCorner = u at *
    generalize (copyList o t l2 s).topLeftCorner = v at *
    obtain ⟨ux, uy⟩ := u
    obtain ⟨vx, vy⟩ := v
    simp only [fungeVector.mk.injEq] at *
    omega
  · generalize (copyList o t l1 s).bottomRightCorner = u at *
    generalize (copyList o t l2 s).bottomRightCorner = v at *
    obtain ⟨ux, uy⟩ := u
    obtain ⟨vx, vy⟩ := v
    simp only [fungeVector.mk.injEq] at *
    omega

theorem mem_block_up (d : fungeVector) (hx : 0 < d.x) (hy : 0 < d.y) (a : Int × Int) :
    a ∈ colsUp d.y.toNat d.x.toNat 0 ↔ 0 ≤ a.1 ∧ a.1 < d.x ∧ 0 ≤ a.2 ∧ a.2 < d.y := by
  obtain ⟨a1, a2⟩ := a
  rw [mem_colsUp, Int.toNat_of_nonneg (le_of_lt hx), Int.toNat_of_nonneg (le_of_lt hy)]
  simp only
  omega

theorem mem_block_down (d : fungeVector) (hx : 0 < d.x) (hy : 0 < d.y) (a : Int × Int) :
    a ∈ colsDown d.y.toNat d.x.toNat ↔ 0 ≤ a.1 ∧ a.1 < d.x ∧ 0 ≤ a.2 ∧ a.2 < d.y := by
  obtain ⟨a1, a2⟩ := a
  rw [mem_colsDown, Int.toNat_of_nonneg (le_of_lt hx), Int.toNat_of_nonneg (le_of_lt hy)]

theorem bracelet_eq (fspace : fungeSpace) (ip : instructionPointer) (t d o : fungeVector)
    (rest : List Int)
    (hs : ip.stack = StackPushVector (StackPushVector (StackPushVector rest o) d) t) :
    FingerTOYSbracelet fspace ip
      = if d.x = 0 ∨ d.y = 0 then ({ ip with stack := rest }, fspace)
        else if d.x < 0 ∨ d.y < 0 then (ipReverse { ip with stack := rest }, fspace)
        else ({ ip with stack := rest },
              copyList o t (colsUp d.y.toNat d.x.toNat 0) fspace) := by
  simp only [FingerTOYSbracelet, hs, StackPopVector, StackPushVector, StackPush, StackPop,
    braceletCols_list]

theorem scissors_eq (fspace : fungeSpace) (ip : instructionPointer) (t d o : fungeVector)
    (rest : List Int)
    (hs : ip.stack = StackPushVector (StackPushVector (StackPushVector rest o) d) t) :
    FingerTOYSscissors fspace ip
      = if d.x = 0 ∨ d.y = 0 then ({ ip with stack := rest }, fspace)
        else if d.x < 0 ∨ d.y < 0 then (ipReverse { ip with stack := rest }, fspace)
        else ({ ip with stack := rest },
              copyList o t (colsDown d.y.toNat d.x.toNat) fspace) := by
  simp only [FingerTOYSscissors, hs, StackPopVector, StackPushVector, StackPush, StackPop,
    scissorsCols_list]

/-- C29: C (bracelet) and K (scissors) with the operands o, d, t on a stack
above `rest`, on a well-formed space. With d.x > 0 and d.y > 0 and the source
block o + (x, y) and the target block t + (x, y) disjoint, both leave the same
instruction pointer and the same Funge-space (the same cell at every position
and the same corners), in which every target cell t + (x, y) holds what the
source cell o + (x, y) held before and every other cell is unchanged. With
d.x < 0 or d.y < 0, and both non-zero, both reflect and leave the space as it
was. -/
theorem C29_bracelet_scissors (fspace : fungeSpace) (ip : instructionPointer)
    (t d o : fungeVector) (rest : List Int) (hwf : WF fspace)
    (hs : ip.stack = StackPushVector (StackPushVector (StackPushVector rest o) d) t) :
    (0 < d.x → 0 < d.y →
      (∀ x y x' y' : Int, 0 ≤ x → x < d.x → 0 ≤ y → y < d.y →
        0 ≤ x' → x' < d.x → 0 ≤ y' → y' < d.y →
        ¬ (x + o.x = x' + t.x ∧ y + o.y = y' + t.y)) →
      (FingerTOYSbracelet fspace ip).1 = (FingerTOYSscissors fspace ip).1
      ∧ (∀ p, FungeSpaceGet (FingerTOYSbracelet fspace ip).2 p
            = FungeSpaceGet (FingerTOYSscissors fspace ip).2 p)
      ∧ (FingerTOYSbracelet fspace ip).2.topLeftCorner
          = (FingerTOYSscissors fspace ip).2.topLeftCorner
      ∧ (FingerTOYSbracelet fspace ip).2.bottomRightCorner
          = (FingerTOYSscissors fspace ip).2.bottomRightCorner
      ∧ (∀ x y : Int, 0 ≤ x → x < d.x → 0 ≤ y → y < d.y →
          FungeSpaceGet (FingerTOYSbracelet fspace ip).2 ⟨x + t.x, y + t.y⟩
            = FungeSpaceGet fspace ⟨x + o.x, y + o.y⟩)
      ∧ (∀ p : fungePosition,
          ¬ (t.x ≤ p.x ∧ p.x < t.x + d.x ∧ t.y ≤ p.y ∧ p.y < t.y + d.y) →
          FungeSpaceGet (FingerTOYSbracelet fspace ip).2 p = FungeSpaceGet fspace p))
    ∧ ((d.x < 0 ∨ d.y < 0) → d.x ≠ 0 → d.y ≠ 0 →
      FingerTOYSbracelet fspace ip = (ipReverse { ip with stack := rest }, fspace)
      ∧ FingerTOYSscissors fspace ip = (ipReverse { ip with stack := rest }, fspace)) := by
  rw [bracelet_eq fspace ip t d o rest hs, scissors_eq fspace ip t d o rest hs]
  constructor
  · intro hx hy hdis
    have h0 : ¬ (d.x = 0 ∨ d.y = 0) := by omega
    have h1 : ¬ (d.x < 0 ∨ d.y < 0) := by omega
    simp only [if_neg h0, if_neg h1]
    have hdU : ∀ a ∈ colsUp d.y.toNat d.x.toNat 0, ∀ b ∈ colsUp d.y.toNat d.x.toNat 0,
        ¬ (b.1 + o.x = a.1 + t.x ∧ b.2 + o.y = a.2 + t.y) := by
      intro a ha b hb
      rw [mem_block_up d hx hy] at ha hb
      exact hdis b.1 b.2 a.1 a.2 hb.1 hb.2.1 hb.2.2.1 hb.2.2.2 ha.1 ha.2.1 ha.2.2.1 ha.2.2.2
    have hdD : ∀ a ∈ colsDown d.y.toNat d.x.toNat, ∀ b ∈ colsDown d.y.toNat d.x.toNat,
        ¬ (b.1 + o.x = a.1 + t.x ∧ b.2 + o.y = a.2 + t.y) := by
      intro a ha b hb
      rw [mem_block_down d hx hy] at ha hb
      exact hdis b.1 b.2 a.1 a.2 hb.1 hb.2.1 hb.2.2.1 hb.2.2.2 ha.1 ha.2.1 ha.2.2.1 ha.2.2.2
    obtain ⟨_, gU⟩ := copyList_get o t _ fspace hwf hdU
    obtain ⟨_, gD⟩ := copyList_get o t _ fspace hwf hdD
    obtain ⟨k1, k2⟩ := copyList_corners_eq o t (colsUp d.y.toNat d.x.toNat 0)
      (colsDown d.y.toNat d.x.toNat) fspace
      (fun a => (mem_block_up d hx hy a).trans (mem_block_down d hx hy a).symm)
    refine ⟨trivial, ?_, k1, k2, ?_, ?_⟩
    · intro p
      rw [gU p, gD p]
      by_cases hp : (p.x - t.x, p.y - t.y) ∈ colsUp d.y.toNat d.x.toNat 0
      · rw [if_pos hp, if_pos ((mem_block_down d hx hy _).2 ((mem_block_up d hx hy _).1 hp))]
      · rw [if_neg hp, if_neg]
        intro hp2
        exact hp ((mem_block_up d hx hy _).2 ((mem_block_down d hx hy _).1 hp2))
    · intro x y x0 x1 y0 y1
      rw [gU, if_pos]
      · simp only
        congr 2 <;> omega
      · rw [mem_block_up d hx hy]
        simp only
        omega
    · intro p hp
      rw [gU, if_neg]
      rw [mem_block_up d hx hy]
      simp only
      omega
  · intro hneg hx hy
    have h0 : ¬ (d.x = 0 ∨ d.y = 0) := by omega
    simp only [if_neg h0, if_pos hneg, and_self]

/-- C29, witness: the space holds `a` at (0,0); the operands are o = (0,0),
d = (1,1), t = (2,0) above 7. After C the cell (2,0) holds `a`, and after K the
cell (2,0) holds what it holds after C. -/
theorem C29_bracelet_scissors_witness :
    FungeSpaceGet (FingerTOYSbracelet (FungeSpaceSet 97 ⟨0, 0⟩ FungeSpaceCreate)
        ⟨[0, 2, 1, 1, 0, 0, 7], ⟨0, 0⟩, ⟨1, 0⟩, ⟨0, 0⟩⟩).2 ⟨2, 0⟩ = 97
    ∧ FungeSpaceGet (FingerTOYSbracelet (FungeSpaceSet 97 ⟨0, 0⟩ FungeSpaceCreate)
        ⟨[0, 2, 1, 1, 0, 0, 7], ⟨0, 0⟩, ⟨1, 0⟩, ⟨0, 0⟩⟩).2 ⟨2, 0⟩
      = FungeSpaceGet (FingerTOYSscissors (FungeSpaceSet 97 ⟨0, 0⟩ FungeSpaceCreate)
        ⟨[0, 2, 1, 1, 0, 0, 7], ⟨0, 0⟩, ⟨1, 0⟩, ⟨0, 0⟩⟩).2 ⟨2, 0⟩ :=
  ⟨(((C29_bracelet_scissors (FungeSpaceSet 97 ⟨0, 0⟩ FungeSpaceCreate)
        ⟨[0, 2, 1, 1, 0, 0, 7], ⟨0, 0⟩, ⟨1, 0⟩, ⟨0, 0⟩⟩ ⟨2, 0⟩ ⟨1, 1⟩ ⟨0, 0⟩ [7]
        (WF_Set _ _ _ WF_Create) rfl).1 (by decide) (by decide)
        (by intro x y x' y' _ h2 _ h4 _ h6 _ h8; simp only at h2 h4 h6 h8 ⊢; omega)).2.2.2.2.1 0 0
        (by decide) (by decide) (by decide) (by decide)).trans (by decide),
   ((C29_bracelet_scissors (FungeSpaceSet 97 ⟨0, 0⟩ FungeSpaceCreate)
        ⟨[0, 2, 1, 1, 0, 0, 7], ⟨0, 0⟩, ⟨1, 0⟩, ⟨0, 0⟩⟩ ⟨2, 0⟩ ⟨1, 1⟩ ⟨0, 0⟩ [7]
        (WF_Set _ _ _ WF_Create) rfl).1 (by decide) (by decide)
        (by intro x y x' y' _ h2 _ h4 _ h6 _ h8; simp only at h2 h4 h6 h8 ⊢; omega)).2.1 ⟨2, 0⟩⟩

/-! ## Theorems: `RunIterate` in the build with `CONCURRENT_FUNGE` -/

theorem iterLoopConcurrent_other {ω : Type} (exec : Int → Nat → ConcInterp ω → ConcInterp ω)
    (dup : List instructionPointer → Nat → List instructionPointer × Nat)
    (I : Int) (ip : Nat) (hI : I ≠ 116) (n : Nat) (m : ConcInterp ω) :
    iterLoopConcurrent exec dup I ip n m = (exec I ip)^[n] m := by
  induction n generalizing m with
  | zero => rfl
  | succ n ih =>
    rw [iterLoopConcurrent, if_neg hI, ih]
    rfl

/-- The `default` case of `RunIterate` in the build with `CONCURRENT_FUNGE`:
with a positive count and a target other than `z`, `k` and `@`, the result is
the state after the loop, passed through the Funge-108 check on the entry that
`ip` points to at the end: `ips[oldindex]` for `t`, the entry of the start
otherwise. -/
theorem RunIterateConcurrent_default {ω : Type}
    (exec : Int → Nat → ConcInterp ω → ConcInterp ω)
    (dup : List instructionPointer → Nat → List instructionPointer × Nat)
    (std : standardVersion) (fuel : Nat) (ip : Nat) (m : ConcInterp ω)
    (ip0 : instructionPointer) (I : Int) (ipI : instructionPointer)
    (hcur : m.IPList[ip]? = some ip0)
    (hN : 0 < (StackPop ip0.stack).1)
    (hfetch : fetchInstr m.fspace fuel
        ⟨(StackPop ip0.stack).2, ip0.position, ip0.delta, ip0.storageOffset⟩
      = some (I, ipI))
    (hz : I ≠ 122) (hk : I ≠ 107) (hat : I ≠ 64) :
    RunIterateConcurrent exec dup std fuel ip m
      = (movePastAt std ip0.delta ip0.position ipI.position
          (if I = 116 then m.threadindex else ip)
          (iterLoopConcurrent exec dup I ip (StackPop ip0.stack).1.toNat
            { m with
              IPList := m.IPList.set ip
                ⟨(StackPop ip0.stack).2, ip0.position, ip0.delta, ip0.storageOffset⟩ })).map
        (fun m5 => ((if I = 116 then m.threadindex else ip), m5)) := by
  have hf := fetchInstr_fields _ _ _ _ _ hfetch
  have hs : ipI.stack = (StackPop ip0.stack).2 := by rw [hf]
  have ho : ipI.storageOffset = ip0.storageOffset := by rw [hf]
  have hd : ipI.delta = ip0.delta := by rw [hf]
  unfold RunIterateConcurrent
  have h0 : (StackPop ip0.stack).1 ≠ 0 := by omega
  have h1 : ¬ (StackPop ip0.stack).1 < 0 := by omega
  simp only [hcur, h0, h1, if_false, hfetch, hz, hk, hat, hs, ho, hd]

/-- The other branches of `RunIterate` in the build with `CONCURRENT_FUNGE`:
no entry under `ip` or a fetch that runs out of fuel gives no result; the
count 0 moves the entry one step forward; a negative count reverses it; the
targets `z`, `k` and `@` leave the entry on k, reverse it there, and hand it to
the dispatcher once. -/
theorem RunIterateConcurrent_branches {ω : Type}
    (exec : Int → Nat → ConcInterp ω → ConcInterp ω)
    (dup : List instructionPointer → Nat → List instructionPointer × Nat)
    (std : standardVersion) (fuel : Nat) (ip : Nat) (m : ConcInterp ω) :
    (m.IPList[ip]? = none → RunIterateConcurrent exec dup std fuel ip m = none)
    ∧ ∀ ip0 : instructionPointer, m.IPList[ip]? = some ip0 →
      ((StackPop ip0.stack).1 = 0 →
        RunIterateConcurrent exec dup std fuel ip m = some
          (ip, { m with
            IPList := m.IPList.set ip
              (ipForward m.fspace
                ⟨(StackPop ip0.stack).2, ip0.position, ip0.delta, ip0.storageOffset⟩ 1) }))
      ∧ ((StackPop ip0.stack).1 < 0 →
        RunIterateConcurrent exec dup std fuel ip m = some
          (ip, { m with
            IPList := m.IPList.set ip
              ⟨(StackPop ip0.stack).2, ip0.position,
                ⟨-ip0.delta.x, -ip0.delta.y⟩, ip0.storageOffset⟩ }))
      ∧ (0 < (StackPop ip0.stack).1 →
          (fetchInstr m.fspace fuel
              ⟨(StackPop ip0.stack).2, ip0.position, ip0.delta, ip0.storageOffset⟩ = none →
            RunIterateConcurrent exec dup std fuel ip m = none)
          ∧ ∀ (I : Int) (ipI : instructionPointer),
            fetchInstr m.fspace fuel
              ⟨(StackPop ip0.stack).2, ip0.position, ip0.delta, ip0.storageOffset⟩
              = some (I, ipI) →
            (I = 122 →
              RunIterateConcurrent exec dup std fuel ip m = some
                (ip, { m with
                  IPList := m.IPList.set ip
                    ⟨(StackPop ip0.stack).2, ip0.position, ip0.delta, ip0.storageOffset⟩ }))
            ∧ (I = 107 →
              RunIterateConcurrent exec dup std fuel ip m = some
                (ip, { m with
                  IPList := m.IPList.set ip
                    ⟨(StackPop ip0.stack).2, ip0.position,
                      ⟨-ip0.delta.x, -ip0.delta.y⟩, ip0.storageOffset⟩ }))
            ∧ (I = 64 →
              RunIterateConcurrent exec dup std fuel ip m = some
                (ip, exec 64 ip { m with
                  IPList := m.IPList.set ip
                    ⟨(StackPop ip0.stack).2, ip0.position, ip0.delta,
                      ip0.storageOffset⟩ }))) := by
  refine ⟨?_, ?_⟩
  · intro h
    simp only [RunIterateConcurrent, h]
  · intro ip0 hcur
    refine ⟨?_, ?_, ?_⟩
    · intro h0
      simp only [RunIterateConcurrent, hcur, h0, if_true]
    · intro h1
      have h0 : (StackPop ip0.stack).1 ≠ 0 := by omega
      simp only [RunIterateConcurrent, hcur, h0, h1, if_false, if_true, ipReverse]
    · intro hN
      have h0 : (StackPop ip0.stack).1 ≠ 0 := by omega
      have h1 : ¬ (StackPop ip0.stack).1 < 0 := by omega
      refine ⟨?_, ?_⟩
      · intro hf
        simp only [RunIterateConcurrent, hcur, h0, h1, if_false, hf]
      · intro I ipI hfetch
        have hf := fetchInstr_fields _ _ _ _ _ hfetch
        have hs : ipI.stack = (StackPop ip0.stack).2 := by rw [hf]
        have ho : ipI.storageOffset = ip0.storageOffset := by rw [hf]
        have hd : ipI.delta = ip0.delta := by rw [hf]
        refine ⟨?_, ?_, ?_⟩
        · intro hI
          subst hI
          simp only [RunIterateConcurrent, hcur, h0, h1, if_false, hfetch, if_true, hs, ho, hd]
        · intro hI
          subst hI
          have h122 : (107 : Int) ≠ 122 := by decide
          simp only [RunIterateConcurrent, hcur, h0, h1, if_false, hfetch, if_true, hs, ho, hd,
            h122, ipReverse]
        · intro hI
          subst hI
          have h122 : (64 : Int) ≠ 122 := by decide
          have h107 : (64 : Int) ≠ 107 := by decide
          simp only [RunIterateConcurrent, hcur, h0, h1, if_false, hfetch, if_true, hs, ho, hd,
            h122, h107]

/-- The Funge-108 check on an entry whose delta or position changed, and the
check in the other modes, leave the state as it is; the check on no entry
gives no result. -/
theorem movePastAt_unchanged {ω : Type} (std : standardVersion)
    (olddelta : ipDelta) (oldpos posinstr : fungePosition) (ip : Nat) (m : ConcInterp ω) :
    (std ≠ standardVersion.stdver108 →
      movePastAt std olddelta oldpos posinstr ip m = some m)
    ∧ (std = standardVersion.stdver108 → m.IPList[ip]? = none →
      movePastAt std olddelta oldpos posinstr ip m = none)
    ∧ (∀ cur : instructionPointer, std = standardVersion.stdver108 →
        m.IPList[ip]? = some cur →
        (cur.delta ≠ olddelta ∨ cur.position ≠ oldpos) →
        movePastAt std olddelta oldpos posinstr ip m = some m) := by
  refine ⟨?_, ?_, ?_⟩
  · intro hs
    simp only [movePastAt, hs, if_false]
  · intro hs hn
    simp only [movePastAt, hs, if_true, hn]
  · intro cur hs hc hne
    have hcond : ¬ (olddelta.x = cur.delta.x ∧ olddelta.y = cur.delta.y
        ∧ oldpos.x = cur.position.x ∧ oldpos.y = cur.position.y) := by
      rintro ⟨a, b, c, d⟩
      have e1 : cur.delta = olddelta := by
        cases hd : cur.delta
        cases ho : olddelta
        rw [hd, ho] at a b
        simp only at a b
        rw [a, b]
      have e2 : cur.position = oldpos := by
        cases hd : cur.position
        cases ho : oldpos
        rw [hd, ho] at c d
        simp only at c d
        rw [c, d]
      rcases hne with h | h
      · exact h e1
      · exact h e2
    simp only [movePastAt, hs, if_true, hc, hcond, if_false]

/-- C6: for every count N > 0 popped by k and every target instruction I that
the fetch finds, other than `z`, `k` and `@` (and, in the build with
`CONCURRENT_FUNGE`, other than `t`), `RunIterate` applies the dispatcher to I
exactly N times in sequence, each time to the state left by the previous
application; the first application gets the state in which the count is popped,
the position is that of the k cell and the delta is unchanged. This holds in
both builds, for every dispatcher (and every `ipListDuplicateIP`); the result is
what the last application leaves, up to the Funge-108 adjustment of the
position, which Funge-98 does not make. -/
theorem C6_iterate_executes_N_times {ω : Type}
    (exec : Int → Interp ω → Interp ω)
    (execC : Int → Nat → ConcInterp ω → ConcInterp ω)
    (dup : List instructionPointer → Nat → List instructionPointer × Nat)
    (std : standardVersion) (fuel : Nat) (m : Interp ω)
    (I : Int) (ipI : instructionPointer)
    (ip : Nat) (mc : ConcInterp ω) (ip0 : instructionPointer)
    (Ic : Int) (ipIc : instructionPointer)
    (hN : 0 < (StackPop m.ip.stack).1)
    (hfetch : fetchInstr m.fspace fuel
        ⟨(StackPop m.ip.stack).2, m.ip.position, m.ip.delta, m.ip.storageOffset⟩
      = some (I, ipI))
    (hz : I ≠ 122) (hk : I ≠ 107) (hat : I ≠ 64)
    (hcur : mc.IPList[ip]? = some ip0)
    (hNc : 0 < (StackPop ip0.stack).1)
    (hfetchc : fetchInstr mc.fspace fuel
        ⟨(StackPop ip0.stack).2, ip0.position, ip0.delta, ip0.storageOffset⟩
      = some (Ic, ipIc))
    (hzc : Ic ≠ 122) (hkc : Ic ≠ 107) (hatc : Ic ≠ 64) (htc : Ic ≠ 116) :
    RunIterate exec std fuel m = some
      (movePast std m.ip.delta m.ip.position ipI.position
        ((exec I)^[(StackPop m.ip.stack).1.toNat]
          { ip := ⟨(StackPop m.ip.stack).2, m.ip.position, m.ip.delta, m.ip.storageOffset⟩,
            fspace := m.fspace, world := m.world }))
    ∧ (std = standardVersion.stdver98 →
        RunIterate exec std fuel m = some
          ((exec I)^[(StackPop m.ip.stack).1.toNat]
            { ip := ⟨(StackPop m.ip.stack).2, m.ip.position, m.ip.delta, m.ip.storageOffset⟩,
              fspace := m.fspace, world := m.world }))
    ∧ RunIterateConcurrent execC dup std fuel ip mc
        = (movePastAt std ip0.delta ip0.position ipIc.position ip
            ((execC Ic ip)^[(StackPop ip0.stack).1.toNat]
              { mc with
                IPList := mc.IPList.set ip
                  ⟨(StackPop ip0.stack).2, ip0.position, ip0.delta, ip0.storageOffset⟩ })).map
          (fun m5 => (ip, m5))
    ∧ (std = standardVersion.stdver98 →
        RunIterateConcurrent execC dup std fuel ip mc = some
          (ip, (execC Ic ip)^[(StackPop ip0.stack).1.toNat]
              { mc with
                IPList := mc.IPList.set ip
                  ⟨(StackPop ip0.stack).2, ip0.position, ip0.delta, ip0.storageOffset⟩ })) := by
  have h := RunIterate_default exec std fuel m I ipI hN hfetch hz hk hat
  have hc := RunIterateConcurrent_default execC dup std fuel ip mc ip0 Ic ipIc hcur hNc hfetchc
    hzc hkc hatc
  rw [if_neg htc, iterLoopConcurrent_other execC dup Ic ip htc] at hc
  refine ⟨h, fun hs => ?_, hc, fun hs => ?_⟩
  · rw [h, hs]
    rfl
  · rw [hc, hs]
    rfl

/-- C6, witness: in `3k 5@` under Funge-98 the target 5, found behind a space,
is executed three times at k, in the build without `CONCURRENT_FUNGE` and, with
one instruction pointer in the list, in the build with it. -/
theorem C6_iterate_executes_N_times_witness :
    (RunIterate ExecuteInstructionNoK standardVersion.stdver98 9
        (stateAt (bytesOf "3k 5@") [3, 7] ⟨1, 0⟩)).map (fun r => (r.ip, r.world))
      = some (⟨[5, 5, 5, 7], ⟨1, 0⟩, ⟨1, 0⟩, ⟨0, 0⟩⟩, ⟨"", none⟩)
    ∧ (RunIterateConcurrent ExecuteInstructionAt duplicateInNextSlot
        standardVersion.stdver98 9 0
        ⟨[⟨[3, 7], ⟨1, 0⟩, ⟨1, 0⟩, ⟨0, 0⟩⟩], 0,
          FungeSpaceLoad (bytesOf "3k 5@") FungeSpaceCreate, ⟨"", none⟩⟩).map
        (fun r => (r.1, r.2.threadindex, r.2.IPList, r.2.world))
      = some (0, 0, [⟨[5, 5, 5, 7], ⟨1, 0⟩, ⟨1, 0⟩, ⟨0, 0⟩⟩], ⟨"", none⟩) := by
  have h := C6_iterate_executes_N_times ExecuteInstructionNoK ExecuteInstructionAt
    duplicateInNextSlot standardVersion.stdver98 9
    (stateAt (bytesOf "3k 5@") [3, 7] ⟨1, 0⟩) 53 ⟨[7], ⟨3, 0⟩, ⟨1, 0⟩, ⟨0, 0⟩⟩
    0 ⟨[⟨[3, 7], ⟨1, 0⟩, ⟨1, 0⟩, ⟨0, 0⟩⟩], 0,
        FungeSpaceLoad (bytesOf "3k 5@") FungeSpaceCreate, ⟨"", none⟩⟩
    ⟨[3, 7], ⟨1, 0⟩, ⟨1, 0⟩, ⟨0, 0⟩⟩ 53 ⟨[7], ⟨3, 0⟩, ⟨1, 0⟩, ⟨0, 0⟩⟩
    (by decide) (by decide) (by decide) (by decide) (by decide)
    (by decide) (by decide) (by decide) (by decide) (by decide) (by decide) (by decide)
  refine ⟨?_, ?_⟩
  · rw [h.2.1 rfl]
    decide
  · rw [h.2.2.2 rfl]
    decide

end Cfunge
